import Mathlib

/-!
# OBJ loader (`obj_parse.h`): a shallow embedding and its verified properties

The header is embedded function by function, under the names it uses.

Modelling conventions.

* `std::string` is a list of characters (`Str`); `std::vector<T>` is `List T`.
* `float` is an arbitrary linearly ordered commutative ring `R` (exact arithmetic: no rounding, no
  NaN, no infinities).  The theorems hold for every such `R` (the integers, the rationals, the
  reals); the closed examples are evaluated over the integers.  Functions of the C library that
  have no exact counterpart (`std::stof`, `acosf`) are fields of `Env`, over which every theorem
  quantifies.
* `size_t`, `int` and `unsigned int` values that count or index the elements of a vector are
  unbounded (`Nat`, `Int`): vectors are taken to be shorter than `2^31`, so that no conversion
  between these types changes a value.  The one place where the range of `int` is observable,
  the `std::out_of_range` exception of `std::stoi`, is modelled.
* A function that can throw, read outside a vector or loop forever returns `Except Fault _`.
* `LoadMaterials` reads its buffer as a C string although nothing terminates it.  When the buffer
  holds no NUL the read runs on into the memory behind the buffer; the bytes found there are not
  determined by the program and are a field of `Env` (`afterBuffer`).
-/

namespace objl

/-- A `std::string`, as the sequence of its characters. -/
abbrev Str := List Char

/-- The ways in which a call can fail to return normally. -/
inductive Fault where
  /-- The exception `std::invalid_argument` (thrown by `std::stoi` and `std::stof`). -/
  | invalid_argument
  /-- The exception `std::out_of_range` (thrown by `std::stoi` and `std::stof`). -/
  | out_of_range
  /-- An unchecked `operator[]` outside the bounds of a vector: undefined behaviour, no error is
  reported by the program. -/
  | out_of_bounds
  /-- The call never returns. -/
  | diverges
deriving DecidableEq, Repr

deriving instance DecidableEq for Except

/-! ## Data model (lines 31-190) -/

/-- The structure `Vector2`. -/
structure Vector2 (R : Type) where
  X : R
  Y : R
deriving DecidableEq, Repr

/-- The structure `Vector3`; `operator==` (lines 86-89) is componentwise equality, which is the
equality of the structure. -/
structure Vector3 (R : Type) where
  X : R
  Y : R
  Z : R
deriving DecidableEq, Repr

/-- The `operator-` of `Vector3` (lines 103-106). -/
instance instSubVector3 {R : Type} [Sub R] : Sub (Vector3 R) :=
  ⟨fun lhs rhs => ⟨lhs.X - rhs.X, lhs.Y - rhs.Y, lhs.Z - rhs.Z⟩⟩

/-- The structure `Vertex`. -/
structure Vertex (R : Type) where
  Position : Vector3 R
  Normal : Vector3 R
  TextureCoordinate : Vector2 R
deriving DecidableEq, Repr

/-- The structure `Material`. -/
structure Material (R : Type) where
  name : Str
  Ka : Vector3 R
  Kd : Vector3 R
  Ks : Vector3 R
  Ns : R
  Ni : R
  d : R
  illum : Int
  map_Ka : Str
  map_Kd : Str
  map_Ks : Str
  map_Ns : Str
  map_d : Str
  map_bump : Str
deriving DecidableEq, Repr

/-- The structure `Mesh`. -/
structure Mesh (R : Type) where
  MeshName : Str
  Vertices : List (Vertex R)
  Indices : List Nat
  MeshMaterial : Material R
deriving DecidableEq, Repr

/-- A default-constructed `Vertex` (all members zero). -/
def Vertex.default (R : Type) [Zero R] : Vertex R :=
  ⟨⟨0, 0, 0⟩, ⟨0, 0, 0⟩, ⟨0, 0⟩⟩

/-- A default-constructed `Material` (empty strings, zero numbers). -/
def Material.default (R : Type) [Zero R] : Material R :=
  ⟨[], ⟨0, 0, 0⟩, ⟨0, 0, 0⟩, ⟨0, 0, 0⟩, 0, 0, 0, 0, [], [], [], [], [], []⟩

/-! ## namespace math (lines 196-232) -/

/-- The function `math::CrossV3`. -/
def CrossV3 {R : Type} [Mul R] [Sub R] (a b : Vector3 R) : Vector3 R :=
  ⟨a.Y * b.Z - a.Z * b.Y, a.Z * b.X - a.X * b.Z, a.X * b.Y - a.Y * b.X⟩

/-- The function `math::DotV3`. -/
def DotV3 {R : Type} [Mul R] [Add R] (a b : Vector3 R) : R :=
  (a.X * b.X) + (a.Y * b.Y) + (a.Z * b.Z)

/-- The test `math::MagnitudeV3(math::ProjV3(a, b)) == 0` made by `inTriangle`, in exact
arithmetic.  `ProjV3 a b` is `bn * DotV3 a bn` with `bn = b / MagnitudeV3 b`, so for `b ≠ 0` its
magnitude is `|DotV3 a b| / MagnitudeV3 b`, which is zero exactly when `DotV3 a b = 0`; for `b = 0`
the source divides zero by zero and the comparison of the resulting NaN with `0` is false.  The
test is stated without square root and division, so that it is computable. -/
def projMagnitudeIsZero {R : Type} [Mul R] [Add R] [Zero R] [DecidableEq R]
    (a b : Vector3 R) : Bool :=
  decide (b ≠ ⟨0, 0, 0⟩) && decide (DotV3 a b = 0)

/-! ## namespace algorithm (lines 238-375) -/

/-- The function `algorithm::SameSide`. -/
def SameSide {R : Type} [LinearOrderedCommRing R] (p1 p2 a b : Vector3 R) : Bool :=
  let cp1 := CrossV3 (b - a) (p1 - a)
  let cp2 := CrossV3 (b - a) (p2 - a)
  decide (DotV3 cp1 cp2 ≥ 0)

/-- The function `algorithm::GenTriNormal`. -/
def GenTriNormal {R : Type} [Mul R] [Sub R] (t1 t2 t3 : Vector3 R) : Vector3 R :=
  let u := t2 - t1
  let v := t3 - t1
  CrossV3 u v

/-- The function `algorithm::inTriangle`. -/
def inTriangle {R : Type} [LinearOrderedCommRing R] (point tri1 tri2 tri3 : Vector3 R) : Bool :=
  let within_tri_prisim := SameSide point tri1 tri2 tri3 && SameSide point tri2 tri1 tri3
    && SameSide point tri3 tri1 tri2
  if !within_tri_prisim then false
  else
    let n := GenTriNormal tri1 tri2 tri3
    projMagnitudeIsZero point n

/-- The loop body of `algorithm::split` for a delimiter of one character (every call of the header
passes `" "` or `"/"`): `temp` is the piece being collected, the result is what is appended to
`out` from here on.  The three branches are those of lines 301-323; on the last character of the
input (`i + token.size() >= in.size()`) a character that is not the delimiter closes the piece
and leaves the loop. -/
def splitLoop (token : Char) : Str → Str → List Str
  | [], _ => []
  | c :: rest, temp =>
    if c = token then
      if temp ≠ [] then temp :: splitLoop token rest []
      else [] :: splitLoop token rest []
    else if rest = [] then [temp ++ [c]]
    else splitLoop token rest (temp ++ [c])

/-- The function `algorithm::split` (for a delimiter of one character); the result is the final
value of `out`. -/
def split (inp : Str) (token : Char) : List Str :=
  splitLoop token inp []

/-- The first position at or after `i` (the position of the head of the list) whose character
satisfies `p`. -/
def findFrom (p : Char → Bool) : Str → Nat → Option Nat
  | [], _ => none
  | c :: cs, i => if p c then some i else findFrom p cs (i + 1)

/-- The member `std::string::find_first_of(set, pos)`; `none` is `std::string::npos`, as a
position and as a result. -/
def find_first_of (s set : Str) (pos : Option Nat) : Option Nat :=
  match pos with
  | none => none
  | some k => findFrom (fun c => decide (c ∈ set)) (s.drop k) k

/-- The member `std::string::find_first_not_of(set, pos)`. -/
def find_first_not_of (s set : Str) (pos : Option Nat) : Option Nat :=
  match pos with
  | none => none
  | some k => findFrom (fun c => decide (c ∉ set)) (s.drop k) k

/-- The member `std::string::find_last_not_of(set)`. -/
def find_last_not_of (s set : Str) : Option Nat :=
  (findFrom (fun c => decide (c ∉ set)) s.reverse 0).map (fun j => s.length - 1 - j)

/-- The member `std::string::substr(pos, n)`, for `pos` within the string. -/
def substr (s : Str) (pos n : Nat) : Str :=
  (s.drop pos).take n

/-- The characters `" \t"`. -/
def blanks : Str := [' ', '\t']

/-- The function `algorithm::tail`. -/
def tail (inp : Str) : Str :=
  let token_start := find_first_not_of inp blanks (some 0)
  let space_start := find_first_of inp blanks token_start
  let tail_start := find_first_not_of inp blanks space_start
  let tail_end := find_last_not_of inp blanks
  match tail_start, tail_end with
  | some ts, some te => substr inp ts (te - ts + 1)
  | some ts, none => inp.drop ts
  | none, _ => []

/-- The function `algorithm::firstToken`. -/
def firstToken (inp : Str) : Str :=
  if inp ≠ [] then
    let token_start := find_first_not_of inp blanks (some 0)
    let token_end := find_first_of inp blanks token_start
    match token_start, token_end with
    | some ts, some te => substr inp ts (te - ts)
    | some ts, none => inp.drop ts
    | none, _ => []
  else []

/-- The characters `std::isspace` accepts in the "C" locale. -/
def isspace (c : Char) : Bool :=
  c = ' ' || c = '\t' || c = '\n' || c = Char.ofNat 11 || c = Char.ofNat 12 || c = '\r'

/-- The value of a run of decimal digits. -/
def digitsValue (ds : Str) : Nat :=
  ds.foldl (fun acc c => 10 * acc + (c.toNat - 48)) 0

/-- The function `std::stoi` (base 10): leading white space is skipped, an optional sign and the
longest run of digits are read and what follows is ignored; no digit gives
`std::invalid_argument`, a value outside the range of `int` gives `std::out_of_range`. -/
def stoi (s : Str) : Except Fault Int :=
  let s1 := s.dropWhile isspace
  let neg := s1.head? = some '-'
  let s2 := if s1.head? = some '-' ∨ s1.head? = some '+' then s1.drop 1 else s1
  let ds := s2.takeWhile Char.isDigit
  if ds = [] then .error .invalid_argument
  else
    let v : Int := if neg then -(digitsValue ds : Int) else (digitsValue ds : Int)
    if v < -2147483648 ∨ 2147483647 < v then .error .out_of_range else .ok v

/-- An unchecked `elements[idx]`, the index converted to `size_t`: outside the vector the
behaviour is undefined. -/
def at_ {T : Type} (elements : List T) (idx : Int) : Except Fault T :=
  if idx < 0 then .error .out_of_bounds
  else
    match elements[idx.toNat]? with
    | some x => .ok x
    | none => .error .out_of_bounds

/-- The function `algorithm::getElement`. -/
def getElement {T : Type} (elements : List T) (index : Str) : Except Fault T := do
  let idx ← stoi index
  let idx := if idx < 0 then (elements.length : Int) + idx else idx - 1
  at_ elements idx

/-! ## The environment -/

/-- What the header takes from the C and C++ libraries and from the file system. -/
structure Env (R : Type) where
  /-- The function `std::stof`: the value read, or the exception thrown. -/
  stof : Str → Except Fault R
  /-- The value `math::AngleBetweenV3(a, b) * (180.0f / 3.14159265359f)` (computed with `sqrtf`
  and `acosf`). -/
  angleDeg : Vector3 R → Vector3 R → R
  /-- The bytes `std::ifstream file(path, std::ios::binary)` delivers, `none` when
  `file.good()` is false. -/
  readFile : Str → Option Str
  /-- The bytes that the memory holds behind the buffer of a `std::vector<uint8_t>` of the given
  contents, up to the first NUL found there (empty when the byte right behind the buffer is NUL).
  Reading them is an access outside the vector; nothing in the program determines them. -/
  afterBuffer : Str → Str

/-! ## Loader::GenVerticesFromRawOBJ (lines 696-803) -/

/-- The variables the loop over the vertex tokens of a face updates. -/
structure GenState (R : Type) where
  vVert : Vertex R
  noNormal : Bool
  o_verts : List (Vertex R)

/-- One iteration of the loop of lines 709-786.  The pieces of the token decide `vtype`: one piece
is case 1 (P), two are case 2 (P/T), three are case 4 (P/T/N) or, with an empty middle piece,
case 3 (P//N); any other number of pieces is `vtype == 0`, the `default` label, which stores
nothing.  `vVert` is declared outside the loop, so a member a case does not assign keeps the
value of the previous iteration. -/
def genStep {R : Type} [Zero R] (i_positions : List (Vector3 R)) (i_t_coords : List (Vector2 R))
    (i_normals : List (Vector3 R)) (st : GenState R) (face : Str) : Except Fault (GenState R) :=
  match split face '/' with
  | [p] => do
    let pos ← getElement i_positions p
    let v : Vertex R := { st.vVert with Position := pos, TextureCoordinate := ⟨0, 0⟩ }
    pure ⟨v, true, st.o_verts ++ [v]⟩
  | [p, t] => do
    let pos ← getElement i_positions p
    let tex ← getElement i_t_coords t
    let v : Vertex R := { st.vVert with Position := pos, TextureCoordinate := tex }
    pure ⟨v, true, st.o_verts ++ [v]⟩
  | [p, t, n] =>
    if t ≠ [] then do
      let pos ← getElement i_positions p
      let tex ← getElement i_t_coords t
      let nor ← getElement i_normals n
      let v : Vertex R := { Position := pos, TextureCoordinate := tex, Normal := nor }
      pure ⟨v, st.noNormal, st.o_verts ++ [v]⟩
    else do
      let pos ← getElement i_positions p
      let nor ← getElement i_normals n
      let v : Vertex R := { Position := pos, TextureCoordinate := ⟨0, 0⟩, Normal := nor }
      pure ⟨v, st.noNormal, st.o_verts ++ [v]⟩
  | _ => pure st

/-- The loop of lines 709-786 over the tokens of the face. -/
def genLoop {R : Type} [Zero R] (i_positions : List (Vector3 R)) (i_t_coords : List (Vector2 R))
    (i_normals : List (Vector3 R)) : List Str → GenState R → Except Fault (GenState R)
  | [], st => pure st
  | face :: rest, st => do
    let st1 ← genStep i_positions i_t_coords i_normals st face
    genLoop i_positions i_t_coords i_normals rest st1

/-- The function `Loader::GenVerticesFromRawOBJ`; the result is the final value of `o_verts`. -/
def GenVerticesFromRawOBJ {R : Type} [Zero R] [Mul R] [Sub R] (o_verts : List (Vertex R))
    (i_positions : List (Vector3 R)) (i_t_coords : List (Vector2 R))
    (i_normals : List (Vector3 R)) (icurline : Str) : Except Fault (List (Vertex R)) := do
  let sface := split (tail icurline) ' '
  let st ← genLoop i_positions i_t_coords i_normals sface ⟨Vertex.default R, false, o_verts⟩
  if st.noNormal then do
    let v0 ← at_ st.o_verts 0
    let v1 ← at_ st.o_verts 1
    let v2 ← at_ st.o_verts 2
    let A := v0.Position - v1.Position
    let B := v2.Position - v1.Position
    let normal := CrossV3 A B
    pure (st.o_verts.map (fun o_vert => { o_vert with Normal := normal }))
  else pure st.o_verts

/-! ## Loader::VertexTriangluation (lines 807-972) -/

/-- The loops "create a triangle" (lines 880-888, 903-911, 939-947) over the vertices `vs`, the
first of which has index `j`: an index is pushed once for each of the three positions it
matches, in the order of the three `if`s. -/
def emitLoop {R : Type} [DecidableEq R] (a b c : Vector3 R) : List (Vertex R) → Nat → List Nat
  | [], _ => []
  | v :: vs, j =>
    (if v.Position = a then [j] else []) ++ (if v.Position = b then [j] else [])
      ++ (if v.Position = c then [j] else []) ++ emitLoop a b c vs (j + 1)

/-- The element `t_verts[i]`, for `i` within the list. -/
def nth {R : Type} [Zero R] (t_verts : List (Vertex R)) (i : Nat) : Vertex R :=
  t_verts.getD i (Vertex.default R)

/-- The vertex `pPrev` of lines 835-843. -/
def pPrev {R : Type} [Zero R] (t_verts : List (Vertex R)) (i : Nat) : Vertex R :=
  if i = 0 then nth t_verts (t_verts.length - 1) else nth t_verts (i - 1)

/-- The vertex `pCur` of line 846. -/
def pCur {R : Type} [Zero R] (t_verts : List (Vertex R)) (i : Nat) : Vertex R :=
  nth t_verts i

/-- The vertex `p_next` of lines 849-857. -/
def p_next {R : Type} [Zero R] (t_verts : List (Vertex R)) (i : Nat) : Vertex R :=
  if t_verts.length - 1 = i then nth t_verts 0 else nth t_verts (i + 1)

/-- Lines 917-936 at index `i` of a working list of neither 3 nor 4 vertices: true when neither
`continue` is taken, so that the triangle at `i` is emitted. -/
def isEar {R : Type} [LinearOrderedCommRing R] (env : Env R) (i_verts t_verts : List (Vertex R))
    (i : Nat) : Bool :=
  let prev := pPrev t_verts i
  let cur := pCur t_verts i
  let next := p_next t_verts i
  let angle := env.angleDeg (prev.Position - cur.Position) (next.Position - cur.Position)
  if angle ≤ 0 ∧ angle ≥ 180 then false
  else
    let in_tri := i_verts.any (fun i_vert =>
      inTriangle i_vert.Position prev.Position cur.Position next.Position
        && decide (i_vert.Position ≠ prev.Position)
        && decide (i_vert.Position ≠ cur.Position)
        && decide (i_vert.Position ≠ next.Position))
    !in_tri

/-- The first index at which a pass of the `for` loop of line 832 emits a triangle. -/
def findEar {R : Type} [LinearOrderedCommRing R] (env : Env R) (i_verts t_verts : List (Vertex R)) :
    Option Nat :=
  (List.range t_verts.length).find? (isEar env i_verts t_verts)

/-- The loop "delete pCur from the list" of lines 950-957. -/
def eraseCur {R : Type} [DecidableEq R] (p : Vector3 R) : List (Vertex R) → List (Vertex R)
  | [] => []
  | v :: vs => if v.Position = p then vs else v :: eraseCur p vs

/-- The vector `temp_vec` of lines 890-900. -/
def tempVec {R : Type} [Zero R] [DecidableEq R] (t_verts : List (Vertex R))
    (cur prev next : Vector3 R) : Vector3 R :=
  match t_verts.find? (fun t_vert => decide (t_vert.Position ≠ cur)
      && decide (t_vert.Position ≠ prev) && decide (t_vert.Position ≠ next)) with
  | some t_vert => t_vert.Position
  | none => ⟨0, 0, 0⟩

/-- The loops of lines 829-971, entered with the working list `t_verts` and the output
`o_indices`, the `for` loop at `i = 0`.

* A working list of 3 or of 4 vertices is finished at `i = 0` (lines 861-915), the list is
  cleared and both loops are left.
* Otherwise the pass runs to the first ear (`findEar`).  There the triangle is emitted, `pCur` is
  erased and `i = -1` restarts the pass on the shorter list: the recursive call.
* A pass without an ear changes nothing.  The function returns if `o_indices` or `t_verts` is
  empty (lines 965-970); otherwise `while (true)` repeats the same pass on the same data for
  ever.

Each recursive call works on a list one vertex shorter.  `fuel` bounds the number of these calls
and `VertexTriangluation` supplies the length of the list, which is never used up: with
`t_verts.length ≤ fuel` more fuel gives the same result (`triLoop_fuel`), so `Fault.diverges` is
returned only for the endless repetition of a pass. -/
def triLoop {R : Type} [LinearOrderedCommRing R] (env : Env R) (i_verts : List (Vertex R)) :
    Nat → List (Vertex R) → List Nat → Except Fault (List Nat)
  | fuel, t_verts, o_indices =>
    let prev := (pPrev t_verts 0).Position
    let cur := (pCur t_verts 0).Position
    let next := (p_next t_verts 0).Position
    if t_verts.length = 3 then
      .ok (o_indices ++ emitLoop cur prev next (i_verts.take t_verts.length) 0)
    else if t_verts.length = 4 then
      let temp_vec := tempVec t_verts cur prev next
      .ok (o_indices ++ emitLoop cur prev next i_verts 0 ++ emitLoop prev next temp_vec i_verts 0)
    else
      match findEar env i_verts t_verts with
      | none =>
        if o_indices = [] then .ok o_indices
        else if t_verts = [] then .ok o_indices
        else .error .diverges
      | some i =>
        match fuel with
        | 0 => .error .diverges
        | fuel + 1 =>
          let prev := (pPrev t_verts i).Position
          let cur := (pCur t_verts i).Position
          let next := (p_next t_verts i).Position
          triLoop env i_verts fuel (eraseCur cur t_verts)
            (o_indices ++ emitLoop cur prev next i_verts 0)

/-- The function `Loader::VertexTriangluation`; the result is the final value of `o_indices`. -/
def VertexTriangluation {R : Type} [LinearOrderedCommRing R] (env : Env R) (o_indices : List Nat)
    (i_verts : List (Vertex R)) : Except Fault (List Nat) :=
  if i_verts.length < 3 then .ok o_indices
  else if i_verts.length = 3 then .ok (o_indices ++ [0, 1, 2])
  else triLoop env i_verts i_verts.length i_verts o_indices

/-! ## Streams -/

/-- The loop of `std::getline` over the characters still unread: `cur` is the line being read and
`pending` tells whether a character of it has been extracted; at the end of the stream a line
is delivered only if one was. -/
def getlinesLoop : Str → Str → Bool → List Str
  | [], cur, pending => if pending then [cur] else []
  | c :: cs, cur, _ =>
    if c = '\n' then cur :: getlinesLoop cs [] false
    else getlinesLoop cs (cur ++ [c]) true

/-- The lines `while (std::getline(stream, curline))` delivers for a stream of the given
characters. -/
def getlines (stream : Str) : List Str :=
  getlinesLoop stream [] false

/-! ## Loader::LoadMaterials (lines 975-1123) -/

/-- The variables of `LoadMaterials`, with the member `LoadedMaterials` it appends to. -/
structure MtlState (R : Type) where
  tempMaterial : Material R
  listening : Bool
  LoadedMaterials : List (Material R)

/-- The three numbers of a `Ka`, `Kd` or `Ks` line (lines 1033-1035). -/
def stofV3 {R : Type} (env : Env R) (temp : List Str) : Except Fault (Vector3 R) := do
  let x ← env.stof (temp.getD 0 [])
  let y ← env.stof (temp.getD 1 [])
  let z ← env.stof (temp.getD 2 [])
  pure ⟨x, y, z⟩

/-- The `newmtl` branch (lines 989-1023). -/
def mtlNewmtl {R : Type} [Zero R] (st : MtlState R) (curline : Str) : MtlState R :=
  let name := if curline.length > 7 then tail curline else "none".toList
  if !st.listening then
    { st with listening := true, tempMaterial := { st.tempMaterial with name := name } }
  else
    { st with
      LoadedMaterials := st.LoadedMaterials ++ [st.tempMaterial]
      tempMaterial := { Material.default R with name := name } }

/-- The assignment of a `Ka`, `Kd` or `Ks` line with three pieces (lines 1033-1035). -/
def mtlColor {R : Type} (env : Env R) (st : MtlState R) (temp : List Str)
    (set : Material R → Vector3 R → Material R) : Except Fault (MtlState R) := do
  let v ← stofV3 env temp
  pure { st with tempMaterial := set st.tempMaterial v }

/-- The assignment of an `Ns`, `Ni` or `d` line (lines 1066, 1071, 1076). -/
def mtlFloat {R : Type} (env : Env R) (st : MtlState R) (curline : Str)
    (set : Material R → R → Material R) : Except Fault (MtlState R) := do
  let x ← env.stof (tail curline)
  pure { st with tempMaterial := set st.tempMaterial x }

/-- The assignment of an `illum` line (line 1081). -/
def mtlIllum {R : Type} (st : MtlState R) (curline : Str) : Except Fault (MtlState R) := do
  let x ← stoi (tail curline)
  pure { st with tempMaterial := { st.tempMaterial with illum := x } }

/-- The branches after `Ks` (lines 1063-1112), none of which leaves the iteration early. -/
def mtlScalars {R : Type} (env : Env R) (st : MtlState R) (curline : Str) :
    Except Fault (MtlState R) := do
  let key := firstToken curline
  let st ← (if key = "Ns".toList then mtlFloat env st curline (fun m x => { m with Ns := x })
    else pure st)
  let st ← (if key = "Ni".toList then mtlFloat env st curline (fun m x => { m with Ni := x })
    else pure st)
  let st ← (if key = "d".toList then mtlFloat env st curline (fun m x => { m with d := x })
    else pure st)
  let st ← (if key = "illum".toList then mtlIllum st curline else pure st)
  let st := if key = "map_Ka".toList then
      { st with tempMaterial := { st.tempMaterial with map_Ka := tail curline } } else st
  let st := if key = "map_Kd".toList then
      { st with tempMaterial := { st.tempMaterial with map_Kd := tail curline } } else st
  let st := if key = "map_Ks".toList then
      { st with tempMaterial := { st.tempMaterial with map_Ks := tail curline } } else st
  let st := if key = "map_Ns".toList then
      { st with tempMaterial := { st.tempMaterial with map_Ns := tail curline } } else st
  let st := if key = "map_d".toList then
      { st with tempMaterial := { st.tempMaterial with map_d := tail curline } } else st
  let st := if key = "map_Bump".toList ∨ key = "map_bump".toList ∨ key = "bump".toList then
      { st with tempMaterial := { st.tempMaterial with map_bump := tail curline } } else st
  pure st

/-- One iteration of the loop of lines 986-1113.  A `Ka`, `Kd` or `Ks` line whose tail does not
split into three pieces takes `continue`: the rest of the iteration is skipped. -/
def mtlLine {R : Type} [Zero R] (env : Env R) (st : MtlState R) (curline : Str) :
    Except Fault (MtlState R) :=
  let key := firstToken curline
  let st := if key = "newmtl".toList then mtlNewmtl st curline else st
  let temp := split (tail curline) ' '
  if key = "Ka".toList ∧ temp.length ≠ 3 then pure st
  else do
    let st ← (if key = "Ka".toList then mtlColor env st temp (fun m v => { m with Ka := v })
      else pure st)
    if key = "Kd".toList ∧ temp.length ≠ 3 then pure st
    else do
      let st ← (if key = "Kd".toList then mtlColor env st temp (fun m v => { m with Kd := v })
        else pure st)
      if key = "Ks".toList ∧ temp.length ≠ 3 then pure st
      else do
        let st ← (if key = "Ks".toList then mtlColor env st temp (fun m v => { m with Ks := v })
          else pure st)
        mtlScalars env st curline

/-- The loop of lines 986-1113 over the lines of the material document. -/
def mtlLoop {R : Type} [Zero R] (env : Env R) : List Str → MtlState R → Except Fault (MtlState R)
  | [], st => pure st
  | curline :: rest, st => do
    let st1 ← mtlLine env st curline
    mtlLoop env rest st1

/-- The characters of `reinterpret_cast<const char*>(data.data())` read as a C string (line 978),
from which the stream of `LoadMaterials` is built: the bytes from the start of the buffer to the
first NUL.  The vector is filled with the bytes of the file and no NUL is appended to it (lines
623-643), so when the file holds no NUL the string does not end with the buffer: it goes on with
the bytes behind it, `env.afterBuffer data`. -/
def cstring {R : Type} (env : Env R) (data : Str) : Str :=
  (data ++ env.afterBuffer data).takeWhile (fun c => c ≠ Char.ofNat 0)

/-- The function `Loader::LoadMaterials`: the new value of `LoadedMaterials` and the value
returned.  The stream is built from `data.data()` read as a C string (`cstring`). -/
def LoadMaterials {R : Type} [Zero R] (env : Env R) (LoadedMaterials : List (Material R))
    (data : Str) : Except Fault (List (Material R) × Bool) :=
  if data = [] then pure (LoadedMaterials, false)
  else do
    let stream := cstring env data
    let st ← mtlLoop env (getlines stream) ⟨Material.default R, false, LoadedMaterials⟩
    let mats := st.LoadedMaterials ++ [st.tempMaterial]
    pure (mats, !mats.isEmpty)

/-! ## Loader::load (lines 407-682) -/

/-- The data members of `Loader` (lines 684-691). -/
structure Loader (R : Type) where
  LoadedMeshes : List (Mesh R)
  LoadedVertices : List (Vertex R)
  LoadedIndices : List Nat
  LoadedMaterials : List (Material R)
deriving DecidableEq, Repr

/-- A default-constructed `Loader`. -/
def Loader.new (R : Type) : Loader R := ⟨[], [], [], []⟩

/-- The data members of the `Loader` and the local variables of `load` that live across the
lines of the document. -/
structure LoadState (R : Type) where
  LoadedMeshes : List (Mesh R)
  LoadedVertices : List (Vertex R)
  LoadedIndices : List Nat
  LoadedMaterials : List (Material R)
  positions : List (Vector3 R)
  t_coords : List (Vector2 R)
  normals : List (Vector3 R)
  vertices : List (Vertex R)
  indices : List Nat
  mesh_mat_names : List Str
  listening : Bool
  meshname : Str

/-- The data members held in a state of `load`. -/
def LoadState.toLoader {R : Type} (st : LoadState R) : Loader R :=
  ⟨st.LoadedMeshes, st.LoadedVertices, st.LoadedIndices, st.LoadedMaterials⟩

/-- The expression `Mesh(vertices, indices)` with `MeshName` set: the material is the default
one. -/
def mkMesh {R : Type} [Zero R] (vertices : List (Vertex R)) (indices : List Nat) (name : Str) :
    Mesh R :=
  ⟨name, vertices, indices, Material.default R⟩

/-- The test of line 456. -/
def isGroupLine (curline : Str) : Bool :=
  decide (firstToken curline = "o".toList) || decide (firstToken curline = "g".toList)
    || decide (curline.head? = some 'g')

/-- The test `firstToken(curline) == "o" || firstToken(curline) == "g"` of lines 462 and 493. -/
def isNamedGroup (curline : Str) : Bool :=
  decide (firstToken curline = "o".toList) || decide (firstToken curline = "g".toList)

/-- The branch of lines 456-507 (`o`, `g`). -/
def loadGroup {R : Type} [Zero R] (st : LoadState R) (curline : Str) : LoadState R :=
  if !st.listening then
    { st with
      listening := true
      meshname := if isNamedGroup curline then tail curline else "unnamed".toList }
  else if !st.indices.isEmpty && !st.vertices.isEmpty then
    { st with
      LoadedMeshes := st.LoadedMeshes ++ [mkMesh st.vertices st.indices st.meshname]
      vertices := []
      indices := []
      meshname := tail curline }
  else
    { st with meshname := if isNamedGroup curline then tail curline else "unnamed".toList }

/-- The three numbers of a `v` or `vn` line (lines 515-517, 540-542); `spos[k]` is unchecked. -/
def readV3 {R : Type} (env : Env R) (spos : List Str) : Except Fault (Vector3 R) := do
  let s0 ← at_ spos 0
  let x ← env.stof s0
  let s1 ← at_ spos 1
  let y ← env.stof s1
  let s2 ← at_ spos 2
  let z ← env.stof s2
  pure ⟨x, y, z⟩

/-- The two numbers of a `vt` line (lines 528-529). -/
def readV2 {R : Type} (env : Env R) (stex : List Str) : Except Fault (Vector2 R) := do
  let s0 ← at_ stex 0
  let x ← env.stof s0
  let s1 ← at_ stex 1
  let y ← env.stof s1
  pure ⟨x, y⟩

/-- The branch of lines 547-575 (`f`). -/
def loadFace {R : Type} [LinearOrderedCommRing R] (env : Env R) (st : LoadState R)
    (curline : Str) : Except Fault (LoadState R) := do
  let v_verts ← GenVerticesFromRawOBJ [] st.positions st.t_coords st.normals curline
  let vertices := st.vertices ++ v_verts
  let LoadedVertices := st.LoadedVertices ++ v_verts
  let i_indices ← VertexTriangluation env [] v_verts
  pure { st with
    vertices := vertices
    LoadedVertices := LoadedVertices
    indices := st.indices ++ i_indices.map (fun i_index =>
      (vertices.length - v_verts.length) + i_index)
    LoadedIndices := st.LoadedIndices ++ i_indices.map (fun i_index =>
      (LoadedVertices.length - v_verts.length) + i_index) }

/-- The branch of lines 577-608 (`usemtl`).  In the loop of lines 588-595 the `continue` belongs
to the inner `for`, so the `break` that follows is always reached in the first round: the name
is `meshname + "_" + std::to_string(2)` whatever `LoadedMeshes` holds. -/
def loadUsemtl {R : Type} [Zero R] (st : LoadState R) (curline : Str) : LoadState R :=
  let st := { st with mesh_mat_names := st.mesh_mat_names ++ [tail curline] }
  if !st.indices.isEmpty && !st.vertices.isEmpty then
    { st with
      LoadedMeshes := st.LoadedMeshes ++
        [mkMesh st.vertices st.indices (st.meshname ++ "_".toList ++ "2".toList)]
      vertices := []
      indices := [] }
  else st

/-- The branch of lines 610-644 (`mtllib`); the value `LoadMaterials` returns is dropped. -/
def loadMtllib {R : Type} [Zero R] (env : Env R) (st : LoadState R) (curline : Str) :
    Except Fault (LoadState R) := do
  let pathtomat := tail curline
  let material_data := match env.readFile pathtomat with
    | some bytes => bytes
    | none => []
  let r ← LoadMaterials env st.LoadedMaterials material_data
  pure { st with LoadedMaterials := r.1 }

/-- The branch of lines 509-520 (`v`). -/
def loadPosition {R : Type} (env : Env R) (st : LoadState R) (curline : Str) :
    Except Fault (LoadState R) := do
  let vpos ← readV3 env (split (tail curline) ' ')
  pure { st with positions := st.positions ++ [vpos] }

/-- The branch of lines 522-532 (`vt`). -/
def loadTexCoord {R : Type} (env : Env R) (st : LoadState R) (curline : Str) :
    Except Fault (LoadState R) := do
  let vtex ← readV2 env (split (tail curline) ' ')
  pure { st with t_coords := st.t_coords ++ [vtex] }

/-- The branch of lines 534-545 (`vn`). -/
def loadNormal {R : Type} (env : Env R) (st : LoadState R) (curline : Str) :
    Except Fault (LoadState R) := do
  let vnor ← readV3 env (split (tail curline) ' ')
  pure { st with normals := st.normals ++ [vnor] }

/-- One iteration of the loop of lines 437-645: the `if`s are tried one after the other. -/
def loadLine {R : Type} [LinearOrderedCommRing R] (env : Env R) (st : LoadState R)
    (curline : Str) : Except Fault (LoadState R) := do
  let key := firstToken curline
  let st := if isGroupLine curline then loadGroup st curline else st
  let st ← (if key = "v".toList then loadPosition env st curline else pure st)
  let st ← (if key = "vt".toList then loadTexCoord env st curline else pure st)
  let st ← (if key = "vn".toList then loadNormal env st curline else pure st)
  let st ← (if key = "f".toList then loadFace env st curline else pure st)
  let st := if key = "usemtl".toList then loadUsemtl st curline else st
  let st ← (if key = "mtllib".toList then loadMtllib env st curline else pure st)
  pure st

/-- The loop of lines 437-645 over the lines of the document.  When a line does not complete,
the result is the state reached before that line, with the fault: no line writes
`LoadedMeshes`, `LoadedVertices` or `LoadedIndices` before the last point at which it can
throw.  (An `mtllib` line whose material document throws may have appended materials before the
throw; after a fault `LoadedMaterials` is given as it was before that line.) -/
def scan {R : Type} [LinearOrderedCommRing R] (env : Env R) :
    List Str → LoadState R → LoadState R × Option Fault
  | [], st => (st, none)
  | curline :: rest, st =>
    match loadLine env st curline with
    | .ok st1 => scan env rest st1
    | .error e => (st, some e)

/-- The inner loop of lines 671-678 for the `i`-th material name: the first material of that name
is copied into `LoadedMeshes[i]`, an unchecked access. -/
def setMaterial {R : Type} (LoadedMaterials : List (Material R)) (LoadedMeshes : List (Mesh R))
    (i : Nat) (matname : Str) : Except Fault (List (Mesh R)) :=
  match LoadedMaterials.find? (fun m => decide (m.name = matname)) with
  | none => pure LoadedMeshes
  | some LoadedMaterial =>
    match LoadedMeshes[i]? with
    | some mesh => pure (LoadedMeshes.set i { mesh with MeshMaterial := LoadedMaterial })
    | none => .error .out_of_bounds

/-- The loop of lines 665-679 from index `i` on. -/
def setMaterials {R : Type} (LoadedMaterials : List (Material R)) :
    List Str → Nat → List (Mesh R) → Except Fault (List (Mesh R))
  | [], _, LoadedMeshes => pure LoadedMeshes
  | matname :: rest, i, LoadedMeshes => do
    let meshes ← setMaterial LoadedMaterials LoadedMeshes i matname
    setMaterials LoadedMaterials rest (i + 1) meshes

/-- Lines 651-681: the last mesh, the materials of the meshes and the value returned. -/
def finish {R : Type} [Zero R] (st : LoadState R) : Loader R × Except Fault Bool :=
  let LoadedMeshes :=
    if !st.indices.isEmpty && !st.vertices.isEmpty then
      st.LoadedMeshes ++ [mkMesh st.vertices st.indices st.meshname]
    else st.LoadedMeshes
  match setMaterials st.LoadedMaterials st.mesh_mat_names 0 LoadedMeshes with
  | .ok meshes =>
    (⟨meshes, st.LoadedVertices, st.LoadedIndices, st.LoadedMaterials⟩,
      .ok (!(meshes.isEmpty && st.LoadedVertices.isEmpty && st.LoadedIndices.isEmpty)))
  | .error e =>
    (⟨LoadedMeshes, st.LoadedVertices, st.LoadedIndices, st.LoadedMaterials⟩, .error e)

/-- The state in which the loop of `load` is entered (lines 413-429): meshes, vertices and indices
are cleared, `LoadedMaterials` is left as it is. -/
def LoadState.init {R : Type} (self : Loader R) : LoadState R :=
  { LoadedMeshes := [], LoadedVertices := [], LoadedIndices := []
    LoadedMaterials := self.LoadedMaterials
    positions := [], t_coords := [], normals := [], vertices := [], indices := []
    mesh_mat_names := [], listening := false, meshname := [] }

/-- The function `Loader::load`, called on the loader `self` for a file whose stream delivers the
characters `stream` (none when the file cannot be opened): the data members after the call,
and the value returned or the fault that ended the call.  After an exception the data members
are as the throw left them. -/
def load {R : Type} [LinearOrderedCommRing R] (env : Env R) (self : Loader R) (stream : Str) :
    Loader R × Except Fault Bool :=
  match scan env (getlines stream) (LoadState.init self) with
  | (st, some e) => (st.toLoader, .error e)
  | (st, none) => finish st

/-! ## Vocabulary of the statements about faces -/

/-- The vertex token stores a vertex: it splits on `/` into one, two or three pieces. -/
def storesVertex (tok : Str) : Bool :=
  decide (1 ≤ (split tok '/').length) && decide ((split tok '/').length ≤ 3)

/-- The vertex token has no normal reference (form `p` or `p/t`). -/
def missesNormal (tok : Str) : Bool :=
  decide ((split tok '/').length = 1) || decide ((split tok '/').length = 2)

/-- The position and the texture coordinate of `v` are the entries the references of the token
select (`getElement`), the texture coordinate being `(0, 0)` for a token without one; a normal
reference, when the token has one, selects an entry as well. -/
def Resolves {R : Type} [Zero R] (i_positions : List (Vector3 R)) (i_t_coords : List (Vector2 R))
    (i_normals : List (Vector3 R)) (tok : Str) (v : Vertex R) : Prop :=
  match split tok '/' with
  | [p] => getElement i_positions p = .ok v.Position ∧ v.TextureCoordinate = ⟨0, 0⟩
  | [p, t] =>
    getElement i_positions p = .ok v.Position ∧ getElement i_t_coords t = .ok v.TextureCoordinate
  | [p, t, n] =>
    getElement i_positions p = .ok v.Position
      ∧ (t ≠ [] → getElement i_t_coords t = .ok v.TextureCoordinate)
      ∧ (t = [] → v.TextureCoordinate = ⟨0, 0⟩)
      ∧ ∃ nor, getElement i_normals n = .ok nor
  | _ => False

/-- The normal of `v` is the entry the normal reference of the token selects. -/
def ResolvesNormal {R : Type} (i_normals : List (Vector3 R)) (tok : Str) (v : Vertex R) : Prop :=
  match split tok '/' with
  | [_, _, n] => getElement i_normals n = .ok v.Normal
  | _ => False

/-- The call returned a value. -/
def isOk {α : Type} : Except Fault α → Bool
  | .ok _ => true
  | .error _ => false

/-- Every reference of the vertex token selects an entry of its table: `getElement` returns for
the position, for the texture coordinate when the token has a non-empty one, and for the normal
when the token has one.  (A token that stores no vertex has no reference that is looked up.) -/
def resolvable {R : Type} (i_positions : List (Vector3 R)) (i_t_coords : List (Vector2 R))
    (i_normals : List (Vector3 R)) (tok : Str) : Bool :=
  match split tok '/' with
  | [p] => isOk (getElement i_positions p)
  | [p, t] => isOk (getElement i_positions p) && isOk (getElement i_t_coords t)
  | [p, t, n] =>
    isOk (getElement i_positions p) && (decide (t = []) || isOk (getElement i_t_coords t))
      && isOk (getElement i_normals n)
  | _ => true

/-! ## An environment for the closed examples -/

/-- An environment over the integers: `stof` reads a decimal integer (what `std::stof` returns for
such a token), no material file can be opened, the angle is a constant, since no branch
depends on its value, and the byte behind every buffer is NUL. -/
def intEnv : Env ℤ :=
  { stof := fun s => stoi s
    angleDeg := fun _ _ => 90
    readFile := fun _ => none
    afterBuffer := fun _ => [] }

/-- A vertex at an integer position, its other members zero. -/
def vtx (x y z : ℤ) : Vertex ℤ :=
  ⟨⟨x, y, z⟩, ⟨0, 0, 0⟩, ⟨0, 0⟩⟩

/-! ## Vocabulary of the statements about `load` -/

/-- The line is a face line: its first token is `f`. -/
def isFaceLine (curline : Str) : Bool :=
  decide (firstToken curline = "f".toList)

/-- Every index held is below the number of vertices it indexes: in the buffers of the mesh
under construction, in the flattened lists and in every finalized mesh. -/
def IndexBounded {R : Type} (st : LoadState R) : Prop :=
  (∀ x ∈ st.indices, x < st.vertices.length)
    ∧ (∀ x ∈ st.LoadedIndices, x < st.LoadedVertices.length)
    ∧ (∀ m ∈ st.LoadedMeshes, ∀ x ∈ m.Indices, x < m.Vertices.length)

/-- The members of a mesh that the assignment of materials leaves alone. -/
def Mesh.geometry {R : Type} (m : Mesh R) : Str × List (Vertex R) × List Nat :=
  (m.MeshName, m.Vertices, m.Indices)

/-- The number of vertices held by a list of meshes. -/
def vertexCount {R : Type} (meshes : List (Mesh R)) : Nat :=
  (meshes.map (fun m => m.Vertices.length)).sum

/-- The number of indices held by a list of meshes. -/
def indexCount {R : Type} (meshes : List (Mesh R)) : Nat :=
  (meshes.map (fun m => m.Indices.length)).sum

/-- The state of `load` after `k` faces of three vertices each and no other face: the flattened
lists and the meshes together with the buffers hold `3 * k` vertices and indices. -/
def TriangleCount {R : Type} (k : Nat) (st : LoadState R) : Prop :=
  st.LoadedVertices.length = 3 * k
    ∧ st.LoadedIndices = List.range (3 * k)
    ∧ vertexCount st.LoadedMeshes + st.vertices.length = 3 * k
    ∧ indexCount st.LoadedMeshes + st.indices.length = 3 * k
    ∧ st.vertices.length = st.indices.length

/-- An environment over the integers in which the material file `m.mtl` can be opened; it holds
the one material `m` with the diffuse colour `(1, 2, 3)`.  The file ends with a newline and the
byte behind every buffer is NUL. -/
def mtlEnv : Env ℤ :=
  { stof := fun s => stoi s
    angleDeg := fun _ _ => 90
    readFile := fun p =>
      if p = "m.mtl".toList then some "newmtl m\nKd 1 2 3\n".toList else none
    afterBuffer := fun _ => [] }

/-- An environment over the integers in which the memory behind every buffer holds the
character `1` followed by NUL. -/
def strayEnv : Env ℤ :=
  { stof := fun s => stoi s
    angleDeg := fun _ _ => 90
    readFile := fun _ => none
    afterBuffer := fun _ => ['1'] }

/-- The concatenation, in mesh order, of the `Vertices` of the meshes. -/
def flatVertices {R : Type} : List (Mesh R) → List (Vertex R)
  | [] => []
  | m :: ms => m.Vertices ++ flatVertices ms

/-- The concatenation of the `Indices` of the meshes, every value increased by `base` and by the
number of vertices of the meshes that precede its mesh. -/
def flatIndices {R : Type} : Nat → List (Mesh R) → List Nat
  | _, [] => []
  | base, m :: ms =>
    m.Indices.map (fun i => base + i) ++ flatIndices (base + m.Vertices.length) ms

/-- The flattened lists are those of the finalized meshes followed by the buffers of the mesh
under construction. -/
def FlatView {R : Type} (st : LoadState R) : Prop :=
  st.LoadedVertices = flatVertices st.LoadedMeshes ++ st.vertices
    ∧ st.LoadedIndices = flatIndices 0 st.LoadedMeshes
        ++ st.indices.map (fun i => (flatVertices st.LoadedMeshes).length + i)

/-- Nothing has been loaded: the flattened lists, the list of meshes and the buffers are empty. -/
def NothingLoaded {R : Type} (st : LoadState R) : Prop :=
  st.LoadedMeshes = [] ∧ st.LoadedVertices = [] ∧ st.LoadedIndices = []
    ∧ st.vertices = [] ∧ st.indices = []

/-- The number of vertex tokens of a face line that store a vertex. -/
def faceSize (curline : Str) : Nat :=
  ((split (tail curline) ' ').filter storesVertex).length

/-- No vertex is buffered without an index: when the index buffer is empty, so is the vertex
buffer. -/
def BuffersTogether {R : Type} (st : LoadState R) : Prop :=
  st.indices = [] → st.vertices = []

/-- The lines of a document made of sections: each section is its head line followed by the
lines of its body. -/
def sectionLines : List (Str × List Str) → List Str
  | [] => []
  | g :: gs => g.1 :: (g.2 ++ sectionLines gs)

/-- The number of face lines among the lines. -/
def faceCount (lines : List Str) : Nat :=
  (lines.filter isFaceLine).length

/-- The name of a mesh, the number of its vertices and its indices. -/
def Mesh.shape {R : Type} (m : Mesh R) : Str × Nat × List Nat :=
  (m.MeshName, m.Vertices.length, m.Indices)

/-- The shape of the mesh of a group of triangles: the tail of the group line, three vertices for
every face line, and the indices `0, 1, ..., 3 * faces - 1`. -/
def groupShape (g : Str × List Str) : Str × Nat × List Nat :=
  (tail g.1, 3 * faceCount g.2, List.range (3 * faceCount g.2))

/-- The state of `load` inside a group: the meshes finalized so far are `M`, the group is named
`N`, the material names recorded are `names`, and the buffers hold `a` triangles. -/
def Pending {R : Type} (M : List (Mesh R)) (N : Str) (names : List Str) (a : Nat)
    (st : LoadState R) : Prop :=
  st.LoadedMeshes = M ∧ st.listening = true ∧ st.meshname = N ∧ st.mesh_mat_names = names
    ∧ st.vertices.length = 3 * a ∧ st.indices = List.range (3 * a)

/-- The first tokens tested by the loop of `load`. -/
def keywords : List Str :=
  ["o".toList, "g".toList, "v".toList, "vt".toList, "vn".toList, "f".toList, "usemtl".toList,
    "mtllib".toList]

/-- The pieces joined into one string, with the character `c` between consecutive pieces. -/
def joinWith (c : Char) : List Str → Str
  | [] => []
  | [p] => p
  | p :: q :: ps => p ++ c :: joinWith c (q :: ps)

/-! ## The line classification, in the words of the specification -/

/-- The character is a space or a tab. -/
def isBlank (c : Char) : Bool :=
  decide (c ∈ blanks)

/-- The first token as the specification words it: the maximal run of characters that are
neither space nor tab, starting at the first such character of the line. -/
def firstToken_spec (inp : Str) : Str :=
  (inp.dropWhile isBlank).takeWhile (fun c => !isBlank c)

/-- The tail as the specification words it: the rest of the line after the first token and the
spaces and tabs that follow it, with the trailing spaces and tabs removed. -/
def tail_spec (inp : Str) : Str :=
  (((((inp.dropWhile isBlank).dropWhile (fun c => !isBlank c)).dropWhile isBlank).reverse
    ).dropWhile isBlank).reverse
/-! ## Index resolution -/

theorem at_ok {T : Type} (elements : List T) (idx : Int) (h0 : 0 ≤ idx)
    (h1 : idx < elements.length) :
    ∃ x, elements[idx.toNat]? = some x ∧ at_ elements idx = .ok x := by
  have hlt : idx.toNat < elements.length := by omega
  refine ⟨elements[idx.toNat], List.getElem?_eq_getElem hlt, ?_⟩
  simp [at_, not_lt.mpr h0, List.getElem?_eq_getElem hlt]

theorem at_out {T : Type} (elements : List T) (idx : Int)
    (h : idx < 0 ∨ (elements.length : Int) ≤ idx) :
    at_ elements idx = .error .out_of_bounds := by
  unfold at_
  split
  · rfl
  · have hle : elements.length ≤ idx.toNat := by omega
    simp [List.getElem?_eq_none hle]

theorem getElement_of_stoi {T : Type} (elements : List T) (index : Str) (k : Int)
    (hk : stoi index = .ok k) :
    getElement elements index
      = at_ elements (if k < 0 then (elements.length : Int) + k else k - 1) := by
  simp [getElement, hk, bind, Except.bind]

theorem getElement_of_stoi_error {T : Type} (elements : List T) (index : Str) (e : Fault)
    (hk : stoi index = .error e) : getElement elements index = .error e := by
  simp [getElement, hk, bind, Except.bind]

/-! ## Face assembly -/

theorem genStep_skips {R : Type} [Zero R] (pos : List (Vector3 R)) (tc : List (Vector2 R))
    (nor : List (Vector3 R)) (st : GenState R) (tok : Str) (h : storesVertex tok = false) :
    genStep pos tc nor st tok = .ok st := by
  unfold genStep
  unfold storesVertex at h
  split <;> simp_all [pure, Except.pure]

theorem genStep_stores {R : Type} [Zero R] (pos : List (Vector3 R)) (tc : List (Vector2 R))
    (nor : List (Vector3 R)) (st : GenState R) (tok : Str)
    (hres : ∃ v, Resolves pos tc nor tok v) :
    ∃ v, genStep pos tc nor st tok
        = .ok ⟨v, st.noNormal || missesNormal tok, st.o_verts ++ [v]⟩
      ∧ Resolves pos tc nor tok v
      ∧ (missesNormal tok = false → ResolvesNormal nor tok v) := by
  obtain ⟨w, hw⟩ := hres
  unfold genStep
  unfold Resolves at hw
  unfold Resolves ResolvesNormal missesNormal
  split at hw
  · next p hs =>
    simp only [hs]
    refine ⟨{ st.vVert with Position := w.Position, TextureCoordinate := ⟨0, 0⟩ }, ?_, ?_, ?_⟩
    · simp [hw.1, bind, Except.bind, pure, Except.pure]
    · simp [hw.1]
    · simp
  · next p t hs =>
    simp only [hs]
    refine ⟨{ st.vVert with Position := w.Position, TextureCoordinate := w.TextureCoordinate },
      ?_, ?_, ?_⟩
    · simp [hw.1, hw.2, bind, Except.bind, pure, Except.pure]
    · simp [hw.1, hw.2]
    · simp
  · next p t n hs =>
    simp only [hs]
    obtain ⟨hp, ht, ht0, N, hn⟩ := hw
    by_cases hte : t = []
    · refine ⟨⟨w.Position, N, ⟨0, 0⟩⟩, ?_, ?_, ?_⟩
      · simp [hte, hp, hn, bind, Except.bind, pure, Except.pure]
      · simp [hte, hp, hn]
      · simp [hn]
    · refine ⟨⟨w.Position, N, w.TextureCoordinate⟩, ?_, ?_, ?_⟩
      · simp [hte, hp, hn, ht hte, bind, Except.bind, pure, Except.pure]
      · simp [hte, hp, hn, ht hte]
      · simp [hn]
  · exact hw.elim

theorem genLoop_spec {R : Type} [Zero R] (pos : List (Vector3 R)) (tc : List (Vector2 R))
    (nor : List (Vector3 R)) (toks : List Str) :
    ∀ st : GenState R,
    (∀ tok ∈ toks, storesVertex tok = true → ∃ v, Resolves pos tc nor tok v) →
    ∃ vs last, genLoop pos tc nor toks st
        = .ok ⟨last, st.noNormal || toks.any missesNormal, st.o_verts ++ vs⟩
      ∧ List.Forall₂ (fun tok v => Resolves pos tc nor tok v
          ∧ (missesNormal tok = false → ResolvesNormal nor tok v))
        (toks.filter storesVertex) vs := by
  induction toks with
  | nil =>
    intro st _
    exact ⟨[], st.vVert, by simp [genLoop, pure, Except.pure], by simp⟩
  | cons tok rest ih =>
    intro st hres
    have hrest : ∀ t ∈ rest, storesVertex t = true → ∃ v, Resolves pos tc nor t v :=
      fun t ht => hres t (List.mem_cons_of_mem _ ht)
    by_cases hst : storesVertex tok = true
    · obtain ⟨v, hv, hr, hn⟩ := genStep_stores pos tc nor st tok (hres tok (List.mem_cons_self _ _) hst)
      obtain ⟨vs, last, hl, hf⟩ := ih ⟨v, st.noNormal || missesNormal tok, st.o_verts ++ [v]⟩ hrest
      refine ⟨v :: vs, last, ?_, ?_⟩
      · simp [genLoop, hv, hl, bind, Except.bind, Bool.or_assoc]
      · simp only [List.filter_cons, hst, if_true]
        exact List.Forall₂.cons ⟨hr, hn⟩ hf
    · have hst' : storesVertex tok = false := by simpa using hst
      obtain ⟨vs, last, hl, hf⟩ := ih st hrest
      have hm : missesNormal tok = false := by
        unfold storesVertex at hst'
        unfold missesNormal
        simp only [Bool.and_eq_false_iff, decide_eq_false_iff_not] at hst'
        simp only [Bool.or_eq_false_iff, decide_eq_false_iff_not]
        omega
      refine ⟨vs, last, ?_, ?_⟩
      · simp [genLoop, genStep_skips pos tc nor st tok hst', hl, bind, Except.bind, hm]
      · simpa [List.filter_cons, hst'] using hf

theorem gen_with_normals {R : Type} [Zero R] [Mul R] [Sub R] (pos : List (Vector3 R))
    (tc : List (Vector2 R)) (nor : List (Vector3 R)) (icurline : Str)
    (hres : ∀ tok ∈ split (tail icurline) ' ',
      storesVertex tok = true → ∃ v, Resolves pos tc nor tok v)
    (hall : (split (tail icurline) ' ').any missesNormal = false) :
    ∃ vs, GenVerticesFromRawOBJ [] pos tc nor icurline = .ok vs
      ∧ List.Forall₂ (fun tok v => Resolves pos tc nor tok v
          ∧ (missesNormal tok = false → ResolvesNormal nor tok v))
        ((split (tail icurline) ' ').filter storesVertex) vs := by
  obtain ⟨vs, last, hl, hf⟩ :=
    genLoop_spec pos tc nor (split (tail icurline) ' ') ⟨Vertex.default R, false, []⟩ hres
  refine ⟨vs, ?_, hf⟩
  simp [GenVerticesFromRawOBJ, hl, hall, bind, Except.bind, pure, Except.pure]

theorem gen_flat_normal {R : Type} [Zero R] [Mul R] [Sub R] (pos : List (Vector3 R))
    (tc : List (Vector2 R)) (nor : List (Vector3 R)) (icurline : Str)
    (hres : ∀ tok ∈ split (tail icurline) ' ',
      storesVertex tok = true → ∃ v, Resolves pos tc nor tok v)
    (hmiss : (split (tail icurline) ' ').any missesNormal = true)
    (h3 : 3 ≤ ((split (tail icurline) ' ').filter storesVertex).length) :
    ∃ v0 v1 v2 rest, GenVerticesFromRawOBJ [] pos tc nor icurline = .ok (v0 :: v1 :: v2 :: rest)
      ∧ (∀ v ∈ v0 :: v1 :: v2 :: rest,
          v.Normal = CrossV3 (v0.Position - v1.Position) (v2.Position - v1.Position))
      ∧ List.Forall₂ (fun tok v => Resolves pos tc nor tok v)
        ((split (tail icurline) ' ').filter storesVertex) (v0 :: v1 :: v2 :: rest) := by
  obtain ⟨vs, last, hl, hf⟩ :=
    genLoop_spec pos tc nor (split (tail icurline) ' ') ⟨Vertex.default R, false, []⟩ hres
  have hlen := hf.length_eq
  match vs, hf, hlen with
  | w0 :: w1 :: w2 :: ws, hf, _ =>
    let normal := CrossV3 (w0.Position - w1.Position) (w2.Position - w1.Position)
    let f : Vertex R → Vertex R := fun o_vert => { o_vert with Normal := normal }
    refine ⟨f w0, f w1, f w2, ws.map f, ?_, ?_, ?_⟩
    · simp [GenVerticesFromRawOBJ, hl, hmiss, at_, bind, Except.bind, pure, Except.pure, f, normal]
    · intro v hv
      simp only [List.mem_cons, List.mem_map] at hv
      rcases hv with rfl | rfl | rfl | ⟨a, _, rfl⟩ <;> rfl
    · have hmap : f w0 :: f w1 :: f w2 :: ws.map f = (w0 :: w1 :: w2 :: ws).map f := by simp
      rw [hmap, List.forall₂_map_right_iff]
      refine hf.imp ?_
      intro tok v hv
      have h := hv.1
      unfold Resolves at h ⊢
      split <;> simp_all [f]
  | [], _, hlen => rw [hlen] at h3; simp at h3
  | [_], _, hlen => rw [hlen] at h3; simp at h3
  | [_, _], _, hlen => rw [hlen] at h3; simp at h3

theorem isOk_iff {α : Type} (r : Except Fault α) : isOk r = true ↔ ∃ x, r = .ok x := by
  cases r <;> simp [isOk]

theorem resolves_of_resolvable {R : Type} [Zero R] (pos : List (Vector3 R))
    (tc : List (Vector2 R)) (nor : List (Vector3 R)) (tok : Str)
    (hs : storesVertex tok = true) (hr : resolvable pos tc nor tok = true) :
    ∃ v, Resolves pos tc nor tok v := by
  unfold resolvable at hr
  unfold Resolves
  unfold storesVertex at hs
  split at hr
  · next p h =>
    obtain ⟨P, hP⟩ := (isOk_iff _).1 hr
    exact ⟨⟨P, ⟨0, 0, 0⟩, ⟨0, 0⟩⟩, by simp [h, hP]⟩
  · next p t h =>
    simp only [Bool.and_eq_true] at hr
    obtain ⟨P, hP⟩ := (isOk_iff _).1 hr.1
    obtain ⟨T, hT⟩ := (isOk_iff _).1 hr.2
    exact ⟨⟨P, ⟨0, 0, 0⟩, T⟩, by simp [h, hP, hT]⟩
  · next p t n h =>
    simp only [Bool.and_eq_true, Bool.or_eq_true, decide_eq_true_eq] at hr
    obtain ⟨P, hP⟩ := (isOk_iff _).1 hr.1.1
    obtain ⟨N, hN⟩ := (isOk_iff _).1 hr.2
    by_cases ht0 : t = []
    · exact ⟨⟨P, N, ⟨0, 0⟩⟩, by simp [h, hP, hN, ht0]⟩
    · rcases hr.1.2 with ht | ht
      · exact absurd ht ht0
      · obtain ⟨T, hT⟩ := (isOk_iff _).1 ht
        exact ⟨⟨P, N, T⟩, by simp [h, hP, hN, hT, ht0]⟩
  · next h1 h2 h3 =>
    exfalso
    simp only [Bool.and_eq_true, decide_eq_true_eq] at hs
    match hsp : split tok '/' with
    | [] => simp [hsp] at hs
    | [p] => exact h1 p hsp
    | [p, t] => exact h2 p t hsp
    | [p, t, n] => exact h3 p t n hsp
    | _ :: _ :: _ :: _ :: _ => simp [hsp] at hs

theorem length_three_flags (tok : Str) (h : (split tok '/').length = 3) :
    storesVertex tok = true ∧ missesNormal tok = false := by
  simp [storesVertex, missesNormal, h]

/-- C1. Index resolution: for a token from which `std::stoi` reads the integer `k`,
`getElement` returns `table[k-1]` when `1 ≤ k ≤ n` and `table[n+k]` when `-n ≤ k ≤ -1`, so that
`-1` selects the element appended last; and with exactly three recorded positions the face line
`f -1 -2 -3` produces three vertices whose positions are the third, the second and the first
recorded position, in that order. -/
theorem getElement_resolves {T : Type} (table : List T) (tok : Str) (k : Int)
    (hk : stoi tok = .ok k) {R : Type} [LinearOrderedCommRing R] (p1 p2 p3 : Vector3 R)
    (tc : List (Vector2 R)) (nor : List (Vector3 R)) :
    (1 ≤ k → k ≤ table.length →
      ∃ x, table[(k - 1).toNat]? = some x ∧ getElement table tok = .ok x)
    ∧ (-(table.length : Int) ≤ k → k ≤ -1 →
      ∃ x, table[((table.length : Int) + k).toNat]? = some x ∧ getElement table tok = .ok x)
    ∧ (k = -1 → ∀ x, getElement (table ++ [x]) tok = .ok x)
    ∧ ∃ v1 v2 v3,
        GenVerticesFromRawOBJ [] [p1, p2, p3] tc nor "f -1 -2 -3".toList = .ok [v1, v2, v3]
        ∧ v1.Position = p3 ∧ v2.Position = p2 ∧ v3.Position = p1 := by
  refine ⟨?_, ?_, ?_, ?_⟩
  · intro h1 h2
    rw [getElement_of_stoi table tok k hk, if_neg (by omega)]
    exact at_ok table (k - 1) (by omega) (by omega)
  · intro h1 h2
    rw [getElement_of_stoi table tok k hk, if_pos (by omega)]
    exact at_ok table (table.length + k) (by omega) (by omega)
  · intro h x
    subst h
    rw [getElement_of_stoi (table ++ [x]) tok (-1) hk, if_pos (by omega)]
    obtain ⟨y, hy, hg⟩ := at_ok (table ++ [x]) (((table ++ [x]).length : Int) + -1)
      (by simp) (by omega)
    rw [hg]
    have hidx : (((table ++ [x]).length : Int) + -1).toNat = table.length := by
      simp
    rw [hidx] at hy
    simp at hy
    rw [hy]
  · have h1 : split (tail "f -1 -2 -3".toList) ' ' = [['-', '1'], ['-', '2'], ['-', '3']] := by
      decide
    have s1 : split ['-', '1'] '/' = [['-', '1']] := by decide
    have s2 : split ['-', '2'] '/' = [['-', '2']] := by decide
    have s3 : split ['-', '3'] '/' = [['-', '3']] := by decide
    have g1 : getElement [p1, p2, p3] ['-', '1'] = .ok p3 := by
      rw [getElement_of_stoi _ _ (-1) (by decide)]; rfl
    have g2 : getElement [p1, p2, p3] ['-', '2'] = .ok p2 := by
      rw [getElement_of_stoi _ _ (-2) (by decide)]; rfl
    have g3 : getElement [p1, p2, p3] ['-', '3'] = .ok p1 := by
      rw [getElement_of_stoi _ _ (-3) (by decide)]; rfl
    have hfil : List.filter storesVertex [['-', '1'], ['-', '2'], ['-', '3']]
        = [['-', '1'], ['-', '2'], ['-', '3']] := by decide
    have hres : ∀ tok ∈ split (tail "f -1 -2 -3".toList) ' ',
        storesVertex tok = true → ∃ v, Resolves [p1, p2, p3] tc nor tok v := by
      rw [h1]
      intro tok ht _
      simp only [List.mem_cons, List.mem_singleton, List.not_mem_nil, or_false] at ht
      rcases ht with rfl | rfl | rfl
      · exact ⟨⟨p3, ⟨0, 0, 0⟩, ⟨0, 0⟩⟩, by simp [Resolves, s1, g1]⟩
      · exact ⟨⟨p2, ⟨0, 0, 0⟩, ⟨0, 0⟩⟩, by simp [Resolves, s2, g2]⟩
      · exact ⟨⟨p1, ⟨0, 0, 0⟩, ⟨0, 0⟩⟩, by simp [Resolves, s3, g3]⟩
    obtain ⟨v0, v1, v2, rest, hg, _, hf⟩ := gen_flat_normal [p1, p2, p3] tc nor
      "f -1 -2 -3".toList hres (by rw [h1]; decide) (by rw [h1]; decide)
    rw [h1, hfil] at hf
    cases hf with
    | cons hv0 hf =>
      cases hf with
      | cons hv1 hf =>
        cases hf with
        | cons hv2 hf =>
          cases hf
          refine ⟨v0, v1, v2, hg, ?_, ?_, ?_⟩
          · simp only [Resolves, s1, g1] at hv0
            injection hv0.1 with h; exact h.symm
          · simp only [Resolves, s2, g2] at hv1
            injection hv1.1 with h; exact h.symm
          · simp only [Resolves, s3, g3] at hv2
            injection hv2.1 with h; exact h.symm

/-- Witness of C1: the table `[10, 20, 30]` with the token `-1`, and the positions `(1,0,0)`,
`(0,1,0)`, `(0,0,1)`. -/
theorem getElement_resolves_witness :
    stoi "-1".toList = .ok (-1)
    ∧ getElement ([10, 20, 30] : List Nat) "-1".toList = .ok 30
    ∧ ∃ v1 v2 v3,
        GenVerticesFromRawOBJ [] [(⟨1, 0, 0⟩ : Vector3 ℤ), ⟨0, 1, 0⟩, ⟨0, 0, 1⟩] [] []
          "f -1 -2 -3".toList = .ok [v1, v2, v3]
        ∧ v1.Position = ⟨0, 0, 1⟩ ∧ v2.Position = ⟨0, 1, 0⟩ ∧ v3.Position = ⟨1, 0, 0⟩ := by
  have h := getElement_resolves ([10, 20, 30] : List Nat) "-1".toList (-1) (by decide)
    (⟨1, 0, 0⟩ : Vector3 ℤ) ⟨0, 1, 0⟩ ⟨0, 0, 1⟩ [] []
  refine ⟨by decide, ?_, h.2.2.2⟩
  obtain ⟨x, hx, hg⟩ := h.2.1 (by decide) (by decide)
  have hx30 : x = 30 := by
    have h2 : ([10, 20, 30] : List Nat)[((([10, 20, 30] : List Nat).length : Int) + -1).toNat]?
        = some 30 := by decide
    rw [h2] at hx
    injection hx with hx
    exact hx.symm
  rw [hg, hx30]

/-- Counterexample to C2 as stated: the token `1x` is not numeric, yet `getElement` returns the
first element of the table and reports nothing; and on the token `0` the table is read at index
`-1` without a check, no `MalformedIndex` is reported. -/
theorem getElement_nonnumeric_counterexample :
    "1x".toList.all Char.isDigit = false
    ∧ getElement ([10] : List Nat) "1x".toList = .ok 10
    ∧ getElement ([10] : List Nat) "0".toList = .error .out_of_bounds := by
  decide

/-- C2, amended.  What `getElement` does is decided by what `std::stoi` reads: an exception of
`std::stoi` (`std::invalid_argument` for a token without a leading integer,
`std::out_of_range` for one that does not fit `int`) leaves `getElement` uncaught; a value `k`
with `1 ≤ |k| ≤ n` gives an element; and for `k = 0` or `|k| > n` the table is read outside its
bounds, unchecked.  So an element is returned exactly when `std::stoi` reads a `k` with
`1 ≤ |k| ≤ n`. -/
theorem getElement_outcomes {T : Type} (table : List T) (tok : Str) :
    (∀ e, stoi tok = .error e → getElement table tok = .error e)
    ∧ (∀ k, stoi tok = .ok k →
        (1 ≤ |k| ∧ |k| ≤ table.length → ∃ x, getElement table tok = .ok x)
        ∧ (k = 0 ∨ (table.length : Int) < |k| →
            getElement table tok = .error .out_of_bounds))
    ∧ ((∃ x, getElement table tok = .ok x)
        ↔ ∃ k, stoi tok = .ok k ∧ 1 ≤ |k| ∧ |k| ≤ table.length) := by
  have key : ∀ k, stoi tok = .ok k →
      (1 ≤ |k| ∧ |k| ≤ table.length → ∃ x, getElement table tok = .ok x)
      ∧ (k = 0 ∨ (table.length : Int) < |k| →
          getElement table tok = .error .out_of_bounds) := by
    intro k hk
    rw [getElement_of_stoi table tok k hk]
    constructor
    · rintro ⟨h1, h2⟩
      by_cases hneg : k < 0
      · rw [if_pos hneg]
        rw [abs_of_neg hneg] at h1 h2
        obtain ⟨x, _, hx⟩ := at_ok table (table.length + k) (by omega) (by omega)
        exact ⟨x, hx⟩
      · rw [if_neg hneg]
        rw [abs_of_nonneg (not_lt.mp hneg)] at h1 h2
        obtain ⟨x, _, hx⟩ := at_ok table (k - 1) (by omega) (by omega)
        exact ⟨x, hx⟩
    · intro h
      by_cases hneg : k < 0
      · rw [if_pos hneg]
        rw [abs_of_neg hneg] at h
        exact at_out table _ (by omega)
      · rw [if_neg hneg]
        rw [abs_of_nonneg (not_lt.mp hneg)] at h
        exact at_out table _ (by omega)
  refine ⟨fun e he => getElement_of_stoi_error table tok e he, key, ?_⟩
  constructor
  · rintro ⟨x, hx⟩
    cases hs : stoi tok with
    | error e => rw [getElement_of_stoi_error table tok e hs] at hx; cases hx
    | ok k =>
      refine ⟨k, rfl, ?_⟩
      by_contra hcon
      have hout : k = 0 ∨ (table.length : Int) < |k| := by
        by_cases h0 : k = 0
        · exact Or.inl h0
        · right
          have hpos : 1 ≤ |k| := Int.one_le_abs h0
          by_contra hlt
          exact hcon ⟨hpos, not_lt.mp hlt⟩
      rw [(key k hs).2 hout] at hx
      cases hx
  · rintro ⟨k, hk, h1, h2⟩
    exact (key k hk).1 ⟨h1, h2⟩

/-- Witness of C2 (amended): the table `[10, 20, 30]` with the token `-3`, which `std::stoi`
reads as `-3`. -/
theorem getElement_outcomes_witness :
    stoi "-3".toList = .ok (-3) ∧ (1 ≤ |(-3 : Int)| ∧ |(-3 : Int)| ≤ 3)
    ∧ ∃ x, getElement ([10, 20, 30] : List Nat) "-3".toList = .ok x :=
  ⟨by decide, by decide,
    ((getElement_outcomes ([10, 20, 30] : List Nat) "-3".toList).2.1 (-3) (by decide)).1
      (by decide)⟩

theorem resolves_all {R : Type} [Zero R] (pos : List (Vector3 R)) (tc : List (Vector2 R))
    (nor : List (Vector3 R)) (toks : List Str)
    (hres : ∀ tok ∈ toks, resolvable pos tc nor tok = true) :
    ∀ tok ∈ toks, storesVertex tok = true → ∃ v, Resolves pos tc nor tok v :=
  fun tok ht hs => resolves_of_resolvable pos tc nor tok hs (hres tok ht)

/-- C3. Face assembly resolves every reference: when every vertex token of the face line has
three pieces (`p/t/n` or `p//n`) and each of its references selects an entry, the call returns
one vertex per token, in order, and the vertex of a token has the position `getElement` selects
for `p`, the normal it selects for `n`, and the texture coordinate it selects for `t`, or
`(0, 0)` when `t` is empty: each member is settled by the token alone, whatever the tokens
before it were. -/
theorem genVertices_resolves_references {R : Type} [LinearOrderedCommRing R]
    (pos : List (Vector3 R)) (tc : List (Vector2 R)) (nor : List (Vector3 R)) (icurline : Str)
    (h : ∀ tok ∈ split (tail icurline) ' ',
      (split tok '/').length = 3 ∧ resolvable pos tc nor tok = true) :
    ∃ vs, GenVerticesFromRawOBJ [] pos tc nor icurline = .ok vs
      ∧ List.Forall₂ (fun tok v => Resolves pos tc nor tok v ∧ ResolvesNormal nor tok v)
        (split (tail icurline) ' ') vs := by
  have hall : (split (tail icurline) ' ').any missesNormal = false := by
    rw [List.any_eq_false]
    intro tok ht
    simp [(length_three_flags tok (h tok ht).1).2]
  have hfil : (split (tail icurline) ' ').filter storesVertex = split (tail icurline) ' ' :=
    List.filter_eq_self.2 (fun tok ht => (length_three_flags tok (h tok ht).1).1)
  obtain ⟨vs, hg, hf⟩ := gen_with_normals pos tc nor icurline
    (resolves_all pos tc nor _ (fun tok ht => (h tok ht).2)) hall
  refine ⟨vs, hg, ?_⟩
  rw [hfil] at hf
  have hmem : List.Forall₂ (fun tok (v : Vertex R) => tok ∈ split (tail icurline) ' '
      ∧ (Resolves pos tc nor tok v ∧ (missesNormal tok = false → ResolvesNormal nor tok v)))
      (split (tail icurline) ' ') vs := by
    rw [List.forall₂_and_left]
    exact ⟨fun tok ht => ht, hf⟩
  refine hmem.imp ?_
  rintro tok v ⟨ht, hr, hn⟩
  exact ⟨hr, hn (length_three_flags tok (h tok ht).1).2⟩

/-- Witness of C3: the face line `f 1/1/1 2//2 3/1/1` over four positions, one texture
coordinate and two normals. -/
theorem genVertices_resolves_references_witness :
    (∀ tok ∈ split (tail "f 1/1/1 2//2 3/1/1".toList) ' ',
      (split tok '/').length = 3
      ∧ resolvable [(⟨0, 0, 0⟩ : Vector3 ℤ), ⟨1, 0, 0⟩, ⟨1, 1, 0⟩, ⟨0, 1, 0⟩] [⟨5, 6⟩]
          [⟨0, 0, 1⟩, ⟨7, 8, 9⟩] tok = true)
    ∧ ∃ vs, GenVerticesFromRawOBJ [] [(⟨0, 0, 0⟩ : Vector3 ℤ), ⟨1, 0, 0⟩, ⟨1, 1, 0⟩, ⟨0, 1, 0⟩]
          [⟨5, 6⟩] [⟨0, 0, 1⟩, ⟨7, 8, 9⟩] "f 1/1/1 2//2 3/1/1".toList = .ok vs
        ∧ List.Forall₂ (fun tok v =>
            Resolves [(⟨0, 0, 0⟩ : Vector3 ℤ), ⟨1, 0, 0⟩, ⟨1, 1, 0⟩, ⟨0, 1, 0⟩] [⟨5, 6⟩]
              [⟨0, 0, 1⟩, ⟨7, 8, 9⟩] tok v
            ∧ ResolvesNormal [(⟨0, 0, 1⟩ : Vector3 ℤ), ⟨7, 8, 9⟩] tok v)
          (split (tail "f 1/1/1 2//2 3/1/1".toList) ' ') vs :=
  ⟨by decide, genVertices_resolves_references _ _ _ _ (by decide)⟩

/-- C4. Flat-normal fallback: when the references of every vertex token of a face line select
an entry, at least three tokens store a vertex and at least one token has no normal reference
(form `p` or `p/t`), the call returns vertices `v0, v1, v2, ...`, one per storing token and
resolved from it, and every one of them, also one whose token gave a normal, has the normal
`cross(v0.Position - v1.Position, v2.Position - v1.Position)`. -/
theorem genVertices_flat_normal {R : Type} [LinearOrderedCommRing R]
    (pos : List (Vector3 R)) (tc : List (Vector2 R)) (nor : List (Vector3 R)) (icurline : Str)
    (hres : ∀ tok ∈ split (tail icurline) ' ', resolvable pos tc nor tok = true)
    (h3 : 3 ≤ ((split (tail icurline) ' ').filter storesVertex).length)
    (hmiss : ∃ tok ∈ split (tail icurline) ' ', missesNormal tok = true) :
    ∃ v0 v1 v2 rest,
      GenVerticesFromRawOBJ [] pos tc nor icurline = .ok (v0 :: v1 :: v2 :: rest)
      ∧ (∀ v ∈ v0 :: v1 :: v2 :: rest,
          v.Normal = CrossV3 (v0.Position - v1.Position) (v2.Position - v1.Position))
      ∧ List.Forall₂ (fun tok v => Resolves pos tc nor tok v)
        ((split (tail icurline) ' ').filter storesVertex) (v0 :: v1 :: v2 :: rest) :=
  gen_flat_normal pos tc nor icurline (resolves_all pos tc nor _ hres)
    (List.any_eq_true.2 hmiss) h3

/-- Witness of C4: the face line `f 1/1/1 2//1 3/1 4`, whose third and fourth tokens have no
normal reference. -/
theorem genVertices_flat_normal_witness :
    (∀ tok ∈ split (tail "f 1/1/1 2//1 3/1 4".toList) ' ',
      resolvable [(⟨0, 0, 0⟩ : Vector3 ℤ), ⟨1, 0, 0⟩, ⟨1, 1, 0⟩, ⟨0, 1, 0⟩] [⟨5, 6⟩]
        [⟨0, 0, 1⟩] tok = true)
    ∧ 3 ≤ ((split (tail "f 1/1/1 2//1 3/1 4".toList) ' ').filter storesVertex).length
    ∧ (∃ tok ∈ split (tail "f 1/1/1 2//1 3/1 4".toList) ' ', missesNormal tok = true)
    ∧ ∃ v0 v1 v2 rest,
      GenVerticesFromRawOBJ [] [(⟨0, 0, 0⟩ : Vector3 ℤ), ⟨1, 0, 0⟩, ⟨1, 1, 0⟩, ⟨0, 1, 0⟩]
          [⟨5, 6⟩] [⟨0, 0, 1⟩] "f 1/1/1 2//1 3/1 4".toList = .ok (v0 :: v1 :: v2 :: rest)
      ∧ (∀ v ∈ v0 :: v1 :: v2 :: rest,
          v.Normal = CrossV3 (v0.Position - v1.Position) (v2.Position - v1.Position))
      ∧ List.Forall₂ (fun tok v =>
          Resolves [(⟨0, 0, 0⟩ : Vector3 ℤ), ⟨1, 0, 0⟩, ⟨1, 1, 0⟩, ⟨0, 1, 0⟩] [⟨5, 6⟩]
            [⟨0, 0, 1⟩] tok v)
        ((split (tail "f 1/1/1 2//1 3/1 4".toList) ' ').filter storesVertex)
        (v0 :: v1 :: v2 :: rest) :=
  ⟨by decide, by decide, by decide,
    genVertices_flat_normal _ _ _ _ (by decide) (by decide) (by decide)⟩

/-- Counterexample to C5 as stated: the tail of `f 1/1/1/1 2 3 4` has four vertex tokens, none
of them empty, and the call returns three vertices: the first token, which has four pieces, is
dropped. -/
theorem genVertices_drops_token_counterexample :
    (split (tail "f 1/1/1/1 2 3 4".toList) ' ').length = 4
    ∧ (∀ tok ∈ split (tail "f 1/1/1/1 2 3 4".toList) ' ', tok ≠ [])
    ∧ GenVerticesFromRawOBJ [] [(⟨0, 0, 0⟩ : Vector3 ℤ), ⟨1, 0, 0⟩, ⟨1, 1, 0⟩, ⟨0, 1, 0⟩]
        [⟨5, 6⟩] [⟨0, 0, 1⟩] "f 1/1/1/1 2 3 4".toList
      = .ok [⟨⟨1, 0, 0⟩, ⟨0, 0, -1⟩, ⟨0, 0⟩⟩, ⟨⟨1, 1, 0⟩, ⟨0, 0, -1⟩, ⟨0, 0⟩⟩,
          ⟨⟨0, 1, 0⟩, ⟨0, 0, -1⟩, ⟨0, 0⟩⟩] := by
  decide

/-- C5, amended.  The vertices produced correspond, one to one and in order, to the vertex
tokens that store a vertex, which are those that split on `/` into one, two or three pieces (a
token with no piece or with more than three is skipped without an error): when the references
of every token select an entry and either no token lacks a normal or at least three tokens
store a vertex, the call returns a sequence as long as the list of storing tokens whose `i`-th
vertex has the position and the texture coordinate resolved from the `i`-th storing token. -/
theorem genVertices_count_order {R : Type} [LinearOrderedCommRing R]
    (pos : List (Vector3 R)) (tc : List (Vector2 R)) (nor : List (Vector3 R)) (icurline : Str)
    (hres : ∀ tok ∈ split (tail icurline) ' ', resolvable pos tc nor tok = true)
    (hn : (∀ tok ∈ split (tail icurline) ' ', missesNormal tok = false)
      ∨ 3 ≤ ((split (tail icurline) ' ').filter storesVertex).length) :
    ∃ vs, GenVerticesFromRawOBJ [] pos tc nor icurline = .ok vs
      ∧ vs.length = ((split (tail icurline) ' ').filter storesVertex).length
      ∧ List.Forall₂ (fun tok v => Resolves pos tc nor tok v)
        ((split (tail icurline) ' ').filter storesVertex) vs := by
  by_cases hany : (split (tail icurline) ' ').any missesNormal = true
  · have h3 : 3 ≤ ((split (tail icurline) ' ').filter storesVertex).length := by
      rcases hn with hn | hn
      · obtain ⟨tok, ht, hm⟩ := List.any_eq_true.1 hany
        rw [hn tok ht] at hm
        cases hm
      · exact hn
    obtain ⟨v0, v1, v2, rest, hg, _, hf⟩ :=
      gen_flat_normal pos tc nor icurline (resolves_all pos tc nor _ hres) hany h3
    exact ⟨_, hg, hf.length_eq.symm, hf⟩
  · obtain ⟨vs, hg, hf⟩ := gen_with_normals pos tc nor icurline
      (resolves_all pos tc nor _ hres) (by simpa using hany)
    exact ⟨vs, hg, hf.length_eq.symm, hf.imp (fun _ _ h => h.1)⟩

/-- Witness of C5 (amended): the face line `f 1/1/1/1 2 3 4`, of which three tokens store a
vertex. -/
theorem genVertices_count_order_witness :
    (∀ tok ∈ split (tail "f 1/1/1/1 2 3 4".toList) ' ',
      resolvable [(⟨0, 0, 0⟩ : Vector3 ℤ), ⟨1, 0, 0⟩, ⟨1, 1, 0⟩, ⟨0, 1, 0⟩] [⟨5, 6⟩]
        [⟨0, 0, 1⟩] tok = true)
    ∧ 3 ≤ ((split (tail "f 1/1/1/1 2 3 4".toList) ' ').filter storesVertex).length
    ∧ ∃ vs, GenVerticesFromRawOBJ [] [(⟨0, 0, 0⟩ : Vector3 ℤ), ⟨1, 0, 0⟩, ⟨1, 1, 0⟩, ⟨0, 1, 0⟩]
          [⟨5, 6⟩] [⟨0, 0, 1⟩] "f 1/1/1/1 2 3 4".toList = .ok vs
      ∧ vs.length = ((split (tail "f 1/1/1/1 2 3 4".toList) ' ').filter storesVertex).length
      ∧ List.Forall₂ (fun tok v =>
          Resolves [(⟨0, 0, 0⟩ : Vector3 ℤ), ⟨1, 0, 0⟩, ⟨1, 1, 0⟩, ⟨0, 1, 0⟩] [⟨5, 6⟩]
            [⟨0, 0, 1⟩] tok v)
        ((split (tail "f 1/1/1/1 2 3 4".toList) ' ').filter storesVertex) vs :=
  ⟨by decide, by decide,
    genVertices_count_order _ _ _ _ (by decide) (Or.inr (by decide))⟩

/-! ## Triangulation -/

theorem emitLoop_bounds {R : Type} [DecidableEq R] (a b c : Vector3 R) (vs : List (Vertex R)) :
    ∀ j x, x ∈ emitLoop a b c vs j → j ≤ x ∧ x < j + vs.length := by
  induction vs with
  | nil => intro j x hx; simp [emitLoop] at hx
  | cons v vs ih =>
    intro j x hx
    simp only [emitLoop, List.mem_append] at hx
    have hj : ∀ (p : Prop) [Decidable p], x ∈ (if p then [j] else []) → x = j := by
      intro p _ h
      split at h <;> simp_all
    simp only [List.length_cons]
    rcases hx with ((h | h) | h) | h
    · have := hj _ h; omega
    · have := hj _ h; omega
    · have := hj _ h; omega
    · have := ih (j + 1) x h; omega

theorem nth_mem {R : Type} [Zero R] (t : List (Vertex R)) (i : Nat) (h : i < t.length) :
    nth t i ∈ t := by
  unfold nth
  rw [List.getD_eq_getElem _ _ h]
  exact List.getElem_mem h

theorem pCur_mem {R : Type} [Zero R] (t : List (Vertex R)) (i : Nat) (h : i < t.length) :
    pCur t i ∈ t := nth_mem t i h

theorem eraseCur_sublist {R : Type} [DecidableEq R] (p : Vector3 R) (t : List (Vertex R)) :
    (eraseCur p t).Sublist t := by
  induction t with
  | nil => simp [eraseCur]
  | cons v vs ih =>
    unfold eraseCur
    split
    · exact List.sublist_cons_self v vs
    · exact ih.cons₂ v

theorem eraseCur_length {R : Type} [DecidableEq R] (p : Vector3 R) (t : List (Vertex R))
    (h : p ∈ t.map (fun v => v.Position)) : (eraseCur p t).length + 1 = t.length := by
  induction t with
  | nil => simp at h
  | cons v vs ih =>
    unfold eraseCur
    split
    · simp
    · next hne =>
      simp only [List.map_cons, List.mem_cons] at h
      rcases h with h | h
      · exact absurd h.symm hne
      · simp [ih h]

theorem findEar_lt {R : Type} [LinearOrderedCommRing R] (env : Env R)
    (i_verts t_verts : List (Vertex R)) (i : Nat) (h : findEar env i_verts t_verts = some i) :
    i < t_verts.length :=
  List.mem_range.1 (List.mem_of_find?_eq_some h)

theorem triLoop_bounds {R : Type} [LinearOrderedCommRing R] (env : Env R)
    (i_verts : List (Vertex R)) :
    ∀ (fuel : Nat) (t_verts : List (Vertex R)) (o_indices out : List Nat),
      (∀ x ∈ o_indices, x < i_verts.length) →
      triLoop env i_verts fuel t_verts o_indices = .ok out →
      ∀ x ∈ out, x < i_verts.length := by
  have hemit : ∀ (a b c : Vector3 R) (l : List (Vertex R)), l.length ≤ i_verts.length →
      ∀ x ∈ emitLoop a b c l 0, x < i_verts.length := by
    intro a b c l hl x hx
    have := emitLoop_bounds a b c l 0 x hx
    omega
  intro fuel
  induction fuel with
  | zero =>
    intro t o out ho h
    unfold triLoop at h
    simp only at h
    split at h
    · injection h with h
      subst h
      intro x hx
      rcases List.mem_append.1 hx with hx | hx
      · exact ho x hx
      · exact hemit _ _ _ _ (by simp [List.length_take]) x hx
    · split at h
      · injection h with h
        subst h
        intro x hx
        rcases List.mem_append.1 hx with hx | hx
        · rcases List.mem_append.1 hx with hx | hx
          · exact ho x hx
          · exact hemit _ _ _ _ le_rfl x hx
        · exact hemit _ _ _ _ le_rfl x hx
      · split at h
        · split at h
          · injection h with h; subst h; exact ho
          · split at h
            · injection h with h; subst h; exact ho
            · cases h
        · cases h
  | succ fuel ih =>
    intro t o out ho h
    unfold triLoop at h
    simp only at h
    split at h
    · injection h with h
      subst h
      intro x hx
      rcases List.mem_append.1 hx with hx | hx
      · exact ho x hx
      · exact hemit _ _ _ _ (by simp [List.length_take]) x hx
    · split at h
      · injection h with h
        subst h
        intro x hx
        rcases List.mem_append.1 hx with hx | hx
        · rcases List.mem_append.1 hx with hx | hx
          · exact ho x hx
          · exact hemit _ _ _ _ le_rfl x hx
        · exact hemit _ _ _ _ le_rfl x hx
      · split at h
        · split at h
          · injection h with h; subst h; exact ho
          · split at h
            · injection h with h; subst h; exact ho
            · cases h
        · refine ih _ _ out ?_ h
          intro x hx
          rcases List.mem_append.1 hx with hx | hx
          · exact ho x hx
          · exact hemit _ _ _ _ le_rfl x hx

theorem VertexTriangluation_bounds {R : Type} [LinearOrderedCommRing R] (env : Env R)
    (i_verts : List (Vertex R)) (out : List Nat)
    (h : VertexTriangluation env [] i_verts = .ok out) : ∀ x ∈ out, x < i_verts.length := by
  unfold VertexTriangluation at h
  split at h
  · injection h with h; subst h; simp
  · split at h
    · next h3 =>
      injection h with h
      subst h
      intro x hx
      simp at hx
      omega
    · exact triLoop_bounds env i_verts _ _ _ out (by simp) h
theorem triLoop_fuel {R : Type} [LinearOrderedCommRing R] (env : Env R)
    (i_verts : List (Vertex R)) :
    ∀ (fuel : Nat) (t_verts : List (Vertex R)) (o_indices : List Nat) (k : Nat),
      t_verts.length ≤ fuel →
      triLoop env i_verts (fuel + k) t_verts o_indices
        = triLoop env i_verts fuel t_verts o_indices := by
  intro fuel
  induction fuel with
  | zero =>
    intro t o k hle
    have ht : t = [] := List.length_eq_zero.1 (by omega)
    subst ht
    cases k with
    | zero => rfl
    | succ k => simp [triLoop, findEar]
  | succ fuel ih =>
    intro t o k hle
    have hk : fuel + 1 + k = (fuel + k) + 1 := by omega
    rw [hk]
    unfold triLoop
    simp only
    split
    · rfl
    · split
      · rfl
      · split
        · rfl
        · next i hear =>
          have hi := findEar_lt env i_verts t i hear
          have hlen := eraseCur_length (pCur t i).Position t
            (List.mem_map_of_mem _ (pCur_mem t i hi))
          exact ih _ _ k (by omega)

theorem stage_ok {α : Type} (c : Prop) [Decidable c] (f : Except Fault α) (a b : α)
    (h : (if c then f else pure a) = Except.ok b) : (c ∧ f = .ok b) ∨ (¬c ∧ a = b) := by
  by_cases hc : c
  · rw [if_pos hc] at h; exact Or.inl ⟨hc, h⟩
  · rw [if_neg hc] at h
    injection h with h
    exact Or.inr ⟨hc, h⟩

theorem bind_ok {α β : Type} (x : Except Fault α) (f : α → Except Fault β) (b : β)
    (h : (x >>= f) = Except.ok b) : ∃ a, x = .ok a ∧ f a = .ok b := by
  cases x with
  | error e => cases h
  | ok a => exact ⟨a, rfl, h⟩

/-- An invariant of the loop of `load` is carried over a line when every branch carries it; the
branch of `f` may change it from `I` to `J`. -/
theorem loadLine_carries {R : Type} [LinearOrderedCommRing R] (env : Env R) (curline : Str)
    (I J : LoadState R → Prop)
    (hgroupI : ∀ st, I st → I (loadGroup st curline))
    (hposI : ∀ st st1, I st → loadPosition env st curline = .ok st1 → I st1)
    (htexI : ∀ st st1, I st → loadTexCoord env st curline = .ok st1 → I st1)
    (hnorI : ∀ st st1, I st → loadNormal env st curline = .ok st1 → I st1)
    (hface : ∀ st st1, firstToken curline = "f".toList → I st →
      loadFace env st curline = .ok st1 → J st1)
    (hnoface : ∀ st, firstToken curline ≠ "f".toList → I st → J st)
    (husemtlJ : ∀ st, J st → J (loadUsemtl st curline))
    (hmtllibJ : ∀ st st1, J st → loadMtllib env st curline = .ok st1 → J st1)
    (st st1 : LoadState R) (hI : I st) (h : loadLine env st curline = .ok st1) : J st1 := by
  unfold loadLine at h
  have h0 : I (if isGroupLine curline then loadGroup st curline else st) := by
    split
    · exact hgroupI st hI
    · exact hI
  generalize (if isGroupLine curline then loadGroup st curline else st) = s0 at h h0
  obtain ⟨s1, e1, h⟩ := bind_ok _ _ _ h
  have h1 : I s1 := by
    rcases stage_ok _ _ _ _ e1 with ⟨_, e⟩ | ⟨_, e⟩
    · exact hposI s0 s1 h0 e
    · exact e ▸ h0
  obtain ⟨s2, e2, h⟩ := bind_ok _ _ _ h
  have h2 : I s2 := by
    rcases stage_ok _ _ _ _ e2 with ⟨_, e⟩ | ⟨_, e⟩
    · exact htexI s1 s2 h1 e
    · exact e ▸ h1
  obtain ⟨s3, e3, h⟩ := bind_ok _ _ _ h
  have h3 : I s3 := by
    rcases stage_ok _ _ _ _ e3 with ⟨_, e⟩ | ⟨_, e⟩
    · exact hnorI s2 s3 h2 e
    · exact e ▸ h2
  obtain ⟨s4, e4, h⟩ := bind_ok _ _ _ h
  have h4 : J s4 := by
    rcases stage_ok _ _ _ _ e4 with ⟨c, e⟩ | ⟨c, e⟩
    · exact hface s3 s4 c h3 e
    · exact e ▸ hnoface s3 c h3
  have h5 : J (if firstToken curline = "usemtl".toList then loadUsemtl s4 curline else s4) := by
    split
    · exact husemtlJ s4 h4
    · exact h4
  generalize (if firstToken curline = "usemtl".toList then loadUsemtl s4 curline else s4) = s5
    at h h5
  obtain ⟨s6, e6, h⟩ := bind_ok _ _ _ h
  have h6 : J s6 := by
    rcases stage_ok _ _ _ _ e6 with ⟨_, e⟩ | ⟨_, e⟩
    · exact hmtllibJ s5 s6 h5 e
    · exact e ▸ h5
  injection h with h
  exact h ▸ h6
theorem scan_carries {R : Type} [LinearOrderedCommRing R] (env : Env R)
    (I : LoadState R → Prop)
    (hline : ∀ curline st st1, I st → loadLine env st curline = .ok st1 → I st1) :
    ∀ (lines : List Str) (st st1 : LoadState R), I st → scan env lines st = (st1, none) →
      I st1 := by
  intro lines
  induction lines with
  | nil =>
    intro st st1 hI h
    simp only [scan, Prod.mk.injEq, and_true] at h
    exact h ▸ hI
  | cons l rest ih =>
    intro st st1 hI h
    unfold scan at h
    split at h
    · next s hs => exact ih s st1 (hline l st s hI hs) h
    · simp at h

theorem loadPosition_frame {R : Type} (env : Env R) (st st1 : LoadState R) (curline : Str)
    (h : loadPosition env st curline = .ok st1) :
    ∃ v, st1 = { st with positions := st.positions ++ [v] } := by
  unfold loadPosition at h
  obtain ⟨v, _, h⟩ := bind_ok _ _ _ h
  injection h with h
  exact ⟨v, h.symm⟩

theorem loadTexCoord_frame {R : Type} (env : Env R) (st st1 : LoadState R) (curline : Str)
    (h : loadTexCoord env st curline = .ok st1) :
    ∃ v, st1 = { st with t_coords := st.t_coords ++ [v] } := by
  unfold loadTexCoord at h
  obtain ⟨v, _, h⟩ := bind_ok _ _ _ h
  injection h with h
  exact ⟨v, h.symm⟩

theorem loadNormal_frame {R : Type} (env : Env R) (st st1 : LoadState R) (curline : Str)
    (h : loadNormal env st curline = .ok st1) :
    ∃ v, st1 = { st with normals := st.normals ++ [v] } := by
  unfold loadNormal at h
  obtain ⟨v, _, h⟩ := bind_ok _ _ _ h
  injection h with h
  exact ⟨v, h.symm⟩

theorem loadMtllib_frame {R : Type} [Zero R] (env : Env R) (st st1 : LoadState R)
    (curline : Str) (h : loadMtllib env st curline = .ok st1) :
    ∃ mats, st1 = { st with LoadedMaterials := mats } := by
  unfold loadMtllib at h
  obtain ⟨r, _, h⟩ := bind_ok _ _ _ h
  injection h with h
  exact ⟨r.1, h.symm⟩

theorem loadFace_eq {R : Type} [LinearOrderedCommRing R] (env : Env R) (st st1 : LoadState R)
    (curline : Str) (h : loadFace env st curline = .ok st1) :
    ∃ v_verts i_indices,
      GenVerticesFromRawOBJ [] st.positions st.t_coords st.normals curline = .ok v_verts
      ∧ VertexTriangluation env [] v_verts = .ok i_indices
      ∧ st1 = { st with
          vertices := st.vertices ++ v_verts
          LoadedVertices := st.LoadedVertices ++ v_verts
          indices := st.indices ++ i_indices.map (fun i => st.vertices.length + i)
          LoadedIndices := st.LoadedIndices
            ++ i_indices.map (fun i => st.LoadedVertices.length + i) } := by
  unfold loadFace at h
  obtain ⟨v_verts, hg, h⟩ := bind_ok _ _ _ h
  obtain ⟨i_indices, ht, h⟩ := bind_ok _ _ _ h
  injection h with h
  refine ⟨v_verts, i_indices, hg, ht, ?_⟩
  rw [← h]
  simp

theorem genStep_length {R : Type} [Zero R] (pos : List (Vector3 R)) (tc : List (Vector2 R))
    (nor : List (Vector3 R)) (st st1 : GenState R) (tok : Str)
    (h : genStep pos tc nor st tok = .ok st1) :
    st1.o_verts.length = st.o_verts.length + (if storesVertex tok = true then 1 else 0) := by
  unfold genStep at h
  unfold storesVertex
  split at h
  · next p hs =>
    obtain ⟨a, _, h⟩ := bind_ok _ _ _ h
    injection h with h
    subst h
    simp [hs]
  · next p t hs =>
    obtain ⟨a, _, h⟩ := bind_ok _ _ _ h
    obtain ⟨b, _, h⟩ := bind_ok _ _ _ h
    injection h with h
    subst h
    simp [hs]
  · next p t n hs =>
    split at h
    · obtain ⟨a, _, h⟩ := bind_ok _ _ _ h
      obtain ⟨b, _, h⟩ := bind_ok _ _ _ h
      obtain ⟨c, _, h⟩ := bind_ok _ _ _ h
      injection h with h
      subst h
      simp [hs]
    · obtain ⟨a, _, h⟩ := bind_ok _ _ _ h
      obtain ⟨b, _, h⟩ := bind_ok _ _ _ h
      injection h with h
      subst h
      simp [hs]
  · next h1 h2 h3 =>
    injection h with h
    subst h
    have : ¬ (1 ≤ (split tok '/').length ∧ (split tok '/').length ≤ 3) := by
      rintro ⟨ha, hb⟩
      match hsp : split tok '/' with
      | [] => simp [hsp] at ha
      | [p] => exact h1 p hsp
      | [p, t] => exact h2 p t hsp
      | [p, t, n] => exact h3 p t n hsp
      | _ :: _ :: _ :: _ :: _ => simp [hsp] at hb
    simp [this]

theorem genLoop_length {R : Type} [Zero R] (pos : List (Vector3 R)) (tc : List (Vector2 R))
    (nor : List (Vector3 R)) (toks : List Str) :
    ∀ st st1 : GenState R, genLoop pos tc nor toks st = .ok st1 →
      st1.o_verts.length = st.o_verts.length + (toks.filter storesVertex).length := by
  induction toks with
  | nil =>
    intro st st1 h
    simp only [genLoop, pure, Except.pure] at h
    injection h with h
    subst h
    simp
  | cons tok rest ih =>
    intro st st1 h
    unfold genLoop at h
    obtain ⟨s, hs, h⟩ := bind_ok _ _ _ h
    rw [ih s st1 h, genStep_length pos tc nor st s tok hs, List.filter_cons]
    split
    · simp only [List.length_cons]; omega
    · omega

theorem GenVertices_length {R : Type} [Zero R] [Mul R] [Sub R] (pos : List (Vector3 R))
    (tc : List (Vector2 R)) (nor : List (Vector3 R)) (icurline : Str) (vs : List (Vertex R))
    (h : GenVerticesFromRawOBJ [] pos tc nor icurline = .ok vs) :
    vs.length = ((split (tail icurline) ' ').filter storesVertex).length := by
  unfold GenVerticesFromRawOBJ at h
  obtain ⟨st, hl, h⟩ := bind_ok _ _ _ h
  have hlen := genLoop_length pos tc nor _ _ _ hl
  simp only [List.length_nil, Nat.zero_add] at hlen
  split at h
  · obtain ⟨v0, _, h⟩ := bind_ok _ _ _ h
    obtain ⟨v1, _, h⟩ := bind_ok _ _ _ h
    obtain ⟨v2, _, h⟩ := bind_ok _ _ _ h
    injection h with h
    subst h
    simpa using hlen
  · injection h with h
    subst h
    exact hlen
theorem setMaterial_geometry {R : Type} (mats : List (Material R)) (meshes meshes1 : List (Mesh R))
    (i : Nat) (matname : Str) (h : setMaterial mats meshes i matname = .ok meshes1) :
    meshes1.map Mesh.geometry = meshes.map Mesh.geometry := by
  unfold setMaterial at h
  split at h
  · injection h with h
    rw [h]
  · split at h
    · next mesh hm =>
      injection h with h
      subst h
      rw [List.map_set]
      apply List.ext_getElem? 
      intro j
      rw [List.getElem?_set]
      split
      · next hij =>
        subst hij
        simp only [List.length_map]
        split
        · next hlt =>
          rw [List.getElem?_map, hm]
          rfl
        · next hge =>
          rw [List.getElem?_map, List.getElem?_eq_none (by omega)]
          rfl
      · rfl
    · cases h

theorem setMaterials_geometry {R : Type} (mats : List (Material R)) (names : List Str) :
    ∀ (i : Nat) (meshes meshes1 : List (Mesh R)),
      setMaterials mats names i meshes = .ok meshes1 →
      meshes1.map Mesh.geometry = meshes.map Mesh.geometry := by
  induction names with
  | nil =>
    intro i meshes meshes1 h
    simp only [setMaterials, pure, Except.pure] at h
    injection h with h
    rw [h]
  | cons n rest ih =>
    intro i meshes meshes1 h
    unfold setMaterials at h
    obtain ⟨ms, hs, h⟩ := bind_ok _ _ _ h
    rw [ih _ _ _ h, setMaterial_geometry mats meshes ms i n hs]

theorem mem_of_geometry {R : Type} (meshes meshes1 : List (Mesh R))
    (h : meshes1.map Mesh.geometry = meshes.map Mesh.geometry) (m : Mesh R) (hm : m ∈ meshes1) :
    ∃ m0 ∈ meshes, m0.Vertices = m.Vertices ∧ m0.Indices = m.Indices := by
  have : m.geometry ∈ meshes.map Mesh.geometry := h ▸ List.mem_map_of_mem _ hm
  obtain ⟨m0, hm0, he⟩ := List.mem_map.1 this
  simp only [Mesh.geometry, Prod.mk.injEq] at he
  exact ⟨m0, hm0, he.2.1, he.2.2⟩

theorem load_ok {R : Type} [LinearOrderedCommRing R] (env : Env R) (self : Loader R)
    (stream : Str) (b : Bool) (h : (load env self stream).2 = .ok b) :
    ∃ st, scan env (getlines stream) (LoadState.init self) = (st, none)
      ∧ load env self stream = finish st := by
  unfold load at h ⊢
  split at h
  · cases h
  · next st hs => exact ⟨st, hs, by simp [hs]⟩

theorem finish_ok {R : Type} [Zero R] (st : LoadState R) (b : Bool)
    (h : (finish st).2 = .ok b) :
    ∃ meshes,
      setMaterials st.LoadedMaterials st.mesh_mat_names 0
        (if (!st.indices.isEmpty && !st.vertices.isEmpty) = true then
          st.LoadedMeshes ++ [mkMesh st.vertices st.indices st.meshname]
        else st.LoadedMeshes) = .ok meshes
      ∧ (finish st).1 = ⟨meshes, st.LoadedVertices, st.LoadedIndices, st.LoadedMaterials⟩ := by
  unfold finish at h ⊢
  simp only at h ⊢
  split at h
  · next meshes hm => exact ⟨meshes, hm, by simp [hm]⟩
  · cases h

theorem loadGroup_bounded {R : Type} [Zero R] (st : LoadState R) (curline : Str)
    (h : IndexBounded st) : IndexBounded (loadGroup st curline) := by
  obtain ⟨h1, h2, h3⟩ := h
  unfold loadGroup
  split
  · exact ⟨h1, h2, h3⟩
  · split
    · refine ⟨by simp, h2, ?_⟩
      intro m hm
      rcases List.mem_append.1 hm with hm | hm
      · exact h3 m hm
      · simp only [List.mem_singleton] at hm
        subst hm
        exact h1
    · exact ⟨h1, h2, h3⟩

theorem loadUsemtl_bounded {R : Type} [Zero R] (st : LoadState R) (curline : Str)
    (h : IndexBounded st) : IndexBounded (loadUsemtl st curline) := by
  obtain ⟨h1, h2, h3⟩ := h
  unfold loadUsemtl
  simp only
  split
  · refine ⟨by simp, h2, ?_⟩
    intro m hm
    rcases List.mem_append.1 hm with hm | hm
    · exact h3 m hm
    · simp only [List.mem_singleton] at hm
      subst hm
      exact h1
  · exact ⟨h1, h2, h3⟩

theorem loadFace_bounded {R : Type} [LinearOrderedCommRing R] (env : Env R)
    (st st1 : LoadState R) (curline : Str) (h : IndexBounded st)
    (hf : loadFace env st curline = .ok st1) : IndexBounded st1 := by
  obtain ⟨h1, h2, h3⟩ := h
  obtain ⟨v_verts, i_indices, _, ht, rfl⟩ := loadFace_eq env st st1 curline hf
  have hb := VertexTriangluation_bounds env v_verts i_indices ht
  refine ⟨?_, ?_, h3⟩
  · intro x hx
    simp only [List.mem_append, List.mem_map] at hx
    simp only [List.length_append]
    rcases hx with hx | ⟨i, hi, rfl⟩
    · have := h1 x hx; omega
    · have := hb i hi; omega
  · intro x hx
    simp only [List.mem_append, List.mem_map] at hx
    simp only [List.length_append]
    rcases hx with hx | ⟨i, hi, rfl⟩
    · have := h2 x hx; omega
    · have := hb i hi; omega

theorem loadLine_bounded {R : Type} [LinearOrderedCommRing R] (env : Env R) (curline : Str)
    (st st1 : LoadState R) (h : IndexBounded st) (hl : loadLine env st curline = .ok st1) :
    IndexBounded st1 := by
  refine loadLine_carries env curline IndexBounded IndexBounded
    (fun s hs => loadGroup_bounded s curline hs) ?_ ?_ ?_
    (fun s s1 _ hs hf => loadFace_bounded env s s1 curline hs hf) (fun s _ hs => hs)
    (fun s hs => loadUsemtl_bounded s curline hs) ?_ st st1 h hl
  · intro s s1 hs he
    obtain ⟨v, rfl⟩ := loadPosition_frame env s s1 curline he
    exact hs
  · intro s s1 hs he
    obtain ⟨v, rfl⟩ := loadTexCoord_frame env s s1 curline he
    exact hs
  · intro s s1 hs he
    obtain ⟨v, rfl⟩ := loadNormal_frame env s s1 curline he
    exact hs
  · intro s s1 hs he
    obtain ⟨v, rfl⟩ := loadMtllib_frame env s s1 curline he
    exact hs

/-- C9. Index-bound invariant: when `load` completes, every value in the `Indices` of every mesh
of `LoadedMeshes` is below the number of `Vertices` of that mesh, and every value in
`LoadedIndices` is below the number of `LoadedVertices`. -/
theorem load_indices_in_bounds {R : Type} [LinearOrderedCommRing R] (env : Env R)
    (self : Loader R) (stream : Str) (b : Bool) (h : (load env self stream).2 = .ok b) :
    (∀ m ∈ (load env self stream).1.LoadedMeshes, ∀ x ∈ m.Indices, x < m.Vertices.length)
    ∧ (∀ x ∈ (load env self stream).1.LoadedIndices,
        x < (load env self stream).1.LoadedVertices.length) := by
  obtain ⟨st, hs, he⟩ := load_ok env self stream b h
  rw [he] at h ⊢
  have hinit : IndexBounded (LoadState.init self) := by
    simp [IndexBounded, LoadState.init]
  obtain ⟨h1, h2, h3⟩ := scan_carries env IndexBounded
    (fun l s s1 hI hl => loadLine_bounded env l s s1 hI hl) _ _ st hinit hs
  obtain ⟨meshes, hm, hf⟩ := finish_ok st b h
  rw [hf]
  refine ⟨?_, h2⟩
  intro m hmem
  obtain ⟨m0, hm0, hv, hi⟩ := mem_of_geometry _ _ (setMaterials_geometry _ _ _ _ _ hm) m hmem
  rw [← hv, ← hi]
  split at hm0
  · rcases List.mem_append.1 hm0 with hm0 | hm0
    · exact h3 m0 hm0
    · simp only [List.mem_singleton] at hm0
      subst hm0
      exact h1
  · exact h3 m0 hm0
/-- Witness of C9: a document with a quad and a triangle. -/
theorem load_indices_in_bounds_witness :
    (load intEnv (Loader.new ℤ)
        "o A\nv 0 0 0\nv 1 0 0\nv 1 1 0\nv 0 1 0\nf 1 2 3 4\nf 1 2 3\n".toList).2 = .ok true
    ∧ (∀ m ∈ (load intEnv (Loader.new ℤ)
          "o A\nv 0 0 0\nv 1 0 0\nv 1 1 0\nv 0 1 0\nf 1 2 3 4\nf 1 2 3\n".toList).1.LoadedMeshes,
        ∀ x ∈ m.Indices, x < m.Vertices.length)
    ∧ (∀ x ∈ (load intEnv (Loader.new ℤ)
          "o A\nv 0 0 0\nv 1 0 0\nv 1 1 0\nv 0 1 0\nf 1 2 3 4\nf 1 2 3\n".toList).1.LoadedIndices,
        x < (load intEnv (Loader.new ℤ)
          "o A\nv 0 0 0\nv 1 0 0\nv 1 1 0\nv 0 1 0\nf 1 2 3 4\nf 1 2 3\n".toList).1.LoadedVertices.length) :=
  ⟨by decide!, load_indices_in_bounds intEnv _ _ true (by decide!)⟩

theorem vertexCount_append {R : Type} (a b : List (Mesh R)) :
    vertexCount (a ++ b) = vertexCount a + vertexCount b := by
  simp [vertexCount, List.sum_append]

theorem indexCount_append {R : Type} (a b : List (Mesh R)) :
    indexCount (a ++ b) = indexCount a + indexCount b := by
  simp [indexCount, List.sum_append]

theorem counts_of_geometry {R : Type} (meshes meshes1 : List (Mesh R))
    (h : meshes1.map Mesh.geometry = meshes.map Mesh.geometry) :
    vertexCount meshes1 = vertexCount meshes ∧ indexCount meshes1 = indexCount meshes := by
  have hv : ∀ l : List (Mesh R), l.map (fun m => m.Vertices.length)
      = (l.map Mesh.geometry).map (fun g => g.2.1.length) := by
    intro l; simp [Mesh.geometry, Function.comp_def]
  have hi : ∀ l : List (Mesh R), l.map (fun m => m.Indices.length)
      = (l.map Mesh.geometry).map (fun g => g.2.2.length) := by
    intro l; simp [Mesh.geometry, Function.comp_def]
  unfold vertexCount indexCount
  rw [hv meshes1, hv meshes, hi meshes1, hi meshes, h]
  exact ⟨rfl, rfl⟩

theorem loadGroup_count {R : Type} [Zero R] (k : Nat) (st : LoadState R) (curline : Str)
    (h : TriangleCount k st) : TriangleCount k (loadGroup st curline) := by
  obtain ⟨h1, h2, h3, h4, h5⟩ := h
  unfold loadGroup
  split
  · exact ⟨h1, h2, h3, h4, h5⟩
  · split
    · refine ⟨h1, h2, ?_, ?_, rfl⟩
      · simp only [vertexCount_append]
        simpa [vertexCount, mkMesh] using h3
      · simp only [indexCount_append]
        simpa [indexCount, mkMesh] using h4
    · exact ⟨h1, h2, h3, h4, h5⟩

theorem loadUsemtl_count {R : Type} [Zero R] (k : Nat) (st : LoadState R) (curline : Str)
    (h : TriangleCount k st) : TriangleCount k (loadUsemtl st curline) := by
  obtain ⟨h1, h2, h3, h4, h5⟩ := h
  unfold loadUsemtl
  simp only
  split
  · refine ⟨h1, h2, ?_, ?_, rfl⟩
    · simp only [vertexCount_append]
      simpa [vertexCount, mkMesh] using h3
    · simp only [indexCount_append]
      simpa [indexCount, mkMesh] using h4
  · exact ⟨h1, h2, h3, h4, h5⟩

theorem loadFace_count {R : Type} [LinearOrderedCommRing R] (env : Env R) (k : Nat)
    (st st1 : LoadState R) (curline : Str) (h : TriangleCount k st)
    (h3 : ((split (tail curline) ' ').filter storesVertex).length = 3)
    (hf : loadFace env st curline = .ok st1) : TriangleCount (k + 1) st1 := by
  obtain ⟨h1, h2, hv, hi, h5⟩ := h
  obtain ⟨v_verts, i_indices, hg, ht, rfl⟩ := loadFace_eq env st st1 curline hf
  have hlen : v_verts.length = 3 := by
    rw [GenVertices_length _ _ _ _ _ hg, h3]
  have hidx : i_indices = [0, 1, 2] := by
    unfold VertexTriangluation at ht
    rw [if_neg (by omega), if_pos hlen] at ht
    injection ht with ht
    exact ht.symm
  subst hidx
  refine ⟨?_, ?_, ?_, ?_, ?_⟩
  · simp only [List.length_append, h1, hlen]; omega
  · have e : 3 * (k + 1) = 3 * k + 3 := by omega
    simp only [h2, h1, e, List.range_add]
    rfl
  · simp only [List.length_append, hlen]; omega
  · simp only [List.length_append, List.length_map, List.length_cons, List.length_nil]; omega
  · simp only [List.length_append, List.length_map, List.length_cons, List.length_nil, hlen]
    omega

theorem loadLine_count {R : Type} [LinearOrderedCommRing R] (env : Env R) (curline : Str)
    (k : Nat) (st st1 : LoadState R) (h : TriangleCount k st)
    (h3 : isFaceLine curline = true →
      ((split (tail curline) ' ').filter storesVertex).length = 3)
    (hl : loadLine env st curline = .ok st1) :
    TriangleCount (k + if isFaceLine curline = true then 1 else 0) st1 := by
  refine loadLine_carries env curline (TriangleCount k)
    (TriangleCount (k + if isFaceLine curline = true then 1 else 0))
    (fun s hs => loadGroup_count k s curline hs) ?_ ?_ ?_ ?_ ?_
    (fun s hs => loadUsemtl_count _ s curline hs) ?_ st st1 h hl
  · intro s s1 hs he
    obtain ⟨v, rfl⟩ := loadPosition_frame env s s1 curline he
    exact hs
  · intro s s1 hs he
    obtain ⟨v, rfl⟩ := loadTexCoord_frame env s s1 curline he
    exact hs
  · intro s s1 hs he
    obtain ⟨v, rfl⟩ := loadNormal_frame env s s1 curline he
    exact hs
  · intro s s1 hkey hs hf
    have hface : isFaceLine curline = true := by
      simp only [isFaceLine, decide_eq_true_eq]; exact hkey
    rw [if_pos hface]
    exact loadFace_count env k s s1 curline hs (h3 hface) hf
  · intro s hkey hs
    have hface : ¬ isFaceLine curline = true := by
      simp only [isFaceLine, decide_eq_true_eq]; exact hkey
    rw [if_neg hface]
    exact hs
  · intro s s1 hs he
    obtain ⟨v, rfl⟩ := loadMtllib_frame env s s1 curline he
    exact hs

theorem scan_count {R : Type} [LinearOrderedCommRing R] (env : Env R) :
    ∀ (lines : List Str) (k : Nat) (st st1 : LoadState R), TriangleCount k st →
      (∀ l ∈ lines, isFaceLine l = true →
        ((split (tail l) ' ').filter storesVertex).length = 3) →
      scan env lines st = (st1, none) →
      TriangleCount (k + (lines.filter isFaceLine).length) st1 := by
  intro lines
  induction lines with
  | nil =>
    intro k st st1 hI _ h
    simp only [scan, Prod.mk.injEq, and_true] at h
    simpa [← h] using hI
  | cons l rest ih =>
    intro k st st1 hI h3 h
    unfold scan at h
    split at h
    · next s hs =>
      have h1 := loadLine_count env l k st s hI (h3 l (List.mem_cons_self _ _)) hs
      have h2 := ih _ s st1 h1 (fun l' hl' => h3 l' (List.mem_cons_of_mem _ hl')) h
      have e : k + (if isFaceLine l = true then 1 else 0) + (rest.filter isFaceLine).length
          = k + ((l :: rest).filter isFaceLine).length := by
        rw [List.filter_cons]
        split
        · simp only [List.length_cons]; omega
        · omega
      rw [← e]
      exact h2
    · simp at h
/-- C7. No deduplication on triangle-only documents: when every face line of the document has
exactly three vertex tokens, each of which stores a vertex, and `load` completes, then with `k`
the number of face lines `LoadedVertices` has `3 * k` entries, `LoadedIndices` is the list
`0, 1, ..., 3 * k - 1` (the `j`-th face contributes `3 * j`, `3 * j + 1`, `3 * j + 2`, in that
order), and the meshes of `LoadedMeshes` hold `3 * k` vertices and `3 * k` indices in all. -/
theorem load_triangle_documents {R : Type} [LinearOrderedCommRing R] (env : Env R)
    (self : Loader R) (stream : Str) (b : Bool)
    (htri : ∀ l ∈ getlines stream, isFaceLine l = true →
      (split (tail l) ' ').length = 3 ∧ ∀ tok ∈ split (tail l) ' ', storesVertex tok = true)
    (h : (load env self stream).2 = .ok b) :
    (load env self stream).1.LoadedVertices.length
        = 3 * ((getlines stream).filter isFaceLine).length
    ∧ (load env self stream).1.LoadedIndices
        = List.range (3 * ((getlines stream).filter isFaceLine).length)
    ∧ vertexCount (load env self stream).1.LoadedMeshes
        = 3 * ((getlines stream).filter isFaceLine).length
    ∧ indexCount (load env self stream).1.LoadedMeshes
        = 3 * ((getlines stream).filter isFaceLine).length := by
  obtain ⟨st, hs, he⟩ := load_ok env self stream b h
  rw [he] at h ⊢
  have hinit : TriangleCount 0 (LoadState.init self) := by
    simp [TriangleCount, LoadState.init, vertexCount, indexCount]
  have h3 : ∀ l ∈ getlines stream, isFaceLine l = true →
      ((split (tail l) ' ').filter storesVertex).length = 3 := by
    intro l hl hf
    obtain ⟨hlen, hall⟩ := htri l hl hf
    rw [List.filter_eq_self.2 hall, hlen]
  have hinv := scan_count env _ 0 _ st hinit h3 hs
  rw [Nat.zero_add] at hinv
  obtain ⟨h1, h2, hv, hi, h5⟩ := hinv
  obtain ⟨meshes, hm, hf⟩ := finish_ok st b h
  rw [hf]
  obtain ⟨cv, ci⟩ := counts_of_geometry _ _ (setMaterials_geometry _ _ _ _ _ hm)
  refine ⟨h1, h2, ?_, ?_⟩
  · simp only
    rw [cv]
    split
    · rw [vertexCount_append]
      simpa [vertexCount, mkMesh] using hv
    · next hne =>
      have hz : st.vertices.length = 0 := by
        cases hvs : st.vertices with
        | nil => rfl
        | cons a l =>
          cases his : st.indices with
          | nil => rw [hvs, his] at h5; simp at h5
          | cons c d => simp [hvs, his] at hne
      omega
  · simp only
    rw [ci]
    split
    · rw [indexCount_append]
      simpa [indexCount, mkMesh] using hi
    · next hne =>
      have hz : st.indices.length = 0 := by
        cases his : st.indices with
        | nil => rfl
        | cons c d =>
          cases hvs : st.vertices with
          | nil => rw [hvs, his] at h5; simp at h5
          | cons a l => simp [hvs, his] at hne
      omega

/-- Witness of C7: three positions and two triangles, the second after a `usemtl` line that
closes the first mesh. -/
theorem load_triangle_documents_witness :
    (∀ l ∈ getlines "v 0 0 0\nv 1 0 0\nv 0 1 0\no A\nf 1 2 3\nusemtl m\nf 3 2 1\n".toList,
      isFaceLine l = true →
      (split (tail l) ' ').length = 3 ∧ ∀ tok ∈ split (tail l) ' ', storesVertex tok = true)
    ∧ (load intEnv (Loader.new ℤ)
        "v 0 0 0\nv 1 0 0\nv 0 1 0\no A\nf 1 2 3\nusemtl m\nf 3 2 1\n".toList).2 = .ok true
    ∧ (load intEnv (Loader.new ℤ)
        "v 0 0 0\nv 1 0 0\nv 0 1 0\no A\nf 1 2 3\nusemtl m\nf 3 2 1\n".toList).1.LoadedIndices
      = List.range (3 * ((getlines
          "v 0 0 0\nv 1 0 0\nv 0 1 0\no A\nf 1 2 3\nusemtl m\nf 3 2 1\n".toList).filter
            isFaceLine).length)
    ∧ vertexCount (load intEnv (Loader.new ℤ)
        "v 0 0 0\nv 1 0 0\nv 0 1 0\no A\nf 1 2 3\nusemtl m\nf 3 2 1\n".toList).1.LoadedMeshes
      = 3 * ((getlines
          "v 0 0 0\nv 1 0 0\nv 0 1 0\no A\nf 1 2 3\nusemtl m\nf 3 2 1\n".toList).filter
            isFaceLine).length :=
  ⟨by decide!, by decide!,
    (load_triangle_documents intEnv (Loader.new ℤ) _ true (by decide!) (by decide!)).2.1,
    (load_triangle_documents intEnv (Loader.new ℤ) _ true (by decide!) (by decide!)).2.2.1⟩

/-- C10, at the failing input: a quad face two of whose corners are at the same position.  `load`
completes, and it leaves eight indices in `LoadedIndices` and in the one mesh, which is not a
multiple of three. -/
theorem load_indices_not_triples :
    (load intEnv (Loader.new ℤ) "v 0 0 0\nv 1 0 0\nv 1 0 0\nv 0 1 0\nf 1 2 3 4\n".toList).2
      = .ok true
    ∧ (load intEnv (Loader.new ℤ)
        "v 0 0 0\nv 1 0 0\nv 1 0 0\nv 0 1 0\nf 1 2 3 4\n".toList).1.LoadedIndices
      = [0, 1, 2, 3, 0, 1, 2, 3]
    ∧ (load intEnv (Loader.new ℤ)
        "v 0 0 0\nv 1 0 0\nv 1 0 0\nv 0 1 0\nf 1 2 3 4\n".toList).1.LoadedMeshes.map
          (fun m => m.Indices)
      = [[0, 1, 2, 3, 0, 1, 2, 3]]
    ∧ [0, 1, 2, 3, 0, 1, 2, 3].length % 3 ≠ 0 := by
  decide!
/-! ## Closed evaluations -/

/-- C13, at the failing input: a `Loader` that holds the material `m` with diffuse colour
`(9, 9, 9)` loads a document whose material file defines `m` with `(1, 2, 3)`.  `load` clears
the meshes, the vertices and the indices but not `LoadedMaterials`: the old material is still
there after the call, before the new one, and it is the old one that the mesh receives, while
a fresh `Loader` ends with the new one. -/
theorem load_keeps_old_materials :
    (load mtlEnv ⟨[], [], [], [{ Material.default ℤ with name := "m".toList, Kd := ⟨9, 9, 9⟩ }]⟩
        "mtllib m.mtl\nusemtl m\nv 0 0 0\nv 1 0 0\nv 0 1 0\nf 1 2 3\n".toList).2 = .ok true
    ∧ (load mtlEnv (Loader.new ℤ)
        "mtllib m.mtl\nusemtl m\nv 0 0 0\nv 1 0 0\nv 0 1 0\nf 1 2 3\n".toList).2 = .ok true
    ∧ (load mtlEnv ⟨[], [], [], [{ Material.default ℤ with name := "m".toList, Kd := ⟨9, 9, 9⟩ }]⟩
        "mtllib m.mtl\nusemtl m\nv 0 0 0\nv 1 0 0\nv 0 1 0\nf 1 2 3\n".toList).1.LoadedMaterials.map
          (fun m => (m.name, m.Kd))
      = [("m".toList, ⟨9, 9, 9⟩), ("m".toList, ⟨1, 2, 3⟩)]
    ∧ (load mtlEnv (Loader.new ℤ)
        "mtllib m.mtl\nusemtl m\nv 0 0 0\nv 1 0 0\nv 0 1 0\nf 1 2 3\n".toList).1.LoadedMaterials.map
          (fun m => (m.name, m.Kd))
      = [("m".toList, ⟨1, 2, 3⟩)]
    ∧ (load mtlEnv ⟨[], [], [], [{ Material.default ℤ with name := "m".toList, Kd := ⟨9, 9, 9⟩ }]⟩
        "mtllib m.mtl\nusemtl m\nv 0 0 0\nv 1 0 0\nv 0 1 0\nf 1 2 3\n".toList).1.LoadedMeshes.map
          (fun m => m.MeshMaterial.Kd)
      = [⟨9, 9, 9⟩]
    ∧ (load mtlEnv (Loader.new ℤ)
        "mtllib m.mtl\nusemtl m\nv 0 0 0\nv 1 0 0\nv 0 1 0\nf 1 2 3\n".toList).1.LoadedMeshes.map
          (fun m => m.MeshMaterial.Kd)
      = [⟨1, 2, 3⟩] := by
  decide!

/-- C16, at the failing input: group `A` has no `usemtl` line, group `B` has `usemtl m`, and the
material file defines `m`.  The one recorded name is paired with the first mesh: `A` receives
the material `m` and `B`, whose faces follow `usemtl m`, keeps the default material. -/
theorem load_material_by_position :
    (load mtlEnv (Loader.new ℤ)
        "mtllib m.mtl\nv 0 0 0\nv 1 0 0\nv 0 1 0\no A\nf 1 2 3\no B\nusemtl m\nf 3 2 1\n".toList).2
      = .ok true
    ∧ (load mtlEnv (Loader.new ℤ)
        "mtllib m.mtl\nv 0 0 0\nv 1 0 0\nv 0 1 0\no A\nf 1 2 3\no B\nusemtl m\nf 3 2 1\n".toList
        ).1.LoadedMeshes.map (fun m => (m.MeshName, m.MeshMaterial.name, m.MeshMaterial.Kd))
      = [("A".toList, "m".toList, ⟨1, 2, 3⟩), ("B".toList, [], ⟨0, 0, 0⟩)] := by
  decide!

/-- C17, at the failing input: a group `A` split by two `usemtl` lines that arrive while the
buffers are not empty.  Both meshes finalized by these lines are named `A_2`. -/
theorem load_usemtl_repeats_name :
    (load intEnv (Loader.new ℤ)
        "v 0 0 0\nv 1 0 0\nv 0 1 0\no A\nf 1 2 3\nusemtl x\nf 3 2 1\nusemtl y\nf 1 2 3\n".toList).2
      = .ok true
    ∧ (load intEnv (Loader.new ℤ)
        "v 0 0 0\nv 1 0 0\nv 0 1 0\no A\nf 1 2 3\nusemtl x\nf 3 2 1\nusemtl y\nf 1 2 3\n".toList
        ).1.LoadedMeshes.map (fun m => m.MeshName)
      = ["A_2".toList, "A_2".toList, "A".toList] := by
  decide!

/-- C18, at the failing input: the first group line is a bare `g`.  Its first token is `g`, so
the name recorded is its tail, the empty string, and the mesh of the faces that follow has the
empty name, not the name `unnamed`; that name is given for a line that starts with the letter
`g` and whose first token is neither `o` nor `g`, such as `group`. -/
theorem load_bare_group_name :
    (load intEnv (Loader.new ℤ) "g\nv 0 0 0\nv 1 0 0\nv 0 1 0\nf 1 2 3\n".toList).2 = .ok true
    ∧ (load intEnv (Loader.new ℤ)
        "g\nv 0 0 0\nv 1 0 0\nv 0 1 0\nf 1 2 3\n".toList).1.LoadedMeshes.map (fun m => m.MeshName)
      = [[]]
    ∧ (load intEnv (Loader.new ℤ)
        "group\nv 0 0 0\nv 1 0 0\nv 0 1 0\nf 1 2 3\n".toList).1.LoadedMeshes.map
          (fun m => m.MeshName)
      = ["unnamed".toList] := by
  decide!

/-- C20, at the failing input: the line `newmtl` followed by two blanks has eight characters and
an empty tail; the test `curline.size() > 7` sends it to the branch that takes the tail, and
the material gets the empty name, not the name `none`.  With one blank or none the line has at
most seven characters and the name is `none`. -/
theorem LoadMaterials_blank_name :
    tail "newmtl  ".toList = []
    ∧ (LoadMaterials intEnv [] "newmtl  \n".toList).map (fun r => r.1.map (fun m => m.name))
      = .ok [[]]
    ∧ (LoadMaterials intEnv [] "newmtl \n".toList).map (fun r => r.1.map (fun m => m.name))
      = .ok ["none".toList]
    ∧ (LoadMaterials intEnv [] "newmtl\n".toList).map (fun r => r.1.map (fun m => m.name))
      = .ok ["none".toList] := by
  decide!

/-! ## More on the loop of `load` -/

/-- The lemma `loadLine_carries` with every branch under its condition. -/
theorem loadLine_guarded {R : Type} [LinearOrderedCommRing R] (env : Env R) (curline : Str)
    (I J : LoadState R → Prop)
    (hgroupI : isGroupLine curline = true → ∀ st, I st → I (loadGroup st curline))
    (hposI : firstToken curline = "v".toList → ∀ st st1, I st →
      loadPosition env st curline = .ok st1 → I st1)
    (htexI : firstToken curline = "vt".toList → ∀ st st1, I st →
      loadTexCoord env st curline = .ok st1 → I st1)
    (hnorI : firstToken curline = "vn".toList → ∀ st st1, I st →
      loadNormal env st curline = .ok st1 → I st1)
    (hface : firstToken curline = "f".toList → ∀ st st1, I st →
      loadFace env st curline = .ok st1 → J st1)
    (hnoface : firstToken curline ≠ "f".toList → ∀ st, I st → J st)
    (husemtlJ : firstToken curline = "usemtl".toList → ∀ st, J st → J (loadUsemtl st curline))
    (hmtllibJ : firstToken curline = "mtllib".toList → ∀ st st1, J st →
      loadMtllib env st curline = .ok st1 → J st1)
    (st st1 : LoadState R) (hI : I st) (h : loadLine env st curline = .ok st1) : J st1 := by
  unfold loadLine at h
  have h0 : I (if isGroupLine curline then loadGroup st curline else st) := by
    split
    · next hc => exact hgroupI hc st hI
    · exact hI
  generalize (if isGroupLine curline then loadGroup st curline else st) = s0 at h h0
  obtain ⟨s1, e1, h⟩ := bind_ok _ _ _ h
  have h1 : I s1 := by
    rcases stage_ok _ _ _ _ e1 with ⟨c, e⟩ | ⟨_, e⟩
    · exact hposI c s0 s1 h0 e
    · exact e ▸ h0
  obtain ⟨s2, e2, h⟩ := bind_ok _ _ _ h
  have h2 : I s2 := by
    rcases stage_ok _ _ _ _ e2 with ⟨c, e⟩ | ⟨_, e⟩
    · exact htexI c s1 s2 h1 e
    · exact e ▸ h1
  obtain ⟨s3, e3, h⟩ := bind_ok _ _ _ h
  have h3 : I s3 := by
    rcases stage_ok _ _ _ _ e3 with ⟨c, e⟩ | ⟨_, e⟩
    · exact hnorI c s2 s3 h2 e
    · exact e ▸ h2
  obtain ⟨s4, e4, h⟩ := bind_ok _ _ _ h
  have h4 : J s4 := by
    rcases stage_ok _ _ _ _ e4 with ⟨c, e⟩ | ⟨c, e⟩
    · exact hface c s3 s4 h3 e
    · exact e ▸ hnoface c s3 h3
  have h5 : J (if firstToken curline = "usemtl".toList then loadUsemtl s4 curline else s4) := by
    split
    · next hc => exact husemtlJ hc s4 h4
    · exact h4
  generalize (if firstToken curline = "usemtl".toList then loadUsemtl s4 curline else s4) = s5
    at h h5
  obtain ⟨s6, e6, h⟩ := bind_ok _ _ _ h
  have h6 : J s6 := by
    rcases stage_ok _ _ _ _ e6 with ⟨c, e⟩ | ⟨_, e⟩
    · exact hmtllibJ c s5 s6 h5 e
    · exact e ▸ h5
  injection h with h
  exact h ▸ h6

theorem scan_carries_mem {R : Type} [LinearOrderedCommRing R] (env : Env R)
    (I : LoadState R → Prop) :
    ∀ (lines : List Str) (st st1 : LoadState R),
      (∀ curline ∈ lines, ∀ s s1, I s → loadLine env s curline = .ok s1 → I s1) →
      I st → scan env lines st = (st1, none) → I st1 := by
  intro lines
  induction lines with
  | nil =>
    intro st st1 _ hI h
    simp only [scan, Prod.mk.injEq, and_true] at h
    exact h ▸ hI
  | cons l rest ih =>
    intro st st1 hline hI h
    unfold scan at h
    split at h
    · next s hs =>
      exact ih s st1 (fun c hc => hline c (List.mem_cons_of_mem _ hc))
        (hline l (List.mem_cons_self _ _) st s hI hs) h
    · simp at h

theorem scan_cons {R : Type} [LinearOrderedCommRing R] (env : Env R) (l : Str)
    (rest : List Str) (st : LoadState R) :
    scan env (l :: rest) st
      = match loadLine env st l with
        | .ok st1 => scan env rest st1
        | .error e => (st, some e) := by
  rw [scan]

theorem scan_append {R : Type} [LinearOrderedCommRing R] (env : Env R) :
    ∀ (pre rest : List Str) (st : LoadState R),
      (scan env pre st).2 = none →
      scan env (pre ++ rest) st = scan env rest (scan env pre st).1 := by
  intro pre
  induction pre with
  | nil => intro rest st _; rfl
  | cons l pre ih =>
    intro rest st h
    rw [List.cons_append, scan_cons env l (pre ++ rest) st, scan_cons env l pre st]
    rw [scan_cons] at h
    cases hs : loadLine env st l with
    | ok s =>
      rw [hs] at h
      simp only at h ⊢
      exact ih rest s h
    | error e =>
      rw [hs] at h
      simp at h

theorem scan_fault {R : Type} [LinearOrderedCommRing R] (env : Env R)
    (pre : List Str) (bad : Str) (post : List Str) (st : LoadState R) (e : Fault)
    (hpre : (scan env pre st).2 = none) (hbad : (scan env (pre ++ [bad]) st).2 = some e) :
    scan env (pre ++ bad :: post) st = ((scan env pre st).1, some e) := by
  rw [scan_append env pre [bad] st hpre, scan_cons] at hbad
  rw [scan_append env pre (bad :: post) st hpre, scan_cons]
  cases hs : loadLine env (scan env pre st).1 bad with
  | ok s =>
    rw [hs] at hbad
    simp [scan] at hbad
  | error e1 =>
    rw [hs] at hbad
    simp only [Option.some.injEq] at hbad
    simp only [hbad]

theorem finish_flag {R : Type} [Zero R] (st : LoadState R) (b : Bool)
    (h : (finish st).2 = .ok b) :
    b = !((finish st).1.LoadedMeshes.isEmpty && (finish st).1.LoadedVertices.isEmpty
      && (finish st).1.LoadedIndices.isEmpty) := by
  unfold finish at h ⊢
  simp only at h ⊢
  split at h
  · next meshes hm =>
    simp only [hm]
    injection h with h
    exact h.symm
  · cases h

theorem loadLine_nothing {R : Type} [LinearOrderedCommRing R] (env : Env R) (curline : Str)
    (hnf : isFaceLine curline = false) (st st1 : LoadState R) (h : NothingLoaded st)
    (hl : loadLine env st curline = .ok st1) : NothingLoaded st1 := by
  have hkey : firstToken curline ≠ "f".toList := by
    simpa [isFaceLine] using hnf
  refine loadLine_guarded env curline NothingLoaded NothingLoaded ?_ ?_ ?_ ?_ ?_ ?_ ?_ ?_
    st st1 h hl
  · intro _ s hs
    obtain ⟨h1, h2, h3, h4, h5⟩ := hs
    unfold loadGroup
    split
    · exact ⟨h1, h2, h3, h4, h5⟩
    · split
      · next hne => simp [h4, h5] at hne
      · exact ⟨h1, h2, h3, h4, h5⟩
  · intro _ s s1 hs he
    obtain ⟨v, rfl⟩ := loadPosition_frame env s s1 curline he
    exact hs
  · intro _ s s1 hs he
    obtain ⟨v, rfl⟩ := loadTexCoord_frame env s s1 curline he
    exact hs
  · intro _ s s1 hs he
    obtain ⟨v, rfl⟩ := loadNormal_frame env s s1 curline he
    exact hs
  · intro hf
    exact absurd hf hkey
  · intro _ s hs
    exact hs
  · intro _ s hs
    obtain ⟨h1, h2, h3, h4, h5⟩ := hs
    unfold loadUsemtl
    simp only
    split
    · next hne => simp [h4, h5] at hne
    · exact ⟨h1, h2, h3, h4, h5⟩
  · intro _ s s1 hs he
    obtain ⟨v, rfl⟩ := loadMtllib_frame env s s1 curline he
    exact hs

/-- C15. Success flag: when `load` returns, it returns true exactly when one of `LoadedMeshes`,
`LoadedVertices`, `LoadedIndices` is not empty.  For the empty document it returns false with
no mesh, no vertex and no index, whatever the loader held before the call; and so it does, when
it returns, for every document without a face line. -/
theorem load_success_flag {R : Type} [LinearOrderedCommRing R] (env : Env R) (self : Loader R)
    (stream : Str) :
    (∀ b, (load env self stream).2 = .ok b →
      (b = true ↔ ((load env self stream).1.LoadedMeshes ≠ []
        ∨ (load env self stream).1.LoadedVertices ≠ []
        ∨ (load env self stream).1.LoadedIndices ≠ [])))
    ∧ load env self [] = (⟨[], [], [], self.LoadedMaterials⟩, .ok false)
    ∧ (∀ b, (∀ l ∈ getlines stream, isFaceLine l = false) →
        (load env self stream).2 = .ok b →
        b = false ∧ (load env self stream).1.LoadedMeshes = []
          ∧ (load env self stream).1.LoadedVertices = []
          ∧ (load env self stream).1.LoadedIndices = []) := by
  refine ⟨?_, ?_, ?_⟩
  · intro b h
    obtain ⟨st, _, he⟩ := load_ok env self stream b h
    rw [he] at h ⊢
    rw [finish_flag st b h]
    cases (finish st).1.LoadedMeshes <;> cases (finish st).1.LoadedVertices <;>
      cases (finish st).1.LoadedIndices <;> simp
  · simp [load, getlines, getlinesLoop, scan, finish, LoadState.init, setMaterials, pure,
      Except.pure]
  · intro b hnf h
    obtain ⟨st, hs, he⟩ := load_ok env self stream b h
    rw [he] at h ⊢
    have hinit : NothingLoaded (LoadState.init self) := by
      simp [NothingLoaded, LoadState.init]
    obtain ⟨h1, h2, h3, h4, h5⟩ := scan_carries_mem env NothingLoaded _ _ st
      (fun l hl s s1 hI hline => loadLine_nothing env l (hnf l hl) s s1 hI hline) hinit hs
    have hb := finish_flag st b h
    obtain ⟨meshes, hm, hf⟩ := finish_ok st b h
    rw [hf] at hb ⊢
    have hgeo := setMaterials_geometry _ _ _ _ _ hm
    simp only [h4, h5, h1, List.isEmpty_nil, Bool.not_true, Bool.and_self, Bool.false_eq_true,
      if_false, List.map_nil, List.map_eq_nil_iff] at hgeo
    subst hgeo
    simp only [h2, h3, List.isEmpty_nil, Bool.and_self, Bool.not_true] at hb
    exact ⟨hb, rfl, h2, h3⟩

/-- Witness of C15: a document with one triangle, on which `load` returns true, and a document
of three `v` lines, on which it returns false. -/
theorem load_success_flag_witness :
    (load intEnv (Loader.new ℤ) "v 0 0 0\nv 1 0 0\nv 0 1 0\nf 1 2 3\n".toList).2 = .ok true
    ∧ (load intEnv (Loader.new ℤ) "v 0 0 0\nv 1 0 0\nv 0 1 0\nf 1 2 3\n".toList).1.LoadedVertices
        ≠ []
    ∧ (∀ l ∈ getlines "v 0 0 0\nv 1 0 0\nv 0 1 0\n".toList, isFaceLine l = false)
    ∧ (load intEnv (Loader.new ℤ) "v 0 0 0\nv 1 0 0\nv 0 1 0\n".toList).2 = .ok false
    ∧ (load intEnv (Loader.new ℤ) "v 0 0 0\nv 1 0 0\nv 0 1 0\n".toList).1.LoadedMeshes = [] :=
  ⟨by decide!, by decide!, by decide!, by decide!,
    ((load_success_flag intEnv (Loader.new ℤ) "v 0 0 0\nv 1 0 0\nv 0 1 0\n".toList).2.2 false
      (by decide!) (by decide!)).2.1⟩

/-- Counterexample to C14 as stated: the last line has a coordinate that is not a number.  The
call ends with the exception `std::invalid_argument` of `std::stof`, and the loader is left
with the mesh `A`, six vertices and six indices that the lines before it produced. -/
theorem load_failure_counterexample :
    (load intEnv (Loader.new ℤ)
        "v 0 0 0\nv 1 0 0\nv 0 1 0\no A\nf 1 2 3\no B\nf 1 2 3\nv x 0 0\n".toList).2
      = .error .invalid_argument
    ∧ (load intEnv (Loader.new ℤ)
        "v 0 0 0\nv 1 0 0\nv 0 1 0\no A\nf 1 2 3\no B\nf 1 2 3\nv x 0 0\n".toList
        ).1.LoadedMeshes.map (fun m => m.MeshName) = ["A".toList]
    ∧ (load intEnv (Loader.new ℤ)
        "v 0 0 0\nv 1 0 0\nv 0 1 0\no A\nf 1 2 3\no B\nf 1 2 3\nv x 0 0\n".toList
        ).1.LoadedVertices.length = 6
    ∧ (load intEnv (Loader.new ℤ)
        "v 0 0 0\nv 1 0 0\nv 0 1 0\no A\nf 1 2 3\no B\nf 1 2 3\nv x 0 0\n".toList
        ).1.LoadedIndices = [0, 1, 2, 3, 4, 5] := by
  decide!

/-- C14, amended.  `load` has no failure report of its own and does not undo what it has done:
when the lines before a line complete and that line throws (a coordinate `std::stof` rejects, a
face reference `std::stoi` rejects), the exception ends the call, and `LoadedMeshes`,
`LoadedVertices` and `LoadedIndices` are left as the lines before the failing one made them.
They are empty only if those lines loaded nothing. -/
theorem load_failure_keeps_loaded {R : Type} [LinearOrderedCommRing R] (env : Env R)
    (self : Loader R) (stream : Str) (pre : List Str) (bad : Str) (post : List Str) (e : Fault)
    (hdoc : getlines stream = pre ++ bad :: post)
    (hpre : (scan env pre (LoadState.init self)).2 = none)
    (hbad : (scan env (pre ++ [bad]) (LoadState.init self)).2 = some e) :
    (load env self stream).2 = .error e
    ∧ (load env self stream).1.LoadedMeshes
        = (scan env pre (LoadState.init self)).1.LoadedMeshes
    ∧ (load env self stream).1.LoadedVertices
        = (scan env pre (LoadState.init self)).1.LoadedVertices
    ∧ (load env self stream).1.LoadedIndices
        = (scan env pre (LoadState.init self)).1.LoadedIndices := by
  have hs := scan_fault env pre bad post (LoadState.init self) e hpre hbad
  unfold load
  rw [hdoc, hs]
  exact ⟨rfl, rfl, rfl, rfl⟩

/-- Witness of C14 (amended): the document of the counterexample, cut at its last line. -/
theorem load_failure_keeps_loaded_witness :
    getlines "v 0 0 0\nv 1 0 0\nv 0 1 0\no A\nf 1 2 3\no B\nf 1 2 3\nv x 0 0\n".toList
      = ["v 0 0 0".toList, "v 1 0 0".toList, "v 0 1 0".toList, "o A".toList, "f 1 2 3".toList,
          "o B".toList, "f 1 2 3".toList] ++ "v x 0 0".toList :: []
    ∧ (scan intEnv ["v 0 0 0".toList, "v 1 0 0".toList, "v 0 1 0".toList, "o A".toList,
        "f 1 2 3".toList, "o B".toList, "f 1 2 3".toList] (LoadState.init (Loader.new ℤ))).2
      = none
    ∧ (scan intEnv (["v 0 0 0".toList, "v 1 0 0".toList, "v 0 1 0".toList, "o A".toList,
        "f 1 2 3".toList, "o B".toList, "f 1 2 3".toList] ++ ["v x 0 0".toList])
        (LoadState.init (Loader.new ℤ))).2 = some .invalid_argument
    ∧ (load intEnv (Loader.new ℤ)
        "v 0 0 0\nv 1 0 0\nv 0 1 0\no A\nf 1 2 3\no B\nf 1 2 3\nv x 0 0\n".toList).2
      = .error .invalid_argument
    ∧ (load intEnv (Loader.new ℤ)
        "v 0 0 0\nv 1 0 0\nv 0 1 0\no A\nf 1 2 3\no B\nf 1 2 3\nv x 0 0\n".toList
        ).1.LoadedVertices
      = (scan intEnv ["v 0 0 0".toList, "v 1 0 0".toList, "v 0 1 0".toList, "o A".toList,
          "f 1 2 3".toList, "o B".toList, "f 1 2 3".toList]
          (LoadState.init (Loader.new ℤ))).1.LoadedVertices :=
  ⟨by decide!, by decide!, by decide!,
    (load_failure_keeps_loaded intEnv (Loader.new ℤ)
      "v 0 0 0\nv 1 0 0\nv 0 1 0\no A\nf 1 2 3\no B\nf 1 2 3\nv x 0 0\n".toList
      ["v 0 0 0".toList, "v 1 0 0".toList, "v 0 1 0".toList, "o A".toList, "f 1 2 3".toList,
        "o B".toList, "f 1 2 3".toList] "v x 0 0".toList [] .invalid_argument
      (by decide!) (by decide!) (by decide!)).1,
    (load_failure_keeps_loaded intEnv (Loader.new ℤ)
      "v 0 0 0\nv 1 0 0\nv 0 1 0\no A\nf 1 2 3\no B\nf 1 2 3\nv x 0 0\n".toList
      ["v 0 0 0".toList, "v 1 0 0".toList, "v 0 1 0".toList, "o A".toList, "f 1 2 3".toList,
        "o B".toList, "f 1 2 3".toList] "v x 0 0".toList [] .invalid_argument
      (by decide!) (by decide!) (by decide!)).2.2.1⟩

/-! ## The flattened view -/

theorem flatVertices_append {R : Type} (a b : List (Mesh R)) :
    flatVertices (a ++ b) = flatVertices a ++ flatVertices b := by
  induction a with
  | nil => rfl
  | cons m ms ih => simp [flatVertices, ih]

theorem flatIndices_append {R : Type} (a b : List (Mesh R)) :
    ∀ base, flatIndices base (a ++ b)
      = flatIndices base a ++ flatIndices (base + (flatVertices a).length) b := by
  induction a with
  | nil => intro base; simp [flatIndices, flatVertices]
  | cons m ms ih =>
    intro base
    simp [flatIndices, flatVertices, ih, Nat.add_assoc]

theorem flat_of_geometry {R : Type} :
    ∀ (meshes1 meshes : List (Mesh R)),
      meshes1.map Mesh.geometry = meshes.map Mesh.geometry →
      flatVertices meshes1 = flatVertices meshes
        ∧ ∀ base, flatIndices base meshes1 = flatIndices base meshes := by
  intro meshes1
  induction meshes1 with
  | nil =>
    intro meshes h
    cases meshes with
    | nil => exact ⟨rfl, fun _ => rfl⟩
    | cons m ms => simp at h
  | cons m1 ms1 ih =>
    intro meshes h
    cases meshes with
    | nil => simp at h
    | cons m ms =>
      simp only [List.map_cons, List.cons.injEq, Mesh.geometry, Prod.mk.injEq] at h
      obtain ⟨⟨_, hv, hi⟩, ht⟩ := h
      obtain ⟨iv, ii⟩ := ih ms ht
      refine ⟨by simp [flatVertices, hv, iv], ?_⟩
      intro base
      simp [flatIndices, hv, hi, ii]

theorem flat_push {R : Type} [Zero R] (st : LoadState R) (name : Str) (h : FlatView st) :
    st.LoadedVertices
        = flatVertices (st.LoadedMeshes ++ [mkMesh st.vertices st.indices name]) ++ []
      ∧ st.LoadedIndices
        = flatIndices 0 (st.LoadedMeshes ++ [mkMesh st.vertices st.indices name])
          ++ ([] : List Nat).map (fun i =>
            (flatVertices (st.LoadedMeshes
              ++ [mkMesh st.vertices st.indices name])).length + i) := by
  obtain ⟨h1, h2⟩ := h
  refine ⟨?_, ?_⟩
  · rw [flatVertices_append, h1]
    simp [flatVertices, mkMesh]
  · rw [flatIndices_append, h2]
    simp [flatIndices, mkMesh]

theorem loadGroup_flat {R : Type} [Zero R] (st : LoadState R) (curline : Str)
    (h : FlatView st) : FlatView (loadGroup st curline) := by
  unfold loadGroup
  split
  · exact h
  · split
    · exact flat_push st st.meshname h
    · exact h

theorem loadUsemtl_flat {R : Type} [Zero R] (st : LoadState R) (curline : Str)
    (h : FlatView st) : FlatView (loadUsemtl st curline) := by
  unfold loadUsemtl
  simp only
  split
  · exact flat_push st _ h
  · exact h

theorem loadFace_flat {R : Type} [LinearOrderedCommRing R] (env : Env R)
    (st st1 : LoadState R) (curline : Str) (h : FlatView st)
    (hf : loadFace env st curline = .ok st1) : FlatView st1 := by
  obtain ⟨h1, h2⟩ := h
  obtain ⟨v_verts, i_indices, _, _, rfl⟩ := loadFace_eq env st st1 curline hf
  refine ⟨?_, ?_⟩
  · simp only [h1, List.append_assoc]
  · simp only [h2, h1, List.map_append, List.map_map, List.append_assoc, List.length_append,
      Function.comp_def, Nat.add_assoc]

theorem loadLine_flat {R : Type} [LinearOrderedCommRing R] (env : Env R) (curline : Str)
    (st st1 : LoadState R) (h : FlatView st) (hl : loadLine env st curline = .ok st1) :
    FlatView st1 := by
  refine loadLine_carries env curline FlatView FlatView
    (fun s hs => loadGroup_flat s curline hs) ?_ ?_ ?_
    (fun s s1 _ hs hf => loadFace_flat env s s1 curline hs hf) (fun s _ hs => hs)
    (fun s hs => loadUsemtl_flat s curline hs) ?_ st st1 h hl
  · intro s s1 hs he
    obtain ⟨v, rfl⟩ := loadPosition_frame env s s1 curline he
    exact hs
  · intro s s1 hs he
    obtain ⟨v, rfl⟩ := loadTexCoord_frame env s s1 curline he
    exact hs
  · intro s s1 hs he
    obtain ⟨v, rfl⟩ := loadNormal_frame env s s1 curline he
    exact hs
  · intro s s1 hs he
    obtain ⟨v, rfl⟩ := loadMtllib_frame env s s1 curline he
    exact hs

theorem finish_flat {R : Type} [Zero R] (st : LoadState R) (b : Bool)
    (hflat : FlatView st) (hbound : IndexBounded st) (h : (finish st).2 = .ok b) :
    (finish st).1.LoadedIndices = flatIndices 0 (finish st).1.LoadedMeshes
    ∧ (∃ rest, (finish st).1.LoadedVertices = flatVertices (finish st).1.LoadedMeshes ++ rest
        ∧ (BuffersTogether st → rest = [])) := by
  obtain ⟨meshes, hm, hf⟩ := finish_ok st b h
  rw [hf]
  obtain ⟨gv, gi⟩ := flat_of_geometry _ _ (setMaterials_geometry _ _ _ _ _ hm)
  simp only
  rw [gv, gi 0]
  split
  · obtain ⟨e1, e2⟩ := flat_push st st.meshname hflat
    simp only [List.map_nil, List.append_nil] at e1 e2
    exact ⟨e2, [], by simpa using e1, fun _ => rfl⟩
  · next hne =>
    obtain ⟨h1, h2⟩ := hflat
    have hi : st.indices = [] := by
      cases his : st.indices with
      | nil => rfl
      | cons c d =>
        cases hvs : st.vertices with
        | nil =>
          have := hbound.1 c (by rw [his]; exact List.mem_cons_self _ _)
          rw [hvs] at this
          simp at this
        | cons a l => simp [hvs, his] at hne
    refine ⟨by simpa [hi] using h2, st.vertices, h1, fun ht => ht hi⟩

theorem loadLine_named_group {R : Type} [LinearOrderedCommRing R] (env : Env R)
    (st : LoadState R) (curline : Str) (h : isNamedGroup curline = true) :
    loadLine env st curline = .ok (loadGroup st curline) := by
  have hk : firstToken curline = "o".toList ∨ firstToken curline = "g".toList := by
    simpa [isNamedGroup] using h
  have hg : isGroupLine curline = true := by
    unfold isGroupLine
    rcases hk with hk | hk <;> simp [hk]
  unfold loadLine
  rcases hk with hk | hk <;>
    simp [hg, hk, bind, Except.bind, pure, Except.pure]

theorem scan_split {R : Type} [LinearOrderedCommRing R] (env : Env R) :
    ∀ (pre rest : List Str) (st st1 : LoadState R),
      scan env (pre ++ rest) st = (st1, none) →
      ∃ s, scan env pre st = (s, none) ∧ scan env rest s = (st1, none) := by
  intro pre
  induction pre with
  | nil => intro rest st st1 h; exact ⟨st, rfl, h⟩
  | cons l pre ih =>
    intro rest st st1 h
    rw [List.cons_append, scan_cons] at h
    rw [scan_cons]
    cases hs : loadLine env st l with
    | ok s =>
      rw [hs] at h
      exact ih rest s st1 h
    | error e =>
      rw [hs] at h
      simp at h

theorem loadFace_pending {R : Type} [LinearOrderedCommRing R] (env : Env R)
    (M : List (Mesh R)) (N : Str) (names : List Str) (a : Nat) (st st1 : LoadState R)
    (curline : Str) (h : Pending M N names a st) (h3 : faceSize curline = 3)
    (hf : loadFace env st curline = .ok st1) : Pending M N names (a + 1) st1 := by
  obtain ⟨h1, h2, hn, hm, hv, hi⟩ := h
  obtain ⟨v_verts, i_indices, hg, ht, rfl⟩ := loadFace_eq env st st1 curline hf
  have hlen : v_verts.length = 3 := by
    rw [GenVertices_length _ _ _ _ _ hg]; exact h3
  have hidx : i_indices = [0, 1, 2] := by
    unfold VertexTriangluation at ht
    rw [if_neg (by omega), if_pos hlen] at ht
    injection ht with ht
    exact ht.symm
  subst hidx
  refine ⟨h1, h2, hn, hm, ?_, ?_⟩
  · simp only [List.length_append, hlen, hv]; omega
  · have e : 3 * (a + 1) = 3 * a + 3 := by omega
    simp only [hi, hv, e, List.range_add]
    rfl

theorem loadLine_pending {R : Type} [LinearOrderedCommRing R] (env : Env R) (curline : Str)
    (M : List (Mesh R)) (N : Str) (names : List Str) (a : Nat) (st st1 : LoadState R)
    (hng : isGroupLine curline = false) (hnu : firstToken curline ≠ "usemtl".toList)
    (h3 : isFaceLine curline = true → faceSize curline = 3)
    (h : Pending M N names a st) (hl : loadLine env st curline = .ok st1) :
    Pending M N names (a + if isFaceLine curline = true then 1 else 0) st1 := by
  refine loadLine_guarded env curline (Pending M N names a)
    (Pending M N names (a + if isFaceLine curline = true then 1 else 0))
    ?_ ?_ ?_ ?_ ?_ ?_ ?_ ?_ st st1 h hl
  · intro hg
    rw [hng] at hg
    cases hg
  · intro _ s s1 hs he
    obtain ⟨v, rfl⟩ := loadPosition_frame env s s1 curline he
    exact hs
  · intro _ s s1 hs he
    obtain ⟨v, rfl⟩ := loadTexCoord_frame env s s1 curline he
    exact hs
  · intro _ s s1 hs he
    obtain ⟨v, rfl⟩ := loadNormal_frame env s s1 curline he
    exact hs
  · intro hkey s s1 hs hf
    have hface : isFaceLine curline = true := by
      simp only [isFaceLine, decide_eq_true_eq]; exact hkey
    rw [if_pos hface]
    exact loadFace_pending env M N names a s s1 curline hs (h3 hface) hf
  · intro hkey s hs
    have hface : ¬ isFaceLine curline = true := by
      simp only [isFaceLine, decide_eq_true_eq]; exact hkey
    rw [if_neg hface]
    exact hs
  · intro hu
    exact absurd hu hnu
  · intro _ s s1 hs he
    obtain ⟨v, rfl⟩ := loadMtllib_frame env s s1 curline he
    exact hs

theorem scan_body {R : Type} [LinearOrderedCommRing R] (env : Env R)
    (M : List (Mesh R)) (N : Str) (names : List Str) :
    ∀ (body : List Str) (a : Nat) (st st1 : LoadState R),
      (∀ l ∈ body, isGroupLine l = false ∧ firstToken l ≠ "usemtl".toList
        ∧ (isFaceLine l = true → faceSize l = 3)) →
      Pending M N names a st → scan env body st = (st1, none) →
      Pending M N names (a + faceCount body) st1 := by
  intro body
  induction body with
  | nil =>
    intro a st st1 _ hI h
    simp only [scan, Prod.mk.injEq, and_true] at h
    simpa [faceCount, ← h] using hI
  | cons l rest ih =>
    intro a st st1 hb hI h
    rw [scan_cons] at h
    cases hs : loadLine env st l with
    | ok s =>
      rw [hs] at h
      obtain ⟨hng, hnu, h3⟩ := hb l (List.mem_cons_self _ _)
      have h1 := loadLine_pending env l M N names a st s hng hnu h3 hI hs
      have h2 := ih _ s st1 (fun l' hl' => hb l' (List.mem_cons_of_mem _ hl')) h1 h
      have e : a + (if isFaceLine l = true then 1 else 0) + faceCount rest
          = a + faceCount (l :: rest) := by
        unfold faceCount
        rw [List.filter_cons]
        split
        · simp only [List.length_cons]; omega
        · omega
      rw [← e]
      exact h2
    | error e =>
      rw [hs] at h
      simp at h

theorem loadGroup_pending {R : Type} [LinearOrderedCommRing R]
    (M : List (Mesh R)) (N : Str) (names : List Str) (a : Nat) (st : LoadState R)
    (curline : Str) (h : Pending M N names a st) (ha : 1 ≤ a) :
    Pending (M ++ [mkMesh st.vertices st.indices N]) (tail curline) names 0
      (loadGroup st curline) := by
  obtain ⟨h1, h2, hn, hm, hv, hi⟩ := h
  have hi1 : st.indices.isEmpty = false := by
    cases hc : st.indices with
    | nil =>
      have := congrArg List.length hi
      rw [hc, List.length_range] at this
      simp only [List.length_nil] at this
      omega
    | cons x xs => rfl
  have hv1 : st.vertices.isEmpty = false := by
    cases hc : st.vertices with
    | nil =>
      rw [hc] at hv
      simp only [List.length_nil] at hv
      omega
    | cons x xs => rfl
  unfold loadGroup
  simp only [h2, hi1, hv1, Bool.not_true, Bool.not_false, Bool.and_self, Bool.false_eq_true,
    if_false, if_true]
  exact ⟨by rw [h1, hn], rfl, rfl, hm, rfl, rfl⟩

theorem scan_groups {R : Type} [LinearOrderedCommRing R] (env : Env R) :
    ∀ (groups : List (Str × List Str)) (M : List (Mesh R)) (N : Str) (a : Nat)
      (st st1 : LoadState R),
      (∀ g ∈ groups, isNamedGroup g.1 = true) →
      (∀ g ∈ groups, ∀ l ∈ g.2, isGroupLine l = false ∧ firstToken l ≠ "usemtl".toList
        ∧ (isFaceLine l = true → faceSize l = 3)) →
      (∀ g ∈ groups, 1 ≤ faceCount g.2) →
      Pending M N [] a st → 1 ≤ a → scan env (sectionLines groups) st = (st1, none) →
      ∃ M1 N1 a1, Pending M1 N1 [] a1 st1 ∧ 1 ≤ a1
        ∧ M1.map Mesh.shape ++ [(N1, 3 * a1, List.range (3 * a1))]
          = M.map Mesh.shape ++ (N, 3 * a, List.range (3 * a)) :: groups.map groupShape := by
  intro groups
  induction groups with
  | nil =>
    intro M N a st st1 _ _ _ hp ha h
    simp only [sectionLines, scan, Prod.mk.injEq, and_true] at h
    subst h
    exact ⟨M, N, a, hp, ha, rfl⟩
  | cons g gs ih =>
    intro M N a st st1 hname hbody hface hp ha h
    have hl : sectionLines (g :: gs) = g.1 :: (g.2 ++ sectionLines gs) := rfl
    rw [hl, scan_cons, loadLine_named_group env st g.1 (hname g (List.mem_cons_self _ _))] at h
    simp only at h
    obtain ⟨s, hs1, hs2⟩ := scan_split env g.2 (sectionLines gs) (loadGroup st g.1) st1 h
    have hp1 := loadGroup_pending M N [] a st g.1 hp ha
    have hb := scan_body env _ _ _ g.2 0 _ s (hbody g (List.mem_cons_self _ _)) hp1 hs1
    have hf := hface g (List.mem_cons_self _ _)
    obtain ⟨M1, N1, a1, hq, ha1, he⟩ := ih _ _ _ s st1
      (fun g' hg' => hname g' (List.mem_cons_of_mem _ hg'))
      (fun g' hg' => hbody g' (List.mem_cons_of_mem _ hg'))
      (fun g' hg' => hface g' (List.mem_cons_of_mem _ hg'))
      hb (by omega) hs2
    refine ⟨M1, N1, a1, hq, ha1, ?_⟩
    obtain ⟨_, _, _, _, hv, hi⟩ := hp
    rw [he]
    simp [Mesh.shape, mkMesh, groupShape, hv, hi]

/-- Claim C12.  Group segmentation: take a document made of groups, each a line whose first token
is `o` or `g` followed by lines that are no group line and no `usemtl` line, whose face lines have
exactly three vertex tokens that store a vertex, with at least one face line in every group, and
in which no line raises an exception.  Then `load` returns (true, when there is a group) and
yields one mesh for every group, in the order of the document: the mesh is named by the tail of
the group line, has three vertices for every face line of the group, and its indices are
`0, 1, ..., 3 * faces - 1`, so they start at 0 and stay below the number of its vertices; the
meshes partition `LoadedVertices` in that order.  A group line that arrives while a buffer is
empty produces no mesh and only sets the name of the pending mesh. -/
theorem load_groups {R : Type} [LinearOrderedCommRing R] (env : Env R) (self : Loader R)
    (stream : Str) (groups : List (Str × List Str))
    (hdoc : getlines stream = sectionLines groups)
    (hname : ∀ g ∈ groups, isNamedGroup g.1 = true)
    (hbody : ∀ g ∈ groups, ∀ l ∈ g.2, isGroupLine l = false ∧ firstToken l ≠ "usemtl".toList
      ∧ (isFaceLine l = true → faceSize l = 3))
    (hface : ∀ g ∈ groups, 1 ≤ faceCount g.2)
    (hscan : (scan env (getlines stream) (LoadState.init self)).2 = none) :
    (load env self stream).2 = .ok (!groups.isEmpty)
    ∧ (load env self stream).1.LoadedMeshes.map Mesh.shape = groups.map groupShape
    ∧ (load env self stream).1.LoadedMeshes.length = groups.length
    ∧ (∀ m ∈ (load env self stream).1.LoadedMeshes, ∀ i ∈ m.Indices, i < m.Vertices.length)
    ∧ flatVertices (load env self stream).1.LoadedMeshes
        = (load env self stream).1.LoadedVertices
    ∧ (∀ (st : LoadState R) (l : Str), isNamedGroup l = true →
        (st.indices.isEmpty || st.vertices.isEmpty) = true →
        loadLine env st l = .ok { st with listening := true, meshname := tail l }) := by
  have hshape : (load env self stream).2 = .ok (!groups.isEmpty)
      ∧ (load env self stream).1.LoadedMeshes.map Mesh.shape = groups.map groupShape
      ∧ flatVertices (load env self stream).1.LoadedMeshes
        = (load env self stream).1.LoadedVertices := by
    cases hsc : scan env (getlines stream) (LoadState.init self) with
    | mk st o =>
    rw [hsc] at hscan
    simp only at hscan
    subst hscan
    have he : load env self stream = finish st := by
      unfold load
      rw [hsc]
    rw [he]
    have hflat : FlatView st := scan_carries env FlatView
      (fun l s s1 hI hl => loadLine_flat env l s s1 hI hl) _ _ st
      (by simp [FlatView, LoadState.init, flatVertices, flatIndices]) hsc
    have hbound : IndexBounded st := scan_carries env IndexBounded
      (fun l s s1 hI hl => loadLine_bounded env l s s1 hI hl) _ _ st
      (by simp [IndexBounded, LoadState.init]) hsc
    rw [hdoc] at hsc
    cases groups with
    | nil =>
      simp only [sectionLines, scan, Prod.mk.injEq, and_true] at hsc
      subst hsc
      simp [finish, LoadState.init, setMaterials, pure, Except.pure, flatVertices]
    | cons g gs =>
      have hl : sectionLines (g :: gs) = g.1 :: (g.2 ++ sectionLines gs) := rfl
      rw [hl, scan_cons,
        loadLine_named_group env _ g.1 (hname g (List.mem_cons_self _ _))] at hsc
      simp only at hsc
      obtain ⟨s, hs1, hs2⟩ := scan_split env g.2 (sectionLines gs) _ st hsc
      have hp0 : Pending [] (tail g.1) [] 0 (loadGroup (LoadState.init self) g.1) := by
        simp [Pending, loadGroup, LoadState.init, hname g (List.mem_cons_self _ _)]
      have hb := scan_body env _ _ _ g.2 0 _ s (hbody g (List.mem_cons_self _ _)) hp0 hs1
      have hfc := hface g (List.mem_cons_self _ _)
      obtain ⟨M1, N1, a1, hq, ha1, heq⟩ := scan_groups env gs _ _ _ s st
        (fun g' hg' => hname g' (List.mem_cons_of_mem _ hg'))
        (fun g' hg' => hbody g' (List.mem_cons_of_mem _ hg'))
        (fun g' hg' => hface g' (List.mem_cons_of_mem _ hg'))
        hb (by omega) hs2
      obtain ⟨h1, h2, hn, hmn, hvl, hil⟩ := hq
      have hi1 : st.indices ≠ [] := by
        intro hc
        have := congrArg List.length hil
        rw [hc, List.length_range] at this
        simp only [List.length_nil] at this
        omega
      have hv1 : st.vertices ≠ [] := by
        intro hc
        rw [hc] at hvl
        simp only [List.length_nil] at hvl
        omega
      have hfin : finish st
          = (⟨M1 ++ [mkMesh st.vertices st.indices N1], st.LoadedVertices, st.LoadedIndices,
              st.LoadedMaterials⟩, .ok true) := by
        simp [finish, hmn, setMaterials, pure, Except.pure, hi1, hv1, h1, hn]
      have hok : (finish st).2 = .ok true := by rw [hfin]
      obtain ⟨_, rest, hv, hrest⟩ := finish_flat st true hflat hbound hok
      have htog : BuffersTogether st := fun hc => absurd hc hi1
      refine ⟨by rw [hfin]; rfl, ?_, ?_⟩
      · rw [hfin]
        simp only [List.map_append, List.map_cons, List.map_nil]
        have e : Mesh.shape (mkMesh st.vertices st.indices N1)
            = (N1, 3 * a1, List.range (3 * a1)) := by
          simp [Mesh.shape, mkMesh, hvl, hil]
        rw [e, heq]
        simp [groupShape]
      · rw [hv, hrest htog, List.append_nil]
  obtain ⟨hret, hsh, hfl⟩ := hshape
  refine ⟨hret, hsh, ?_, ?_, hfl, ?_⟩
  · have := congrArg List.length hsh
    simpa using this
  · intro m hm i hi
    have hmem : Mesh.shape m ∈ groups.map groupShape := by
      rw [← hsh]
      exact List.mem_map_of_mem _ hm
    obtain ⟨g, _, hg⟩ := List.mem_map.mp hmem
    simp only [groupShape, Mesh.shape, Prod.mk.injEq] at hg
    obtain ⟨_, hg2, hg3⟩ := hg
    rw [← hg3] at hi
    rw [← hg2]
    exact List.mem_range.mp hi
  · intro st l hn hempty
    rw [loadLine_named_group env st l hn]
    congr 1
    unfold loadGroup
    cases hlis : st.listening with
    | false => simp [hn]
    | true =>
      have hc : (!st.indices.isEmpty && !st.vertices.isEmpty) = false := by
        cases hi : st.indices.isEmpty <;> cases hv : st.vertices.isEmpty <;>
          simp [hi, hv] at hempty ⊢
      simp [hc, hn, ← hlis]

/-- Witness of C12: a group `A` of one triangle and a group `B` of two triangles. -/
theorem load_groups_witness :
    (load intEnv (Loader.new ℤ)
        "o A\nv 0 0 0\nv 1 0 0\nv 0 1 0\nf 1 2 3\ng B\nf 3 2 1\nf 1 2 3\n".toList).2 = .ok true
    ∧ (load intEnv (Loader.new ℤ)
        "o A\nv 0 0 0\nv 1 0 0\nv 0 1 0\nf 1 2 3\ng B\nf 3 2 1\nf 1 2 3\n".toList
        ).1.LoadedMeshes.map Mesh.shape
      = [("A".toList, 3, [0, 1, 2]), ("B".toList, 6, [0, 1, 2, 3, 4, 5])] :=
  ⟨(load_groups intEnv (Loader.new ℤ)
      "o A\nv 0 0 0\nv 1 0 0\nv 0 1 0\nf 1 2 3\ng B\nf 3 2 1\nf 1 2 3\n".toList
      [("o A".toList, ["v 0 0 0".toList, "v 1 0 0".toList, "v 0 1 0".toList, "f 1 2 3".toList]),
        ("g B".toList, ["f 3 2 1".toList, "f 1 2 3".toList])]
      (by decide!) (by decide!) (by decide!) (by decide!) (by decide!)).1,
    (load_groups intEnv (Loader.new ℤ)
      "o A\nv 0 0 0\nv 1 0 0\nv 0 1 0\nf 1 2 3\ng B\nf 3 2 1\nf 1 2 3\n".toList
      [("o A".toList, ["v 0 0 0".toList, "v 1 0 0".toList, "v 0 1 0".toList, "f 1 2 3".toList]),
        ("g B".toList, ["f 3 2 1".toList, "f 1 2 3".toList])]
      (by decide!) (by decide!) (by decide!) (by decide!) (by decide!)).2.1.trans (by decide!)⟩

theorem takeWhile_append_of_mem {α : Type} (p : α → Bool) (l2 : List α) :
    ∀ l1 : List α, (∃ x ∈ l1, p x = false) →
      (l1 ++ l2).takeWhile p = l1.takeWhile p
        ∧ (l1 ++ l2).dropWhile p = l1.dropWhile p ++ l2 ∧ l1.dropWhile p ≠ [] := by
  intro l1
  induction l1 with
  | nil => intro h; obtain ⟨x, hx, _⟩ := h; cases hx
  | cons y ys ih =>
    intro h
    by_cases hy : p y = true
    · obtain ⟨x, hx, hpx⟩ := h
      have hx1 : x ∈ ys := by
        rcases List.mem_cons.1 hx with hx | hx
        · subst hx
          rw [hy] at hpx
          cases hpx
        · exact hx
      obtain ⟨h1, h2, h3⟩ := ih ⟨x, hx1, hpx⟩
      simp [List.takeWhile, List.dropWhile, hy, h1, h2, h3]
    · have hy1 : p y = false := by simpa using hy
      simp [List.takeWhile, List.dropWhile, hy1]

/-- A material document without a newline after its last line: with the character `1` behind
the buffer the line `Ns 100` is read as `Ns 1001`, with a NUL behind the buffer it is read as it
stands. -/
theorem LoadMaterials_reads_past_buffer :
    (LoadMaterials strayEnv [] "newmtl m\nKd 1 2 3\nNs 100".toList).map
        (fun r => r.1.map (fun m => (m.name, m.Kd, m.Ns)))
      = .ok [("m".toList, ⟨1, 2, 3⟩, 1001)]
    ∧ (LoadMaterials intEnv [] "newmtl m\nKd 1 2 3\nNs 100".toList).map
        (fun r => r.1.map (fun m => (m.name, m.Kd, m.Ns)))
      = .ok [("m".toList, ⟨1, 2, 3⟩, 100)] := by
  decide!

theorem loadLine_inert {R : Type} [LinearOrderedCommRing R] (env : Env R) (st : LoadState R)
    (curline : Str) (hk : firstToken curline ∉ keywords) (hg : curline.head? ≠ some 'g') :
    loadLine env st curline = .ok st := by
  have ho : firstToken curline ≠ "o".toList := fun h => hk (by rw [h]; decide)
  have hgg : firstToken curline ≠ "g".toList := fun h => hk (by rw [h]; decide)
  have hv : firstToken curline ≠ "v".toList := fun h => hk (by rw [h]; decide)
  have hvt : firstToken curline ≠ "vt".toList := fun h => hk (by rw [h]; decide)
  have hvn : firstToken curline ≠ "vn".toList := fun h => hk (by rw [h]; decide)
  have hf : firstToken curline ≠ "f".toList := fun h => hk (by rw [h]; decide)
  have hu : firstToken curline ≠ "usemtl".toList := fun h => hk (by rw [h]; decide)
  have hm : firstToken curline ≠ "mtllib".toList := fun h => hk (by rw [h]; decide)
  have hgl : isGroupLine curline = false := by
    simp only [isGroupLine, ho, hgg, hg, decide_False, Bool.or_self]
  simp only [loadLine, hgl, hv, hvt, hvn, hf, hu, hm, if_false, Bool.false_eq_true, bind,
    Except.bind, pure, Except.pure]

theorem scan_insert {R : Type} [LinearOrderedCommRing R] (env : Env R) (l : Str)
    (hk : firstToken l ∉ keywords) (hg : l.head? ≠ some 'g') :
    ∀ (pre post : List Str) (st : LoadState R),
      scan env (pre ++ l :: post) st = scan env (pre ++ post) st := by
  intro pre
  induction pre with
  | nil =>
    intro post st
    rw [List.nil_append, List.nil_append, scan_cons, loadLine_inert env st l hk hg]
  | cons x pre ih =>
    intro post st
    rw [List.cons_append, List.cons_append, scan_cons env x (pre ++ l :: post) st,
      scan_cons env x (pre ++ post) st]
    cases loadLine env st x with
    | ok s => exact ih post s
    | error e => rfl

/-- Counterexample to C21 as stated: the first token of the line `gfoo` is none of the keywords,
but the line starts with the letter `g`, so the test of line 456 sends it to the group branch.
Inserted between the two faces of group `A` it ends the mesh `A` and starts a mesh named by the
tail of the line, the empty string: two meshes of three vertices instead of one mesh of six. -/
theorem load_g_line_counterexample :
    firstToken "gfoo".toList ∉ keywords
    ∧ (load intEnv (Loader.new ℤ)
        "v 0 0 0\nv 1 0 0\nv 0 1 0\no A\nf 1 2 3\nf 3 2 1\n".toList).1.LoadedMeshes.map Mesh.shape
      = [("A".toList, 6, [0, 1, 2, 3, 4, 5])]
    ∧ (load intEnv (Loader.new ℤ)
        "v 0 0 0\nv 1 0 0\nv 0 1 0\no A\nf 1 2 3\ngfoo\nf 3 2 1\n".toList
        ).1.LoadedMeshes.map Mesh.shape
      = [("A".toList, 3, [0, 1, 2]), ([], 3, [0, 1, 2])] := by
  decide!

/-- C21, amended.  A line whose first token is none of `o`, `g`, `v`, `vt`, `vn`, `f`, `usemtl`,
`mtllib` and whose first character is not the letter `g` is inert: it raises no error and
leaves every variable of the loop as it is, so a document with such a line inserted at any
position gives the same result of `load` as the document without it: the same data members and
the same value returned (or the same fault). -/
theorem load_inert_line {R : Type} [LinearOrderedCommRing R] (env : Env R) (self : Loader R)
    (stream stream1 : Str) (pre post : List Str) (l : Str)
    (hk : firstToken l ∉ keywords) (hg : l.head? ≠ some 'g')
    (hd : getlines stream = pre ++ post) (hd1 : getlines stream1 = pre ++ l :: post) :
    load env self stream1 = load env self stream
    ∧ ∀ st : LoadState R, loadLine env st l = .ok st := by
  refine ⟨?_, fun st => loadLine_inert env st l hk hg⟩
  unfold load
  rw [hd, hd1, scan_insert env l hk hg]

/-- Witness of C21 (amended): the line `s off` inserted before the face. -/
theorem load_inert_line_witness :
    load intEnv (Loader.new ℤ) "o A\nv 0 0 0\nv 1 0 0\nv 0 1 0\ns off\nf 1 2 3\n".toList
      = load intEnv (Loader.new ℤ) "o A\nv 0 0 0\nv 1 0 0\nv 0 1 0\nf 1 2 3\n".toList
    ∧ (load intEnv (Loader.new ℤ) "o A\nv 0 0 0\nv 1 0 0\nv 0 1 0\nf 1 2 3\n".toList).2
      = .ok true :=
  ⟨(load_inert_line intEnv (Loader.new ℤ)
      "o A\nv 0 0 0\nv 1 0 0\nv 0 1 0\nf 1 2 3\n".toList
      "o A\nv 0 0 0\nv 1 0 0\nv 0 1 0\ns off\nf 1 2 3\n".toList
      ["o A".toList, "v 0 0 0".toList, "v 1 0 0".toList, "v 0 1 0".toList] ["f 1 2 3".toList]
      "s off".toList (by decide!) (by decide!) (by decide!) (by decide!)).1,
    by decide!⟩

/-- C27, at the failing input: two `usemtl` lines before the only face.  The scan completes with
two names recorded and the document makes one mesh; the material file defines `m`, the second
name, so the loop of lines 665-679 writes `LoadedMeshes[1].MeshMaterial` in a vector of one
mesh.  The same happens, with no mesh at all, for a document whose only lines are `mtllib` and
`usemtl`. -/
theorem load_material_out_of_bounds :
    (scan mtlEnv
        (getlines "mtllib m.mtl\nv 0 0 0\nv 1 0 0\nv 0 1 0\nusemtl x\nusemtl m\nf 1 2 3\n".toList)
        (LoadState.init (Loader.new ℤ))).2 = none
    ∧ (scan mtlEnv
        (getlines "mtllib m.mtl\nv 0 0 0\nv 1 0 0\nv 0 1 0\nusemtl x\nusemtl m\nf 1 2 3\n".toList)
        (LoadState.init (Loader.new ℤ))).1.mesh_mat_names = ["x".toList, "m".toList]
    ∧ (load mtlEnv (Loader.new ℤ)
        "mtllib m.mtl\nv 0 0 0\nv 1 0 0\nv 0 1 0\nusemtl x\nusemtl m\nf 1 2 3\n".toList
        ).1.LoadedMeshes.length = 1
    ∧ (load mtlEnv (Loader.new ℤ)
        "mtllib m.mtl\nv 0 0 0\nv 1 0 0\nv 0 1 0\nusemtl x\nusemtl m\nf 1 2 3\n".toList).2
      = .error .out_of_bounds
    ∧ (load mtlEnv (Loader.new ℤ) "mtllib m.mtl\nusemtl m\n".toList).1.LoadedMeshes = []
    ∧ (load mtlEnv (Loader.new ℤ) "mtllib m.mtl\nusemtl m\n".toList).2
      = .error .out_of_bounds := by
  decide!

/-! ## The triangulation of faces of more than three vertices -/

theorem triLoop_fault {R : Type} [LinearOrderedCommRing R] (env : Env R)
    (i_verts : List (Vertex R)) :
    ∀ (fuel : Nat) (t_verts : List (Vertex R)) (o_indices : List Nat) (e : Fault),
      triLoop env i_verts fuel t_verts o_indices = .error e → e = .diverges := by
  intro fuel
  induction fuel with
  | zero =>
    intro t o e h
    unfold triLoop at h
    simp only at h
    split at h
    · cases h
    · split at h
      · cases h
      · split at h
        · split at h
          · cases h
          · split at h
            · cases h
            · injection h with h; exact h.symm
        · injection h with h; exact h.symm
  | succ fuel ih =>
    intro t o e h
    unfold triLoop at h
    simp only at h
    split at h
    · cases h
    · split at h
      · cases h
      · split at h
        · split at h
          · cases h
          · split at h
            · cases h
            · injection h with h; exact h.symm
        · exact ih _ _ e h

/-- The plane test of `inTriangle` is made on the point itself, not on its offset from the
triangle: a point of the plane of the triangle is rejected whenever that plane does not pass
through the origin. -/
theorem inTriangle_off_origin {R : Type} [LinearOrderedCommRing R]
    (point tri1 tri2 tri3 : Vector3 R)
    (horigin : DotV3 tri1 (GenTriNormal tri1 tri2 tri3) ≠ 0)
    (hplane : DotV3 (point - tri1) (GenTriNormal tri1 tri2 tri3) = 0) :
    inTriangle point tri1 tri2 tri3 = false := by
  have hsum : DotV3 point (GenTriNormal tri1 tri2 tri3)
      = DotV3 (point - tri1) (GenTriNormal tri1 tri2 tri3)
        + DotV3 tri1 (GenTriNormal tri1 tri2 tri3) := by
    have hx : (point - tri1).X = point.X - tri1.X := rfl
    have hy : (point - tri1).Y = point.Y - tri1.Y := rfl
    have hz : (point - tri1).Z = point.Z - tri1.Z := rfl
    simp only [DotV3, hx, hy, hz]
    ring
  have hne : DotV3 point (GenTriNormal tri1 tri2 tri3) ≠ 0 := by
    rw [hsum, hplane, zero_add]
    exact horigin
  unfold inTriangle
  simp only
  split
  · rfl
  · simp [projMagnitudeIsZero, hne]

/-- C24, at the failing input: the pentagon `(0,0) (4,0) (1,1) (4,4) (0,4)` in the plane
`z = 1`.  The vertex `(1,1,1)` lies inside the triangle of the first vertex with its neighbours
`(0,4,1)` and `(4,0,1)`: it passes the three `SameSide` tests and it is in the plane of the
triangle.  `inTriangle` projects the point itself on the normal `(0,0,16)`, finds a projection
that is not zero and answers false, so the first vertex is taken for an ear and the triangle
`0, 1, 4` is emitted with the vertex `2` inside it.  In the plane `z = 0` the same pentagon gets
the answer true, and the first triangle emitted is `0, 1, 2`. -/
theorem VertexTriangluation_ear_not_empty :
    ([vtx 0 0 1, vtx 4 0 1, vtx 1 1 1, vtx 4 4 1, vtx 0 4 1].map (fun v => v.Position)).Nodup
    ∧ (SameSide (⟨1, 1, 1⟩ : Vector3 ℤ) ⟨0, 4, 1⟩ ⟨0, 0, 1⟩ ⟨4, 0, 1⟩
        && SameSide (⟨1, 1, 1⟩ : Vector3 ℤ) ⟨0, 0, 1⟩ ⟨0, 4, 1⟩ ⟨4, 0, 1⟩
        && SameSide (⟨1, 1, 1⟩ : Vector3 ℤ) ⟨4, 0, 1⟩ ⟨0, 4, 1⟩ ⟨0, 0, 1⟩) = true
    ∧ GenTriNormal (⟨0, 4, 1⟩ : Vector3 ℤ) ⟨0, 0, 1⟩ ⟨4, 0, 1⟩ = ⟨0, 0, 16⟩
    ∧ DotV3 ((⟨1, 1, 1⟩ : Vector3 ℤ) - ⟨0, 4, 1⟩) ⟨0, 0, 16⟩ = 0
    ∧ inTriangle (⟨1, 1, 1⟩ : Vector3 ℤ) ⟨0, 4, 1⟩ ⟨0, 0, 1⟩ ⟨4, 0, 1⟩ = false
    ∧ inTriangle (⟨1, 1, 0⟩ : Vector3 ℤ) ⟨0, 4, 0⟩ ⟨0, 0, 0⟩ ⟨4, 0, 0⟩ = true
    ∧ isEar intEnv [vtx 0 0 1, vtx 4 0 1, vtx 1 1 1, vtx 4 4 1, vtx 0 4 1]
        [vtx 0 0 1, vtx 4 0 1, vtx 1 1 1, vtx 4 4 1, vtx 0 4 1] 0 = true
    ∧ VertexTriangluation intEnv [] [vtx 0 0 1, vtx 4 0 1, vtx 1 1 1, vtx 4 4 1, vtx 0 4 1]
      = .ok [0, 1, 4, 1, 2, 4, 2, 3, 4]
    ∧ VertexTriangluation intEnv [] [vtx 0 0 0, vtx 4 0 0, vtx 1 1 0, vtx 4 4 0, vtx 0 4 0]
      = .ok [0, 1, 2, 0, 2, 4, 2, 3, 4] := by
  decide

/-- A pass that finds no ear in a working list of five or more vertices, after a triangle has
been emitted, is repeated for ever: neither exit test of lines 965-970 holds. -/
theorem triLoop_stuck {R : Type} [LinearOrderedCommRing R] (env : Env R)
    (i_verts t_verts : List (Vertex R)) (o_indices : List Nat) (fuel : Nat)
    (h5 : 5 ≤ t_verts.length) (hnone : findEar env i_verts t_verts = none)
    (ho : o_indices ≠ []) :
    triLoop env i_verts fuel t_verts o_indices = .error .diverges := by
  have ht : t_verts ≠ [] := by
    intro h
    rw [h] at h5
    simp at h5
  unfold triLoop
  simp only
  rw [if_neg (by omega), if_neg (by omega), hnone]
  simp only [ho, ht, if_false]

/-- The loops return when every pass over a working list of five or more vertices finds an
ear. -/
theorem triLoop_returns {R : Type} [LinearOrderedCommRing R] (env : Env R)
    (i_verts : List (Vertex R)) :
    ∀ (fuel : Nat) (t_verts : List (Vertex R)) (o_indices : List Nat),
      4 ≤ t_verts.length → t_verts.length ≤ fuel →
      (∀ t : List (Vertex R), t.Sublist t_verts → 5 ≤ t.length →
        findEar env i_verts t ≠ none) →
      ∃ out, triLoop env i_verts fuel t_verts o_indices = .ok out := by
  intro fuel
  induction fuel with
  | zero =>
    intro t o h4 hle _
    omega
  | succ fuel ih =>
    intro t o h4 hle hear
    unfold triLoop
    simp only
    rw [if_neg (by omega)]
    by_cases hfour : t.length = 4
    · rw [if_pos hfour]
      exact ⟨_, rfl⟩
    · rw [if_neg hfour]
      cases hfe : findEar env i_verts t with
      | none => exact absurd hfe (hear t (List.Sublist.refl t) (by omega))
      | some i =>
        simp only
        have hi := findEar_lt env i_verts t i hfe
        have hlen := eraseCur_length (pCur t i).Position t
          (List.mem_map_of_mem _ (pCur_mem t i hi))
        exact ih _ _ (by omega) (by omega)
          (fun t1 hsub h5 => hear t1 (hsub.trans (eraseCur_sublist _ t)) h5)

/-- The function `VertexTriangluation` returns on every polygon on which every pass over a
working list of five or more vertices finds an ear (the working lists are sublists of the
polygon). -/
theorem VertexTriangluation_returns {R : Type} [LinearOrderedCommRing R] (env : Env R)
    (o_indices : List Nat) (i_verts : List (Vertex R))
    (hear : ∀ t ∈ i_verts.sublists, 5 ≤ t.length → findEar env i_verts t ≠ none) :
    ∃ out, VertexTriangluation env o_indices i_verts = .ok out := by
  unfold VertexTriangluation
  split
  · exact ⟨_, rfl⟩
  · split
    · exact ⟨_, rfl⟩
    · exact triLoop_returns env i_verts _ _ _ (by omega) le_rfl
        (fun t hsub h5 => hear t (List.mem_sublists.mpr hsub) h5)

/-- The function `VertexTriangluation` returns on every polygon of at most four vertices.  On a
polygon of five or more vertices whose first pass finds no ear it stops at once and returns
with no index emitted (the test `o_indices.empty()` of line 965), without reporting anything.
It has no failure report at all: a call that does not return normally does not return. -/
theorem VertexTriangluation_outcomes {R : Type} [LinearOrderedCommRing R] (env : Env R)
    (o_indices : List Nat) (i_verts : List (Vertex R)) :
    (i_verts.length ≤ 4 → ∃ out, VertexTriangluation env o_indices i_verts = .ok out)
    ∧ (5 ≤ i_verts.length → findEar env i_verts i_verts = none →
        VertexTriangluation env [] i_verts = .ok [])
    ∧ (∀ e, VertexTriangluation env o_indices i_verts = .error e → e = .diverges) := by
  refine ⟨?_, ?_, ?_⟩
  · intro h
    unfold VertexTriangluation
    split
    · exact ⟨_, rfl⟩
    · split
      · exact ⟨_, rfl⟩
      · have h4 : i_verts.length = 4 := by omega
        unfold triLoop
        simp only [h4]
        exact ⟨_, rfl⟩
  · intro h hnone
    unfold VertexTriangluation
    rw [if_neg (by omega), if_neg (by omega)]
    unfold triLoop
    simp only
    rw [if_neg (by omega), if_neg (by omega), hnone]
    rfl
  · intro e h
    unfold VertexTriangluation at h
    split at h
    · cases h
    · split at h
      · cases h
      · exact triLoop_fault env i_verts _ _ _ e h

/-- C23, at the failing input: two polygons in the plane `z = 0`, at pairwise distinct
positions, on which the call never returns.  For the six vertices the first pass emits the
triangle of the first vertex and erases it; every triangle of three consecutive vertices of the
five that remain has the erased vertex `(1,1)` inside it or on its boundary, so the pass finds
no ear, and since `o_indices` and `t_verts` are not empty neither exit test of lines 965-970
holds: `while (true)` repeats the same pass on the same data for ever, whatever the fuel given
to the loops.  The seven vertices are those of a polygon without crossing edges: two triangles
are emitted (at the indices 0 and 1 of the working lists), then no ear is found among the five
vertices that remain.  A face line with the six vertices makes `load` hang in the same way.  A
convex pentagon, every pass of which finds an ear, is triangulated and returned. -/
theorem VertexTriangluation_never_returns :
    ([vtx 1 1 0, vtx 3 1 0, vtx 0 2 0, vtx 1 0 0, vtx 1 3 0, vtx 0 0 0].map
        (fun v => v.Position)).Nodup
    ∧ findEar intEnv [vtx 1 1 0, vtx 3 1 0, vtx 0 2 0, vtx 1 0 0, vtx 1 3 0, vtx 0 0 0]
        [vtx 1 1 0, vtx 3 1 0, vtx 0 2 0, vtx 1 0 0, vtx 1 3 0, vtx 0 0 0] = some 0
    ∧ eraseCur (vtx 1 1 0).Position
        [vtx 1 1 0, vtx 3 1 0, vtx 0 2 0, vtx 1 0 0, vtx 1 3 0, vtx 0 0 0]
      = [vtx 3 1 0, vtx 0 2 0, vtx 1 0 0, vtx 1 3 0, vtx 0 0 0]
    ∧ findEar intEnv [vtx 1 1 0, vtx 3 1 0, vtx 0 2 0, vtx 1 0 0, vtx 1 3 0, vtx 0 0 0]
        [vtx 3 1 0, vtx 0 2 0, vtx 1 0 0, vtx 1 3 0, vtx 0 0 0] = none
    ∧ VertexTriangluation intEnv []
        [vtx 1 1 0, vtx 3 1 0, vtx 0 2 0, vtx 1 0 0, vtx 1 3 0, vtx 0 0 0] = .error .diverges
    ∧ triLoop intEnv [vtx 1 1 0, vtx 3 1 0, vtx 0 2 0, vtx 1 0 0, vtx 1 3 0, vtx 0 0 0] 1000
        [vtx 1 1 0, vtx 3 1 0, vtx 0 2 0, vtx 1 0 0, vtx 1 3 0, vtx 0 0 0] []
      = .error .diverges
    ∧ ([vtx 1 1 0, vtx 1 2 0, vtx 2 2 0, vtx 2 1 0, vtx 3 3 0, vtx 0 3 0, vtx 1 0 0].map
        (fun v => v.Position)).Nodup
    ∧ findEar intEnv
        [vtx 1 1 0, vtx 1 2 0, vtx 2 2 0, vtx 2 1 0, vtx 3 3 0, vtx 0 3 0, vtx 1 0 0]
        [vtx 1 1 0, vtx 1 2 0, vtx 2 2 0, vtx 2 1 0, vtx 3 3 0, vtx 0 3 0, vtx 1 0 0] = some 0
    ∧ findEar intEnv
        [vtx 1 1 0, vtx 1 2 0, vtx 2 2 0, vtx 2 1 0, vtx 3 3 0, vtx 0 3 0, vtx 1 0 0]
        [vtx 1 2 0, vtx 2 2 0, vtx 2 1 0, vtx 3 3 0, vtx 0 3 0, vtx 1 0 0] = some 1
    ∧ findEar intEnv
        [vtx 1 1 0, vtx 1 2 0, vtx 2 2 0, vtx 2 1 0, vtx 3 3 0, vtx 0 3 0, vtx 1 0 0]
        [vtx 1 2 0, vtx 2 1 0, vtx 3 3 0, vtx 0 3 0, vtx 1 0 0] = none
    ∧ VertexTriangluation intEnv []
        [vtx 1 1 0, vtx 1 2 0, vtx 2 2 0, vtx 2 1 0, vtx 3 3 0, vtx 0 3 0, vtx 1 0 0]
      = .error .diverges
    ∧ (load intEnv (Loader.new ℤ)
        "v 1 1 0\nv 3 1 0\nv 0 2 0\nv 1 0 0\nv 1 3 0\nv 0 0 0\nf 1 2 3 4 5 6\n".toList).2
      = .error .diverges
    ∧ VertexTriangluation intEnv [] [vtx 0 0 0, vtx 2 0 0, vtx 2 2 0, vtx 1 3 0, vtx 0 2 0]
      = .ok [0, 1, 4, 1, 2, 4, 2, 3, 4] := by
  decide!

/-- An example of a polygon whose first pass finds no ear: the call returns with nothing
emitted. -/
theorem VertexTriangluation_outcomes_example :
    5 ≤ [vtx 2 1 0, vtx 0 1 0, vtx 0 3 0, vtx 1 1 0, vtx 0 0 0, vtx 0 2 0].length
    ∧ findEar intEnv [vtx 2 1 0, vtx 0 1 0, vtx 0 3 0, vtx 1 1 0, vtx 0 0 0, vtx 0 2 0]
        [vtx 2 1 0, vtx 0 1 0, vtx 0 3 0, vtx 1 1 0, vtx 0 0 0, vtx 0 2 0] = none
    ∧ VertexTriangluation intEnv []
        [vtx 2 1 0, vtx 0 1 0, vtx 0 3 0, vtx 1 1 0, vtx 0 0 0, vtx 0 2 0] = .ok [] :=
  ⟨by decide, by decide,
    (VertexTriangluation_outcomes intEnv []
      [vtx 2 1 0, vtx 0 1 0, vtx 0 3 0, vtx 1 1 0, vtx 0 0 0, vtx 0 2 0]).2.1
      (by decide) (by decide)⟩

/-! ## The functions `split`, `firstToken` and `tail` -/

theorem getLast_cons_of_ne {α : Type} (x : α) (rest : List α) (h : rest ≠ []) :
    (x :: rest).getLast? = rest.getLast? := by
  cases rest with
  | nil => exact absurd rfl h
  | cons y ys => exact List.getLast?_cons_cons

theorem splitLoop_round_trip (c : Char) :
    ∀ (s temp : Str), s ≠ [] → s.getLast? ≠ some c →
      joinWith c (splitLoop c s temp) = temp ++ s
        ∧ (splitLoop c s temp).length = s.count c + 1 := by
  intro s
  induction s with
  | nil => intro temp h; exact absurd rfl h
  | cons x rest ih =>
    intro temp _ hlast
    by_cases hx : x = c
    · have hrest : rest ≠ [] := by
        intro hr
        rw [hr, hx] at hlast
        exact hlast rfl
      have hlast1 : rest.getLast? ≠ some c := by
        rw [getLast_cons_of_ne x rest hrest] at hlast
        exact hlast
      obtain ⟨hj, hl⟩ := ih [] hrest hlast1
      have hs : splitLoop c (x :: rest) temp = temp :: splitLoop c rest [] := by
        rw [splitLoop, if_pos hx]
        split
        · rfl
        · next hne =>
          have : temp = [] := by simpa using hne
          rw [this]
      rw [hs]
      cases hq : splitLoop c rest [] with
      | nil => rw [hq] at hl; simp at hl
      | cons q ps =>
        rw [hq] at hj hl
        constructor
        · rw [joinWith, hj, hx]
          simp
        · simp only [List.length_cons] at hl ⊢
          rw [hl, hx, List.count_cons_self]
    · by_cases hr : rest = []
      · subst hr
        simp [splitLoop, hx, joinWith, List.count_cons, Ne.symm hx]
      · have hlast1 : rest.getLast? ≠ some c := by
          rw [getLast_cons_of_ne x rest hr] at hlast
          exact hlast
        obtain ⟨hj, hl⟩ := ih (temp ++ [x]) hr hlast1
        have hs : splitLoop c (x :: rest) temp = splitLoop c rest (temp ++ [x]) := by
          rw [splitLoop, if_neg hx, if_neg hr]
        rw [hs, hj, hl]
        constructor
        · simp
        · rw [List.count_cons_of_ne (Ne.symm hx)]

/-- Claim C26.  Round trip of `split`: for a delimiter `c` of one character and a string `s`
that does not end with `c`, the pieces of `split` joined with `c` between consecutive pieces
give `s` again, and when `s` is not empty the number of pieces is the number of occurrences of
`c` in `s` plus one (two delimiters in a row give an empty piece). -/
theorem split_round_trip (s : Str) (c : Char) (h : s.getLast? ≠ some c) :
    joinWith c (split s c) = s ∧ (s ≠ [] → (split s c).length = s.count c + 1) := by
  by_cases hs : s = []
  · subst hs
    exact ⟨rfl, fun h => absurd rfl h⟩
  · obtain ⟨hj, hl⟩ := splitLoop_round_trip c s [] hs h
    exact ⟨by rw [split, hj, List.nil_append], fun _ => hl⟩

/-- Witness of C26: a vertex token with an empty middle piece, and a face tail with two blanks
in a row. -/
theorem split_round_trip_witness :
    split "1//3".toList '/' = ["1".toList, [], "3".toList]
    ∧ joinWith '/' (split "1//3".toList '/') = "1//3".toList
    ∧ (split " 1  2 3".toList ' ').length = " 1  2 3".toList.count ' ' + 1 :=
  ⟨by decide, (split_round_trip "1//3".toList '/' (by decide)).1,
    (split_round_trip " 1  2 3".toList ' ' (by decide)).2 (by decide)⟩

theorem findFrom_eq (p : Char → Bool) :
    ∀ (s : Str) (i : Nat), findFrom p s i
      = if s.dropWhile (fun c => !p c) = [] then none
        else some (i + (s.takeWhile (fun c => !p c)).length) := by
  intro s
  induction s with
  | nil => intro i; simp [findFrom]
  | cons c cs ih =>
    intro i
    by_cases hc : p c = true
    · simp [findFrom, hc, List.dropWhile, List.takeWhile]
    · have hc1 : p c = false := by simpa using hc
      rw [findFrom, if_neg hc, ih (i + 1)]
      simp only [List.dropWhile, List.takeWhile, hc1, Bool.not_false, List.length_cons]
      split
      · rfl
      · congr 1
        omega

theorem drop_takeWhile_length {α : Type} (p : α → Bool) :
    ∀ l : List α, l.drop (l.takeWhile p).length = l.dropWhile p := by
  intro l
  induction l with
  | nil => rfl
  | cons x xs ih =>
    by_cases hx : p x = true
    · simp [List.takeWhile, List.dropWhile, hx, ih]
    · have hx1 : p x = false := by simpa using hx
      simp [List.takeWhile, List.dropWhile, hx1]

theorem take_takeWhile_length {α : Type} (p : α → Bool) :
    ∀ l : List α, l.take (l.takeWhile p).length = l.takeWhile p := by
  intro l
  induction l with
  | nil => rfl
  | cons x xs ih =>
    by_cases hx : p x = true
    · simp [List.takeWhile, hx, ih]
    · have hx1 : p x = false := by simpa using hx
      simp [List.takeWhile, hx1]

theorem drop_add_takeWhile {α : Type} (p : α → Bool) (l X : List α) (k : Nat)
    (h : l.drop k = X) : l.drop (k + (X.takeWhile p).length) = X.dropWhile p := by
  rw [← drop_takeWhile_length p X, ← h, List.drop_drop]

theorem find_first_not_of_eq (inp X : Str) (k : Nat) (h : inp.drop k = X) :
    find_first_not_of inp blanks (some k)
      = if X.dropWhile isBlank = [] then none else some (k + (X.takeWhile isBlank).length) := by
  have e : (fun c => !decide (c ∉ blanks)) = isBlank := by
    funext c
    simp [isBlank]
  simp only [find_first_not_of, h, findFrom_eq, e]

theorem find_first_of_eq (inp X : Str) (k : Nat) (h : inp.drop k = X) :
    find_first_of inp blanks (some k)
      = if X.dropWhile (fun c => !isBlank c) = [] then none
        else some (k + (X.takeWhile (fun c => !isBlank c)).length) := by
  have e : (fun c => !decide (c ∈ blanks)) = (fun c => !isBlank c) := by
    funext c
    simp [isBlank]
  simp only [find_first_of, h, findFrom_eq, e]

theorem firstToken_eq (inp : Str) : firstToken inp = firstToken_spec inp := by
  unfold firstToken firstToken_spec
  by_cases hin : inp = []
  · subst hin
    rfl
  · rw [if_pos hin]
    simp only
    have h0 : inp.drop 0 = inp := rfl
    rw [find_first_not_of_eq inp inp 0 h0]
    by_cases hB : inp.dropWhile isBlank = []
    · rw [if_pos hB, hB]
      rfl
    · rw [if_neg hB]
      have hd : inp.drop (0 + (inp.takeWhile isBlank).length) = inp.dropWhile isBlank :=
        drop_add_takeWhile isBlank inp inp 0 h0
      rw [find_first_of_eq inp _ _ hd]
      by_cases hC : (inp.dropWhile isBlank).dropWhile (fun c => !isBlank c) = []
      · rw [if_pos hC]
        simp only
        rw [hd]
        have := List.takeWhile_append_dropWhile (fun c => !isBlank c) (inp.dropWhile isBlank)
        rw [hC, List.append_nil] at this
        exact this.symm
      · rw [if_neg hC]
        simp only [substr]
        rw [hd, Nat.add_sub_cancel_left]
        exact take_takeWhile_length _ _

theorem head_dropWhile_false {α : Type} (p : α → Bool) :
    ∀ (l : List α) (x : α) (r : List α), l.dropWhile p = x :: r → p x = false := by
  intro l
  induction l with
  | nil => intro x r h; cases h
  | cons y ys ih =>
    intro x r h
    by_cases hy : p y = true
    · simp only [List.dropWhile, hy] at h
      exact ih x r h
    · have hy1 : p y = false := by simpa using hy
      simp only [List.dropWhile, hy1] at h
      injection h with h _
      rw [← h]
      exact hy1

theorem take_append_length {α : Type} : ∀ (l1 l2 : List α), (l1 ++ l2).take l1.length = l1 := by
  intro l1
  induction l1 with
  | nil => intro l2; rfl
  | cons x xs ih => intro l2; simp [List.take, ih]

theorem tail_eq (inp : Str) : tail inp = tail_spec inp := by
  unfold tail tail_spec
  simp only
  have h0 : inp.drop 0 = inp := rfl
  rw [find_first_not_of_eq inp inp 0 h0]
  by_cases hB : inp.dropWhile isBlank = []
  · rw [if_pos hB, hB]
    rfl
  · rw [if_neg hB]
    have hd := drop_add_takeWhile isBlank inp inp 0 h0
    rw [find_first_of_eq inp _ _ hd]
    by_cases hC : (inp.dropWhile isBlank).dropWhile (fun c => !isBlank c) = []
    · rw [if_pos hC, hC]
      rfl
    · rw [if_neg hC]
      have hd2 := drop_add_takeWhile (fun c => !isBlank c) inp _ _ hd
      rw [find_first_not_of_eq inp _ _ hd2]
      by_cases hD : ((inp.dropWhile isBlank).dropWhile (fun c => !isBlank c)).dropWhile isBlank
          = []
      · rw [if_pos hD, hD]
        rfl
      · rw [if_neg hD]
        have hd3 := drop_add_takeWhile isBlank inp _ _ hd2
        have hhead : ∃ x ∈ (((inp.dropWhile isBlank).dropWhile (fun c => !isBlank c)).dropWhile
            isBlank).reverse, isBlank x = false := by
          cases hx : ((inp.dropWhile isBlank).dropWhile (fun c => !isBlank c)).dropWhile isBlank
            with
          | nil => exact absurd hx hD
          | cons x r =>
            exact ⟨x, by simp, head_dropWhile_false isBlank _ x r hx⟩
        generalize ((inp.dropWhile isBlank).dropWhile (fun c => !isBlank c)).dropWhile isBlank
          = D at hd3 hD hhead ⊢
        generalize 0 + (inp.takeWhile isBlank).length
          + ((inp.dropWhile isBlank).takeWhile (fun c => !isBlank c)).length
          + (((inp.dropWhile isBlank).dropWhile (fun c => !isBlank c)).takeWhile isBlank).length
          = ts at hd3 ⊢
        have hinp : inp.reverse = D.reverse ++ (inp.take ts).reverse := by
          rw [← List.reverse_append, ← hd3, List.take_append_drop]
        obtain ⟨h1, h2, h3⟩ := takeWhile_append_of_mem isBlank (inp.take ts).reverse D.reverse
          hhead
        have e : (fun c => !decide (c ∉ blanks)) = isBlank := by
          funext c
          simp [isBlank]
        have hlast : find_last_not_of inp blanks
            = some (inp.length - 1 - (D.reverse.takeWhile isBlank).length) := by
          simp only [find_last_not_of, findFrom_eq, e, hinp, h1, h2]
          rw [if_neg (by simp [h3])]
          simp
        rw [hlast]
        simp only [substr, hd3]
        have hZY := List.takeWhile_append_dropWhile isBlank D.reverse
        have hDrev : D = (D.reverse.dropWhile isBlank).reverse
            ++ (D.reverse.takeWhile isBlank).reverse := by
          rw [← List.reverse_append, hZY, List.reverse_reverse]
        have hlen : inp.length = ts + D.length := by
          have hl := congrArg List.length hd3
          rw [List.length_drop] at hl
          have hpos : 0 < D.length := List.length_pos.mpr hD
          omega
        have hDl : D.length = (D.reverse.dropWhile isBlank).length
            + (D.reverse.takeWhile isBlank).length := by
          have := congrArg List.length hDrev
          simpa using this
        have hY : 0 < (D.reverse.dropWhile isBlank).length := List.length_pos.mpr h3
        have hcount : inp.length - 1 - (D.reverse.takeWhile isBlank).length - ts + 1
            = (D.reverse.dropWhile isBlank).reverse.length := by
          rw [List.length_reverse]
          omega
        rw [hcount]
        have htake := take_append_length (D.reverse.dropWhile isBlank).reverse
          (D.reverse.takeWhile isBlank).reverse
        rw [← hDrev] at htake
        exact htake

/-- Claim C22.  Line classification: `firstToken` returns the maximal run of characters that are
neither space nor tab starting at the first such character (nothing for an empty line or a line
of spaces and tabs), and `tail` returns the rest of the line after the spaces and tabs that
follow that token, without its trailing spaces and tabs (nothing when the token is followed by
spaces and tabs only).  No character of the first token is a space or a tab, and whenever the
tail is not empty the line is `ws1 ++ firstToken ++ ws2 ++ tail ++ ws3` with `ws1`, `ws2`, `ws3`
runs of spaces and tabs, `ws2` not empty, and the tail neither starts nor ends with a space or
a tab. -/
theorem firstToken_tail_classification (inp : Str) :
    firstToken inp = firstToken_spec inp
    ∧ tail inp = tail_spec inp
    ∧ ((∀ c ∈ inp, isBlank c = true) → firstToken inp = [] ∧ tail inp = [])
    ∧ (∀ c ∈ firstToken inp, isBlank c = false)
    ∧ (tail inp ≠ [] → ∃ ws1 ws2 ws3 : Str,
        inp = ws1 ++ firstToken inp ++ ws2 ++ tail inp ++ ws3
        ∧ (∀ c ∈ ws1, isBlank c = true)
        ∧ ws2 ≠ [] ∧ (∀ c ∈ ws2, isBlank c = true)
        ∧ (∀ c ∈ ws3, isBlank c = true)
        ∧ (∀ c, (tail inp).head? = some c → isBlank c = false)
        ∧ (∀ c, (tail inp).getLast? = some c → isBlank c = false)) := by
  rw [firstToken_eq, tail_eq]
  refine ⟨rfl, rfl, ?_, ?_, ?_⟩
  · intro hall
    have hB : inp.dropWhile isBlank = [] := by
      rw [List.dropWhile_eq_nil_iff]
      exact hall
    simp [firstToken_spec, tail_spec, hB]
  · intro c hc
    have := List.mem_takeWhile_imp hc
    simpa using this
  · intro ht
    have hAB := List.takeWhile_append_dropWhile isBlank inp
    have hTC := List.takeWhile_append_dropWhile (fun c => !isBlank c) (inp.dropWhile isBlank)
    have hWD := List.takeWhile_append_dropWhile isBlank
      ((inp.dropWhile isBlank).dropWhile (fun c => !isBlank c))
    have hZY := List.takeWhile_append_dropWhile isBlank
      (((inp.dropWhile isBlank).dropWhile (fun c => !isBlank c)).dropWhile isBlank).reverse
    have hA : ∀ c ∈ inp.takeWhile isBlank, isBlank c = true :=
      fun c hc => List.mem_takeWhile_imp hc
    have hW : ∀ c ∈ ((inp.dropWhile isBlank).dropWhile (fun c => !isBlank c)).takeWhile isBlank,
        isBlank c = true := fun c hc => List.mem_takeWhile_imp hc
    have hZ : ∀ c ∈ ((((inp.dropWhile isBlank).dropWhile (fun c => !isBlank c)).dropWhile
        isBlank).reverse.takeWhile isBlank).reverse, isBlank c = true :=
      fun c hc => List.mem_takeWhile_imp (List.mem_reverse.mp hc)
    unfold tail_spec at ht ⊢
    unfold firstToken_spec
    generalize inp.takeWhile isBlank = A at hAB hA ⊢
    generalize inp.dropWhile isBlank = B at hAB hTC hWD hZY hW hZ ht ⊢
    generalize B.takeWhile (fun c => !isBlank c) = T at hTC ⊢
    have hChead : ∀ x r, B.dropWhile (fun c => !isBlank c) = x :: r → isBlank x = true := by
      intro x r hx
      have := head_dropWhile_false (fun c => !isBlank c) B x r hx
      simpa using this
    generalize B.dropWhile (fun c => !isBlank c) = C at hTC hWD hZY hW hZ ht hChead ⊢
    have hWne : C.takeWhile isBlank ≠ [] := by
      cases hC : C with
      | nil =>
        rw [hC] at ht
        exact absurd rfl ht
      | cons x r =>
        have := hChead x r hC
        simp [List.takeWhile, this]
    generalize C.takeWhile isBlank = W at hWD hW hWne ⊢
    have hDhead : ∀ x r, C.dropWhile isBlank = x :: r → isBlank x = false :=
      fun x r hx => head_dropWhile_false isBlank C x r hx
    generalize C.dropWhile isBlank = D at hWD hZY hZ ht hDhead ⊢
    have hYhead : ∀ x r, D.reverse.dropWhile isBlank = x :: r → isBlank x = false :=
      fun x r hx => head_dropWhile_false isBlank D.reverse x r hx
    generalize D.reverse.takeWhile isBlank = Zr at hZY hZ ⊢
    generalize D.reverse.dropWhile isBlank = Y at hZY ht hYhead ⊢
    have hD : D = Y.reverse ++ Zr.reverse := by
      rw [← List.reverse_append, hZY, List.reverse_reverse]
    have hYne : Y ≠ [] := fun h => ht (by rw [h]; rfl)
    refine ⟨A, W, Zr.reverse, ?_, hA, hWne, hW, hZ, ?_, ?_⟩
    · rw [← hAB, ← hTC, ← hWD, hD]
      simp [List.append_assoc]
    · intro c hc
      cases hYr : Y.reverse with
      | nil => rw [hYr] at hc; cases hc
      | cons x r =>
        rw [hYr] at hc hD
        simp only [List.head?_cons, Option.some.injEq] at hc
        subst hc
        exact hDhead x (r ++ Zr.reverse) hD
    · intro c hc
      rw [List.getLast?_reverse] at hc
      cases hY : Y with
      | nil => exact absurd hY hYne
      | cons x r =>
        rw [hY] at hc
        simp only [List.head?_cons, Option.some.injEq] at hc
        subst hc
        exact hYhead x r hY

/-- Witness of C22: a line with blanks before the keyword, between keyword and name, inside the
name and at the end. -/
theorem firstToken_tail_classification_witness :
    firstToken " \tusemtl  dark wood \t".toList = "usemtl".toList
    ∧ tail " \tusemtl  dark wood \t".toList = "dark wood".toList
    ∧ firstToken_spec " \tusemtl  dark wood \t".toList = "usemtl".toList
    ∧ tail_spec " \tusemtl  dark wood \t".toList = "dark wood".toList :=
  ⟨by decide, by decide,
    (firstToken_tail_classification " \tusemtl  dark wood \t".toList).1.symm.trans (by decide),
    (firstToken_tail_classification " \tusemtl  dark wood \t".toList).2.1.symm.trans
      (by decide)⟩
end objl
